import Mathlib

/-!
# TLC5940 driver (Wavulum): frame buffer, serial shift protocol, latch/blank interrupt

A shallow embedding of `src/TLC5940.cpp` / `src/TLC5940.h`.

Conventions of the embedding

* Machine integers are natural numbers; every store into a `uint8_t` is reduced
  `% 256`, every store into a `uint16_t` is reduced `% 65536`.  Arguments are
  values of their C types (`lednr < 256`, `intensity < 65536`).
* The frame buffer (`uint8_t *frame`, `malloc(numdrivers*24)`) is a `List Nat`.
  An index outside the list is undefined behaviour in C; here a store outside
  the list is dropped and a load outside reads `0`.  No access of an in-range
  channel falls outside the list, so this choice is never exercised by the
  statements below.
* Loops that may fail to terminate take a fuel argument and return `Option`;
  `none` means that the fuel ran out.
-/

/-! ## The driver object -/

/-- The private members of `class TLC5940`. -/
structure TLC5940 where
  shiftbits : Nat
  numdrivers : Nat
  frame : List Nat
deriving DecidableEq

namespace TLC5940

/-- The loop of `TLC5940::clear`:
`for (uint8_t i=0;i<this->numdrivers*24;i++) frame[i] = 0;`
entered at its condition with counter `i`.  The counter is a `uint8_t`, so the
increment wraps at 256; the bound `numdrivers*24` is an `int`. -/
def clearLoop : Nat → TLC5940 → Nat → Option TLC5940
  | 0, _, _ => none
  | fuel + 1, t, i =>
    if i < t.numdrivers * 24 then
      clearLoop fuel { t with frame := t.frame.set i 0 } ((i + 1) % 256)
    else
      some t

/-- `TLC5940::clear`. -/
def clear (fuel : Nat) (t : TLC5940) : Option TLC5940 :=
  clearLoop fuel t 0

/-- The block returned by `malloc(n)`: `n` bytes of unspecified content, given
by the oracle `heap`. -/
def malloc (heap : Nat → Nat) (n : Nat) : List Nat :=
  (List.range n).map (fun k => heap k % 256)

/-- Constructor `TLC5940::TLC5940(uint8_t numdrivers, uint8_t resolutionbits)`.
`shiftbits` is the `uint8_t` value of `12 - resolutionbits`. -/
def new (fuel : Nat) (heap : Nat → Nat) (numdrivers resolutionbits : Nat) : Option TLC5940 :=
  clear fuel
    { numdrivers := numdrivers
      shiftbits := (12 + 256 - resolutionbits) % 256
      frame := malloc heap (numdrivers * 24) }

/-- `TLC5940::setLED(uint8_t lednr, uint16_t intensity)`. -/
def setLED (t : TLC5940) (lednr intensity : Nat) : TLC5940 :=
  let bitnr := (lednr * 12) % 65536
  let bytenr := (bitnr >>> 3) % 256
  let startnibble := (bitnr &&& 7) != 0
  let intensity := (intensity <<< t.shiftbits) % 65536
  if !startnibble then
    let f1 := t.frame.set bytenr ((intensity >>> 4) % 256)
    { t with
      frame := f1.set (bytenr + 1)
        (((f1.getD (bytenr + 1) 0 &&& 0x0f) ||| ((intensity &&& 0x0f) <<< 4)) % 256) }
  else
    let f1 := t.frame.set bytenr (((t.frame.getD bytenr 0 &&& 0xf0) ||| (intensity >>> 8)) % 256)
    { t with frame := f1.set (bytenr + 1) ((intensity &&& 0xff) % 256) }

/-- `TLC5940::getLED(uint8_t lednr)`. -/
def getLED (t : TLC5940) (lednr : Nat) : Nat :=
  let bitnr := (lednr * 12) % 65536
  let bytenr := (bitnr >>> 3) % 256
  let startnibble := (bitnr &&& 7) != 0
  if !startnibble then
    ((t.frame.getD bytenr 0 <<< 4) ||| (t.frame.getD (bytenr + 1) 0 >>> 4)) % 65536
  else
    (((t.frame.getD bytenr 0 &&& 0xf0) <<< 4) ||| t.frame.getD (bytenr + 1) 0) % 65536

/-- The driver object a completed constructor call leaves: all `24 * N` bytes zero. -/
def zeroed (numdrivers resolutionbits : Nat) : TLC5940 :=
  { numdrivers := numdrivers
    shiftbits := (12 + 256 - resolutionbits) % 256
    frame := List.replicate (numdrivers * 24) 0 }

end TLC5940

/-! ## Reading the specification's packing format off a buffer -/

/-- Bit `k` of the frame as a bit string, bytes in order, most significant bit of
each byte first (the order in which `display` shifts the frame out). -/
def frameBit (frame : List Nat) (k : Nat) : Bool :=
  (frame.getD (k / 8) 0).testBit (7 - k % 8)

/-- The packing format in the words of the specification: the 12-bit field `f`
sits in the slot of channel `c`, which starts at byte `b = ⌊12·c/8⌋`; on a byte
boundary it fills byte `b` and the high nibble of byte `b+1`, otherwise the low
nibble of byte `b` and all of byte `b+1`. -/
def fieldStored (frame : List Nat) (c f : Nat) : Prop :=
  if 12 * c % 8 = 0 then
    frame.getD (12 * c / 8) 0 = f >>> 4 ∧ frame.getD (12 * c / 8 + 1) 0 >>> 4 = f &&& 0xF
  else
    frame.getD (12 * c / 8) 0 &&& 0xF = f >>> 8 ∧ frame.getD (12 * c / 8 + 1) 0 = f &&& 0xFF

instance (frame : List Nat) (c f : Nat) : Decidable (fieldStored frame c f) := by
  unfold fieldStored; infer_instance

/-! ## The microcontroller

Register and bit names are those of avr-libc's `<avr/io.h>` for the
ATmega48/88/168/328, which the source includes; the bit numbers below are the
ones that header gives.  The source is compiled with `FAST` defined, so the
`#ifdef FAST` branches are the ones embedded. -/

/-- Bit value `_BV(b)` of avr-libc: `1 << b`. -/
def _BV (b : Nat) : Nat := 1 <<< b

/-- The low eight bits of the C expression `~x`, as stored by `REG &= ~x` into an
8-bit register. -/
def not8 (x : Nat) : Nat := 0xFF ^^^ x

def PB0 : Nat := 0
def PB1 : Nat := 1
def PB2 : Nat := 2
def PB3 : Nat := 3
def PB4 : Nat := 4
def PB5 : Nat := 5

def SCLK_PIN : Nat := PB0
def XLAT_PIN : Nat := PB1
def BLANK_PIN : Nat := PB2
def GSCLK_PIN : Nat := PB3
def VPRG_PIN : Nat := PB4
def SIN_PIN : Nat := PB5

def WGM10 : Nat := 0
def CS10 : Nat := 0
def CS11 : Nat := 1
def CS12 : Nat := 2
def WGM12 : Nat := 3
def CS20 : Nat := 0
def WGM21 : Nat := 1
def COM2A0 : Nat := 6
def TOIE1 : Nat := 0

/-- The I/O registers the driver stores to, other than `PORTB`. -/
inductive Reg
  | DDRB | TCCR1A | TCCR1B | TCCR2A | TCCR2B | OCR2A | TCNT1 | TCNT2 | TIMSK1
deriving DecidableEq

/-- One volatile store, as it is observable from outside the program. -/
inductive Ev
  /-- `PORTB |= _BV(bit)` (`level = true`) or `PORTB &= ~_BV(bit)` (`level = false`);
  `port` is the value of `PORTB` after the store, that is the level of every line. -/
  | pin (bit : Nat) (level : Bool) (port : Nat)
  /-- A store of `v` to another I/O register. -/
  | reg (r : Reg) (v : Nat)
  /-- A store to `tlc5940_needpulse`. -/
  | needpulse (b : Bool)
  /-- A store to `tlc5940_transferdone`. -/
  | transferdone (b : Bool)
  /-- `cli()` (`enable = false`) or `sei()` (`enable = true`). -/
  | irq (enable : Bool)
deriving DecidableEq

/-- The state outside the driver object: I/O registers, the global interrupt
enable, the two `static volatile bool` flags of the source, and the log of all
volatile stores so far, oldest first. -/
structure Machine where
  PORTB : Nat
  DDRB : Nat
  TCCR1A : Nat
  TCCR1B : Nat
  TCCR2A : Nat
  TCCR2B : Nat
  OCR2A : Nat
  TCNT1 : Nat
  TCNT2 : Nat
  TIMSK1 : Nat
  sreg_I : Bool
  tlc5940_needpulse : Bool
  tlc5940_transferdone : Bool
  trace : List Ev
deriving DecidableEq

namespace Machine

/-- `PORTB |= _BV(bit);` (`TLCPORT` is `PORTB`). -/
def setb (m : Machine) (bit : Nat) : Machine :=
  { m with
    PORTB := m.PORTB ||| _BV bit
    trace := m.trace ++ [Ev.pin bit true (m.PORTB ||| _BV bit)] }

/-- `PORTB &= ~_BV(bit);` -/
def clrb (m : Machine) (bit : Nat) : Machine :=
  { m with
    PORTB := m.PORTB &&& not8 (_BV bit)
    trace := m.trace ++ [Ev.pin bit false (m.PORTB &&& not8 (_BV bit))] }

/-- A store `r = v;` to one of the other I/O registers. -/
def wr (m : Machine) (r : Reg) (v : Nat) : Machine :=
  let m := { m with trace := m.trace ++ [Ev.reg r v] }
  match r with
  | Reg.DDRB => { m with DDRB := v }
  | Reg.TCCR1A => { m with TCCR1A := v }
  | Reg.TCCR1B => { m with TCCR1B := v }
  | Reg.TCCR2A => { m with TCCR2A := v }
  | Reg.TCCR2B => { m with TCCR2B := v }
  | Reg.OCR2A => { m with OCR2A := v }
  | Reg.TCNT1 => { m with TCNT1 := v }
  | Reg.TCNT2 => { m with TCNT2 := v }
  | Reg.TIMSK1 => { m with TIMSK1 := v }

/-- `tlc5940_needpulse = b;` -/
def setNeedpulse (m : Machine) (b : Bool) : Machine :=
  { m with tlc5940_needpulse := b, trace := m.trace ++ [Ev.needpulse b] }

/-- `tlc5940_transferdone = b;` -/
def setTransferdone (m : Machine) (b : Bool) : Machine :=
  { m with tlc5940_transferdone := b, trace := m.trace ++ [Ev.transferdone b] }

/-- `cli();` -/
def cli (m : Machine) : Machine :=
  { m with sreg_I := false, trace := m.trace ++ [Ev.irq false] }

/-- `sei();` -/
def sei (m : Machine) : Machine :=
  { m with sreg_I := true, trace := m.trace ++ [Ev.irq true] }

end Machine

/-- The loop shared by `shift6` and `shift8`,
`for (uint8_t i=…;i;i>>=1) { if (v&i) SIN high; else SIN low; SCLK high; SCLK low; }`,
entered at its condition with mask `i`. -/
def shiftLoop (v : Nat) (i : Nat) (m : Machine) : Machine :=
  if i = 0 then m
  else
    let m := if (v &&& i) != 0 then m.setb SIN_PIN else m.clrb SIN_PIN
    let m := m.setb SCLK_PIN
    let m := m.clrb SCLK_PIN
    shiftLoop v ((i >>> 1) % 256) m
termination_by i
decreasing_by
  have h : i >>> 1 = i / 2 := by rw [Nat.shiftRight_eq_div_pow, pow_one]
  rw [h]
  omega

/-- `static void shift6(uint8_t v)`. -/
def shift6 (v : Nat) (m : Machine) : Machine := shiftLoop v 0x20 m

/-- `static void shift8(uint8_t v)`. -/
def shift8 (v : Nat) (m : Machine) : Machine := shiftLoop v 0x80 m

/-- The spin-wait `while (tlc5940_transferdone) {}` when no interrupt is served
while it runs: nothing else clears the flag, so it returns only if the flag is
already clear. -/
def spinWait : Nat → Machine → Option Machine
  | 0, _ => none
  | fuel + 1, m => if m.tlc5940_transferdone then spinWait fuel m else some m

namespace TLC5940

/-- The loop of `setGlobalDC`,
`for (uint8_t i=0;i<this->numdrivers*16;i++) shift6(dcval);`, at its condition. -/
def dcLoop : Nat → TLC5940 → Nat → Nat → Machine → Option Machine
  | 0, _, _, _, _ => none
  | fuel + 1, t, dcval, i, m =>
    if i < t.numdrivers * 16 then dcLoop fuel t dcval ((i + 1) % 256) (shift6 dcval m)
    else some m

/-- `TLC5940::setGlobalDC(uint8_t dcval)`, run without being interrupted. -/
def setGlobalDC (fuel : Nat) (t : TLC5940) (dcval : Nat) (m : Machine) : Option Machine := do
  let m ← spinWait fuel m
  let m := m.setb VPRG_PIN
  let m ← dcLoop fuel t dcval 0 m
  let m := m.setb XLAT_PIN
  let m := m.clrb XLAT_PIN
  let m := m.clrb VPRG_PIN
  pure (m.setNeedpulse true)

/-- The loop of `display`,
`for (uint8_t i=0;i<numdrivers*24;i++) shift8(frame[i]);`, at its condition. -/
def displayLoop : Nat → TLC5940 → Nat → Machine → Option Machine
  | 0, _, _, _ => none
  | fuel + 1, t, i, m =>
    if i < t.numdrivers * 24 then displayLoop fuel t ((i + 1) % 256) (shift8 (t.frame.getD i 0) m)
    else some m

/-- `TLC5940::display()`, run without being interrupted. -/
def display (fuel : Nat) (t : TLC5940) (m : Machine) : Option Machine := do
  let m ← spinWait fuel m
  let m := m.clrb VPRG_PIN
  let m ← displayLoop fuel t 0 m
  pure (m.setTransferdone true)

/-- `TLC5940::init()`, run without being interrupted. -/
def init (fuel : Nat) (t : TLC5940) (m : Machine) : Option Machine := do
  let m := m.cli
  let m := m.wr Reg.DDRB
    (m.DDRB ||| (_BV BLANK_PIN ||| _BV XLAT_PIN ||| _BV SCLK_PIN |||
      _BV SIN_PIN ||| _BV GSCLK_PIN ||| _BV VPRG_PIN))
  let m := m.clrb BLANK_PIN
  let m := m.clrb XLAT_PIN
  let m := m.clrb SCLK_PIN
  let m := m.clrb GSCLK_PIN
  let m ← setGlobalDC fuel t 63 m
  let m := m.wr Reg.TCCR2A (_BV WGM21 ||| _BV COM2A0)
  let m := m.wr Reg.TCCR2B (_BV CS20)
  let m := m.wr Reg.OCR2A 1
  let m := m.wr Reg.TCNT2 0
  let m := m.wr Reg.TCCR1A (_BV WGM10)
  let m := m.wr Reg.TCCR1B (_BV CS11 ||| _BV CS10 ||| _BV WGM12)
  let m := m.wr Reg.TIMSK1 (_BV TOIE1)
  let m := m.wr Reg.TCNT1 0
  let m := m.sei
  display fuel t m

end TLC5940

/-- The interrupt handler `ISR(TIMER1_OVF_vect)`, one whole firing. -/
def TIMER1_OVF_vect (m : Machine) : Machine :=
  let m := m.setb BLANK_PIN
  let m := m.wr Reg.TCCR1B (m.TCCR1B &&& not8 (_BV CS11))
  let m := m.wr Reg.TCCR2B (m.TCCR2B &&& not8 (_BV CS20))
  let m :=
    if m.tlc5940_transferdone then
      let m := m.setb XLAT_PIN
      let m := m.clrb XLAT_PIN
      let m := m.setTransferdone false
      if m.tlc5940_needpulse then
        let m := m.setb SCLK_PIN
        let m := m.clrb SCLK_PIN
        m.setNeedpulse false
      else m
    else m
  let m := m.clrb BLANK_PIN
  let m := m.wr Reg.TCNT2 0
  let m := m.wr Reg.TCNT1 0
  let m := m.wr Reg.TCCR1B (m.TCCR1B ||| _BV CS11)
  m.wr Reg.TCCR2B (m.TCCR2B ||| _BV CS20)

/-! ## Observations on the log of stores -/

/-- The action of an event on a port line, forgetting the resulting port value. -/
def Ev.act : Ev → Option (Nat × Bool)
  | Ev.pin bit level _ => some (bit, level)
  | _ => none

/-- The serial data the chips clock in: the level of the serial-data line at each
store that drives the serial clock high. -/
def sampled : List Ev → List Bool
  | [] => []
  | Ev.pin bit true port :: es =>
    if bit = SCLK_PIN then port.testBit SIN_PIN :: sampled es else sampled es
  | _ :: es => sampled es

/-- Number of stores in the log that drive line `bit` high. -/
def risings (bit : Nat) (tr : List Ev) : Nat :=
  (tr.filter (fun e => e.act == some (bit, true))).length

/-- The eight bits of a byte, most significant first. -/
def byteBits (v : Nat) : List Bool :=
  (List.range 8).map (fun k => v.testBit (7 - k))

/-- The frame as the bit string that `display` shifts out. -/
def frameBits (frame : List Nat) : List Bool :=
  frame.flatMap byteBits

/-- The number a bit string denotes, most significant bit first. -/
def bitsToNat (bs : List Bool) : Nat :=
  bs.foldl (fun acc b => 2 * acc + b.toNat) 0

/-- The last `n` entries of a list. -/
def lastN {α : Type} (n : Nat) (l : List α) : List α :=
  l.drop (l.length - n)

/-! ## What one pass of the shift loop does to the port

These restate the three stores of the loop body as functions of the port value
alone; the theorems show that `shiftLoop` performs exactly them. -/

/-- Port value after the three stores of one loop pass that sends bit `b`. -/
def bitPort (b : Bool) (p : Nat) : Nat :=
  ((if b then p ||| _BV SIN_PIN else p &&& not8 (_BV SIN_PIN)) ||| _BV SCLK_PIN)
    &&& not8 (_BV SCLK_PIN)

/-- The three stores of one loop pass that sends bit `b`, from port value `p`. -/
def bitEvents (b : Bool) (p : Nat) : List Ev :=
  let p1 := if b then p ||| _BV SIN_PIN else p &&& not8 (_BV SIN_PIN)
  [Ev.pin SIN_PIN b p1, Ev.pin SCLK_PIN true (p1 ||| _BV SCLK_PIN),
    Ev.pin SCLK_PIN false ((p1 ||| _BV SCLK_PIN) &&& not8 (_BV SCLK_PIN))]

/-- Port value after sending the bits `bs` in order. -/
def bitsPort : List Bool → Nat → Nat
  | [], p => p
  | b :: bs, p => bitsPort bs (bitPort b p)

/-- The stores that send the bits `bs` in order, from port value `p`. -/
def bitsEvents : List Bool → Nat → List Ev
  | [], _ => []
  | b :: bs, p => bitEvents b p ++ bitsEvents bs (bitPort b p)

/-- The pin actions that send one bit: data line to the bit, clock high, clock low. -/
def bitActs (b : Bool) : List (Nat × Bool) :=
  [(SIN_PIN, b), (SCLK_PIN, true), (SCLK_PIN, false)]

/-- The six low bits of a value, most significant first. -/
def sixBits (v : Nat) : List Bool :=
  (List.range 6).map (fun k => v.testBit (5 - k))

/-- The machine after the stores that send the bits `bs`. -/
def Machine.sent (m : Machine) (bs : List Bool) : Machine :=
  { m with PORTB := bitsPort bs m.PORTB, trace := m.trace ++ bitsEvents bs m.PORTB }

/-- The machine after reset: every I/O register reads zero, interrupts are
disabled, both flags hold their initialiser `false`, nothing has been stored. -/
def Machine.reset : Machine :=
  { PORTB := 0, DDRB := 0, TCCR1A := 0, TCCR1B := 0, TCCR2A := 0, TCCR2B := 0, OCR2A := 0,
    TCNT1 := 0, TCNT2 := 0, TIMSK1 := 0, sreg_I := false,
    tlc5940_needpulse := false, tlc5940_transferdone := false, trace := [] }

/-! ## Hardware reading of the timer registers

Whether a timer counts is decided by the clock-select field of its control
register B (ATmega48/88/168 data sheet, tables "Clock Select Bit Description"):
field value 0 is "no clock source (timer/counter stopped)", every other value
selects a clock. -/

def CS21 : Nat := 1
def CS22 : Nat := 2

/-- Clock-select field `CS12:CS11:CS10` of a `TCCR1B` value. -/
def clockSelect1 (tccr1b : Nat) : Nat :=
  tccr1b &&& (_BV CS12 ||| _BV CS11 ||| _BV CS10)

/-- Clock-select field `CS22:CS21:CS20` of a `TCCR2B` value. -/
def clockSelect2 (tccr2b : Nat) : Nat :=
  tccr2b &&& (_BV CS22 ||| _BV CS21 ||| _BV CS20)

/-- An event with the port value forgotten, so that logs can be compared
whatever the levels of the lines not driven. -/
def Ev.unport : Ev → Ev
  | Ev.pin bit level _ => Ev.pin bit level 0
  | e => e

/-- Whether an event is a store to a port line `bit`. -/
def Ev.drives (bit : Nat) : Ev → Bool
  | Ev.pin b _ _ => b == bit
  | _ => false

/-- Whether an event is a store to one of the two flags. -/
def Ev.isFlag : Ev → Bool
  | Ev.needpulse _ => true
  | Ev.transferdone _ => true
  | _ => false

/-! ## The owner's code as single steps, interleaved with the interrupt

For the interleaving claims the owner's calls are cut at every store: what is
left to do of the current call is a list of `Instr`, each one store or one loop
test.  The interrupt handler runs as a whole between any two of them. -/

/-- One step of the owner's code. -/
inductive Instr
  /-- One test of `while (tlc5940_transferdone) {}`. -/
  | wait
  /-- No code: records the frame in the history variable `shown`, at the point
  where `display` has passed its wait. -/
  | snap
  /-- `PORTB |= _BV(bit);` -/
  | setb (bit : Nat)
  /-- `PORTB &= ~_BV(bit);` -/
  | clrb (bit : Nat)
  /-- `DDRB |= mask;` -/
  | orDDRB (mask : Nat)
  /-- `r = v;` for an I/O register. -/
  | store (r : Reg) (v : Nat)
  /-- `cli();` / `sei();` -/
  | irq (enable : Bool)
  /-- `tlc5940_needpulse = b;` -/
  | needpulse (b : Bool)
  /-- `tlc5940_transferdone = b;` -/
  | transferdone (b : Bool)
  /-- The loop of `shift6`/`shift8` at its condition, mask `i`. -/
  | shift (v i : Nat)
  /-- The loop of `display` at its condition, counter `i`. -/
  | displayLoop (i : Nat)
  /-- The loop of `setGlobalDC` at its condition, counter `i`. -/
  | dcLoop (dcval i : Nat)
  /-- The loop of `clear` at its condition, counter `i`. -/
  | clearLoop (i : Nat)
  /-- `frame[i] = 0;` -/
  | zero (i : Nat)
  /-- A whole call `setLED(lednr, intensity)`; it stores to the frame only. -/
  | setLED (lednr intensity : Nat)
deriving DecidableEq

/-- The driver, the machine, what is left of the owner's current call, and the
history variable `shown`: the frame as it was when the most recent `display`
passed its wait. -/
structure Sys where
  tlc : TLC5940
  hw : Machine
  todo : List Instr
  shown : List Nat
deriving DecidableEq

/-- `display()` cut into steps. -/
def displayCode : List Instr :=
  [Instr.wait, Instr.snap, Instr.clrb VPRG_PIN, Instr.displayLoop 0, Instr.transferdone true]

/-- `setGlobalDC(dcval)` cut into steps. -/
def setGlobalDCCode (dcval : Nat) : List Instr :=
  [Instr.wait, Instr.setb VPRG_PIN, Instr.dcLoop dcval 0, Instr.setb XLAT_PIN,
    Instr.clrb XLAT_PIN, Instr.clrb VPRG_PIN, Instr.needpulse true]

/-- `clear()` cut into steps. -/
def clearCode : List Instr := [Instr.clearLoop 0]

/-- The steps of `init()` before its call of `setGlobalDC`. -/
def initPins : List Instr :=
  [Instr.irq false,
    Instr.orDDRB (_BV BLANK_PIN ||| _BV XLAT_PIN ||| _BV SCLK_PIN |||
      _BV SIN_PIN ||| _BV GSCLK_PIN ||| _BV VPRG_PIN),
    Instr.clrb BLANK_PIN, Instr.clrb XLAT_PIN, Instr.clrb SCLK_PIN, Instr.clrb GSCLK_PIN]

/-- The steps of `init()` between its calls of `setGlobalDC` and `display`. -/
def initTimers : List Instr :=
  [Instr.store Reg.TCCR2A (_BV WGM21 ||| _BV COM2A0), Instr.store Reg.TCCR2B (_BV CS20),
    Instr.store Reg.OCR2A 1, Instr.store Reg.TCNT2 0, Instr.store Reg.TCCR1A (_BV WGM10),
    Instr.store Reg.TCCR1B (_BV CS11 ||| _BV CS10 ||| _BV WGM12),
    Instr.store Reg.TIMSK1 (_BV TOIE1), Instr.store Reg.TCNT1 0, Instr.irq true]

/-- `init()` cut into steps. -/
def initCode : List Instr :=
  initPins ++ setGlobalDCCode 63 ++ initTimers ++ displayCode

namespace Sys

/-- The owner performs the next step of its current call. -/
def next (s : Sys) : Sys :=
  match s.todo with
  | [] => s
  | Instr.wait :: k => if s.hw.tlc5940_transferdone then s else { s with todo := k }
  | Instr.snap :: k => { s with shown := s.tlc.frame, todo := k }
  | Instr.setb bit :: k => { s with hw := s.hw.setb bit, todo := k }
  | Instr.clrb bit :: k => { s with hw := s.hw.clrb bit, todo := k }
  | Instr.orDDRB mask :: k => { s with hw := s.hw.wr Reg.DDRB (s.hw.DDRB ||| mask), todo := k }
  | Instr.store r v :: k => { s with hw := s.hw.wr r v, todo := k }
  | Instr.irq enable :: k => { s with hw := if enable then s.hw.sei else s.hw.cli, todo := k }
  | Instr.needpulse b :: k => { s with hw := s.hw.setNeedpulse b, todo := k }
  | Instr.transferdone b :: k => { s with hw := s.hw.setTransferdone b, todo := k }
  | Instr.shift v i :: k =>
    if i = 0 then { s with todo := k }
    else
      { s with
        todo := (if (v &&& i) != 0 then Instr.setb SIN_PIN else Instr.clrb SIN_PIN) ::
          Instr.setb SCLK_PIN :: Instr.clrb SCLK_PIN :: Instr.shift v ((i >>> 1) % 256) :: k }
  | Instr.displayLoop i :: k =>
    if i < s.tlc.numdrivers * 24 then
      { s with
        todo := Instr.shift (s.tlc.frame.getD i 0) 0x80 :: Instr.displayLoop ((i + 1) % 256) :: k }
    else { s with todo := k }
  | Instr.dcLoop dcval i :: k =>
    if i < s.tlc.numdrivers * 16 then
      { s with todo := Instr.shift dcval 0x20 :: Instr.dcLoop dcval ((i + 1) % 256) :: k }
    else { s with todo := k }
  | Instr.clearLoop i :: k =>
    if i < s.tlc.numdrivers * 24 then
      { s with todo := Instr.zero i :: Instr.clearLoop ((i + 1) % 256) :: k }
    else { s with todo := k }
  | Instr.zero i :: k => { s with tlc := { s.tlc with frame := s.tlc.frame.set i 0 }, todo := k }
  | Instr.setLED lednr intensity :: k => { s with tlc := s.tlc.setLED lednr intensity, todo := k }

/-- One whole firing of the interrupt handler; it has no access to the driver
object. -/
def irq (s : Sys) : Sys :=
  { s with hw := TIMER1_OVF_vect s.hw }

/-- A display shift is in progress: of the steps still to do, a test of the
`display` loop comes before any wait. -/
def shifting : List Instr → Bool
  | [] => false
  | Instr.wait :: _ => false
  | Instr.displayLoop _ :: _ => true
  | _ :: k => shifting k

end Sys

/-- The steps of the system: between two calls the owner starts any call with
in-range arguments; within a call it performs the next step; at any point the
interrupt handler may fire, as a whole.  A store to a port line is one step (on
the AVR a single `sbi`/`cbi` instruction).  The handler is allowed to fire also
where the machine has interrupts disabled (before `init`, between `cli` and
`sei`); that only adds behaviours. -/
inductive Step : Sys → Sys → Prop
  | callInit (s : Sys) : s.todo = [] → Step s { s with todo := initCode }
  | callDisplay (s : Sys) : s.todo = [] → Step s { s with todo := displayCode }
  | callSetGlobalDC (s : Sys) (dcval : Nat) : s.todo = [] → dcval < 256 →
      Step s { s with todo := setGlobalDCCode dcval }
  | callClear (s : Sys) : s.todo = [] → Step s { s with todo := clearCode }
  | callSetLED (s : Sys) (lednr intensity : Nat) : s.todo = [] →
      lednr < s.tlc.numdrivers * 16 → lednr < 256 → intensity < 65536 →
      Step s { s with todo := [Instr.setLED lednr intensity] }
  | owner (s : Sys) : s.todo ≠ [] → Step s s.next
  | irq (s : Sys) : Step s s.irq

/-- The states the system can be in: it starts between calls with both flags
clear, nothing stored yet, and a frame of `24 * numdrivers` bytes. -/
inductive Reachable : Sys → Prop
  | start (t : TLC5940) (m : Machine) :
      t.frame.length = t.numdrivers * 24 → m.tlc5940_transferdone = false →
      m.tlc5940_needpulse = false → m.trace = [] →
      Reachable { tlc := t, hw := m, todo := [], shown := [] }
  | step (s s2 : Sys) : Reachable s → Step s s2 → Reachable s2

/-- The stores of one firing of the interrupt handler from machine state `m`. -/
def isrEvents (m : Machine) : List Ev :=
  (TIMER1_OVF_vect m).trace.drop m.trace.length

/-! ## The invariant of the interleaved system

Everything from here to the theorems serves the proof of the interleaving
claims: a classification of what the owner still has to do. -/

/-- A step that neither clocks the serial line, nor touches
`tlc5940_transferdone` or the history variable, nor waits. -/
def Instr.calm : Instr → Bool
  | Instr.setb bit => bit != SCLK_PIN
  | Instr.clrb _ => true
  | Instr.orDDRB _ => true
  | Instr.store _ _ => true
  | Instr.irq _ => true
  | Instr.needpulse _ => true
  | Instr.clearLoop _ => true
  | Instr.zero _ => true
  | Instr.setLED _ _ => true
  | _ => false

/-- A step that neither touches `tlc5940_transferdone` or the history variable,
nor waits, nor belongs to the loop of `display`. -/
def Instr.quiet : Instr → Bool
  | Instr.wait => false
  | Instr.snap => false
  | Instr.transferdone _ => false
  | Instr.displayLoop _ => false
  | _ => true

/-- The steps a loop test is replaced by; empty for a plain store. -/
def Instr.expand (t : TLC5940) : Instr → List Instr
  | Instr.shift v i =>
    if i = 0 then []
    else [if (v &&& i) != 0 then Instr.setb SIN_PIN else Instr.clrb SIN_PIN,
      Instr.setb SCLK_PIN, Instr.clrb SCLK_PIN, Instr.shift v ((i >>> 1) % 256)]
  | Instr.displayLoop i =>
    if i < t.numdrivers * 24 then
      [Instr.shift (t.frame.getD i 0) 0x80, Instr.displayLoop ((i + 1) % 256)]
    else []
  | Instr.dcLoop dcval i =>
    if i < t.numdrivers * 16 then [Instr.shift dcval 0x20, Instr.dcLoop dcval ((i + 1) % 256)]
    else []
  | Instr.clearLoop i =>
    if i < t.numdrivers * 24 then [Instr.zero i, Instr.clearLoop ((i + 1) % 256)] else []
  | _ => []

/-- The effect of a step on driver, machine and history variable. -/
def Instr.effect (s : Sys) : Instr → Sys
  | Instr.snap => { s with shown := s.tlc.frame }
  | Instr.setb bit => { s with hw := s.hw.setb bit }
  | Instr.clrb bit => { s with hw := s.hw.clrb bit }
  | Instr.orDDRB mask => { s with hw := s.hw.wr Reg.DDRB (s.hw.DDRB ||| mask) }
  | Instr.store r v => { s with hw := s.hw.wr r v }
  | Instr.irq enable => { s with hw := if enable then s.hw.sei else s.hw.cli }
  | Instr.needpulse b => { s with hw := s.hw.setNeedpulse b }
  | Instr.transferdone b => { s with hw := s.hw.setTransferdone b }
  | Instr.zero i => { s with tlc := { s.tlc with frame := s.tlc.frame.set i 0 } }
  | Instr.setLED lednr intensity => { s with tlc := s.tlc.setLED lednr intensity }
  | _ => s

/-- What is left of `display` once its wait is over. -/
def displayRest : List Instr :=
  [Instr.snap, Instr.clrb VPRG_PIN, Instr.displayLoop 0, Instr.transferdone true]

/-- The chips hold the recorded frame: the bits sampled so far end with the bits
of `shown`, and `shown` is a whole frame. -/
def Img (s : Sys) : Prop :=
  frameBits s.shown <:+ sampled s.hw.trace ∧ s.shown.length = s.tlc.numdrivers * 24

/-- What may follow the steps of the current call: nothing, or (inside `init`)
a whole `display`. -/
def Tail (k : List Instr) : Prop := k = [] ∨ k = displayCode

/-- What may follow a wait. -/
def After (r : List Instr) : Prop :=
  r = displayRest ∨ ∃ q k, r = q ++ k ∧ (∀ x ∈ q, x.quiet = true) ∧ Tail k

/-- The owner is between calls, in a call that does not clock, or before a wait. -/
def Calm (s : Sys) : Prop :=
  (s.hw.tlc5940_transferdone = true → Img s) ∧
  ∃ pre rest, s.todo = pre ++ rest ∧ (∀ x ∈ pre, x.calm = true) ∧
    (rest = [] ∨ ∃ r, rest = Instr.wait :: r ∧ After r)

/-- The owner is past a wait, outside `display`. -/
def Busy (s : Sys) : Prop :=
  s.hw.tlc5940_transferdone = false ∧
  ∃ q k, s.todo = q ++ k ∧ (∀ x ∈ q, x.quiet = true) ∧ Tail k

/-- Progress of `display`: if the frame is short enough for the loop to end,
bytes `0..i-1` and the first `j` bits of byte `i` are the last bits sampled. -/
def Sent (s : Sys) (i j : Nat) : Prop :=
  s.tlc.numdrivers * 24 ≤ 255 →
    i ≤ s.tlc.numdrivers * 24 ∧
    (frameBits (s.tlc.frame.take i) ++ (byteBits (s.tlc.frame.getD i 0)).take j)
      <:+ sampled s.hw.trace

/-- The owner is inside `display`, past its wait. -/
inductive Disp (s : Sys) : Prop
  | rest : s.todo = displayRest → Disp s
  | vprg : s.todo = [Instr.clrb VPRG_PIN, Instr.displayLoop 0, Instr.transferdone true] →
      s.shown = s.tlc.frame → Disp s
  | loop (i : Nat) : s.todo = [Instr.displayLoop i, Instr.transferdone true] →
      s.shown = s.tlc.frame → i < 256 → Sent s i 0 → Disp s
  | shift (i j : Nat) :
      s.todo = [Instr.shift (s.tlc.frame.getD i 0) (128 >>> j),
        Instr.displayLoop ((i + 1) % 256), Instr.transferdone true] →
      s.shown = s.tlc.frame → i < 256 → i < s.tlc.numdrivers * 24 → j ≤ 8 → Sent s i j → Disp s
  | data (i j : Nat) :
      s.todo = [if (s.tlc.frame.getD i 0 &&& (128 >>> j)) != 0 then Instr.setb SIN_PIN
          else Instr.clrb SIN_PIN,
        Instr.setb SCLK_PIN, Instr.clrb SCLK_PIN,
        Instr.shift (s.tlc.frame.getD i 0) (128 >>> (j + 1)),
        Instr.displayLoop ((i + 1) % 256), Instr.transferdone true] →
      s.shown = s.tlc.frame → i < 256 → i < s.tlc.numdrivers * 24 → j < 8 → Sent s i j → Disp s
  | high (i j : Nat) :
      s.todo = [Instr.setb SCLK_PIN, Instr.clrb SCLK_PIN,
        Instr.shift (s.tlc.frame.getD i 0) (128 >>> (j + 1)),
        Instr.displayLoop ((i + 1) % 256), Instr.transferdone true] →
      s.shown = s.tlc.frame → i < 256 → i < s.tlc.numdrivers * 24 → j < 8 → Sent s i j →
      s.hw.PORTB.testBit SIN_PIN = ((s.tlc.frame.getD i 0 &&& (128 >>> j)) != 0) → Disp s
  | low (i j : Nat) :
      s.todo = [Instr.clrb SCLK_PIN,
        Instr.shift (s.tlc.frame.getD i 0) (128 >>> (j + 1)),
        Instr.displayLoop ((i + 1) % 256), Instr.transferdone true] →
      s.shown = s.tlc.frame → i < 256 → i < s.tlc.numdrivers * 24 → j < 8 →
      Sent s i (j + 1) → Disp s
  | done : s.todo = [Instr.transferdone true] → s.shown = s.tlc.frame →
      frameBits s.tlc.frame <:+ sampled s.hw.trace → Disp s

/-- The invariant: the frame has its allocated length, and the owner is in one
of the three situations. -/
def Sys.Inv (s : Sys) : Prop :=
  s.tlc.frame.length = s.tlc.numdrivers * 24 ∧
  (Calm s ∨ Busy s ∨ (s.hw.tlc5940_transferdone = false ∧ Disp s))

/-- The owner, never interrupted, gets from `s` to `s2` in some number of steps. -/
def Sys.runsTo (s s2 : Sys) : Prop :=
  ∃ n, Nat.iterate Sys.next n s = s2

/-- An example driver: one chip, 12-bit resolution, channel 0 at 4095 and
channel 3 at 291. -/
def exampleDriver : TLC5940 :=
  ((TLC5940.zeroed 1 12).setLED 0 4095).setLED 3 291

/-- An example state: the example driver, and the machine as one whole
`display` from reset leaves it. -/
def displayedExample : Sys :=
  { tlc := exampleDriver
    hw := ((Machine.reset.clrb VPRG_PIN).sent (frameBits exampleDriver.frame)).setTransferdone true
    todo := []
    shown := exampleDriver.frame }

/-! ## Channel addressing, named

The two local variables `bytenr` and `startnibble` that `setLED` and `getLED`
compute alike; `TLC5940.setLED_eq` and `TLC5940.getLED_accesses` show that the
definitions above use exactly these. -/

/-- `uint16_t bitnr = lednr * 12; uint8_t bytenr = bitnr >> 3;` -/
def TLC5940.bytenr (lednr : Nat) : Nat :=
  (((lednr * 12) % 65536) >>> 3) % 256

/-- `bool startnibble = (bitnr & 7)?true:false;` -/
def TLC5940.startnibble (lednr : Nat) : Bool :=
  (((lednr * 12) % 65536) &&& 7) != 0

/-- The driver objects obtained from the constructor with `N` chips and
resolution `r` by any sequence of `clear()` and in-range `setLED(c, v)` calls
that return. -/
inductive Built (N r : Nat) : TLC5940 → Prop
  | construct (fuel : Nat) (heap : Nat → Nat) (t : TLC5940) :
      TLC5940.new fuel heap N r = some t → Built N r t
  | clear (fuel : Nat) (t t2 : TLC5940) :
      Built N r t → TLC5940.clear fuel t = some t2 → Built N r t2
  | setLED (t : TLC5940) (c v : Nat) :
      Built N r t → c < 16 * N → v < 2 ^ r → Built N r (t.setLED c v)

/-! ## Sequences of writes

Used to state what `display` sends for a buffer filled by a run of `setLED`
calls. -/

/-- A sequence of calls `setLED(c, v)`, performed in order. -/
def TLC5940.setLEDs (t : TLC5940) (ws : List (Nat × Nat)) : TLC5940 :=
  ws.foldl (fun t w => t.setLED w.1 w.2) t

/-- The intensity a sequence of writes leaves for channel `c`: that of the last
write to `c`, or `init` if the sequence has none. -/
def lastWrite (ws : List (Nat × Nat)) (c init : Nat) : Nat :=
  ws.foldl (fun acc w => if w.1 = c then w.2 else acc) init

/-- The twelve bits of a field, most significant first. -/
def fieldBits (f : Nat) : List Bool :=
  (List.range 12).map (fun j => f.testBit (11 - j))

/-! # Theorems -/

/-! ## `clear` and the constructor -/

theorem TLC5940.clearLoop_none_of_wide (fuel : Nat) (t : TLC5940) (i : Nat)
    (hN : 256 ≤ t.numdrivers * 24) (hi : i < 256) : TLC5940.clearLoop fuel t i = none := by
  induction fuel generalizing t i with
  | zero => rfl
  | succ n ih =>
    have hlt : i < t.numdrivers * 24 := by omega
    simp only [TLC5940.clearLoop, hlt, if_true]
    exact ih _ _ hN (Nat.mod_lt _ (by decide))

theorem List.take_succ_set_zero (f : List Nat) (i : Nat) (a : Nat) (hi : i < f.length) :
    (f.set i a).take (i + 1) = f.take i ++ [a] := by
  rw [List.take_succ, List.getElem?_set_self hi, List.set_take, List.set_eq_of_length_le]
  · rfl
  · simp

theorem TLC5940.clearLoop_some (fuel : Nat) (t : TLC5940) (i : Nat)
    (hN : t.numdrivers * 24 ≤ 255) (hlen : t.frame.length = t.numdrivers * 24)
    (hi : i ≤ t.numdrivers * 24) (hfuel : t.numdrivers * 24 - i < fuel) :
    TLC5940.clearLoop fuel t i =
      some { t with frame := t.frame.take i ++ List.replicate (t.numdrivers * 24 - i) 0 } := by
  induction fuel generalizing t i with
  | zero => omega
  | succ n ih =>
    by_cases hlt : i < t.numdrivers * 24
    · simp only [TLC5940.clearLoop, hlt, if_true]
      have hmod : (i + 1) % 256 = i + 1 := Nat.mod_eq_of_lt (by omega)
      rw [hmod, ih { t with frame := t.frame.set i 0 } (i + 1) hN (by simpa using hlen)
        (by simpa using hlt) (by simp only; omega)]
      have hrep : List.replicate (t.numdrivers * 24 - i) 0
          = (0 : Nat) :: List.replicate (t.numdrivers * 24 - (i + 1)) 0 := by
        rw [← List.replicate_succ]; congr 1; omega
      simp only [hrep, List.take_succ_set_zero t.frame i 0 (by omega), List.append_assoc,
        List.singleton_append]
    · have hi2 : i = t.numdrivers * 24 := by omega
      simp only [TLC5940.clearLoop, hlt, if_false]
      subst hi2
      rw [← hlen]
      simp

theorem TLC5940.malloc_length (heap : Nat → Nat) (n : Nat) :
    (TLC5940.malloc heap n).length = n := by
  simp [TLC5940.malloc]

/-- With at most ten chips `clear` returns, and every byte of the frame is zero. -/
theorem TLC5940.clear_some (fuel : Nat) (t : TLC5940)
    (hN : t.numdrivers ≤ 10) (hlen : t.frame.length = t.numdrivers * 24)
    (hfuel : t.numdrivers * 24 < fuel) :
    TLC5940.clear fuel t = some { t with frame := List.replicate (t.numdrivers * 24) 0 } := by
  unfold TLC5940.clear
  rw [TLC5940.clearLoop_some fuel t 0 (by omega) hlen (Nat.zero_le _) (by omega)]
  simp

/-- With at most ten chips the constructor returns the zeroed driver object. -/
theorem TLC5940.new_some (fuel : Nat) (heap : Nat → Nat) (N r : Nat)
    (hN : N ≤ 10) (hfuel : N * 24 < fuel) :
    TLC5940.new fuel heap N r = some (TLC5940.zeroed N r) := by
  unfold TLC5940.new
  exact TLC5940.clear_some fuel ⟨(12 + 256 - r) % 256, N, TLC5940.malloc heap (N * 24)⟩ hN
    (TLC5940.malloc_length heap (N * 24)) hfuel

theorem TLC5940.getD_replicate_zero (n j : Nat) : (List.replicate n 0).getD j 0 = 0 := by
  rw [List.getD_eq_getElem?_getD, List.getElem?_replicate]
  by_cases h : j < n
  · rw [if_pos h]; rfl
  · rw [if_neg h]; rfl

/-- On a zeroed frame `getLED` reads zero for every channel. -/
theorem TLC5940.getLED_zeroed (N r k : Nat) : (TLC5940.zeroed N r).getLED k = 0 := by
  unfold TLC5940.getLED TLC5940.zeroed
  simp only [TLC5940.getD_replicate_zero]
  split <;> rfl

/-! ## Settled claims: frame buffer -/

/-- C1 (round-trip) fails on odd channels.  In the specification's own example
(one chip, 12-bit resolution, `setLED(0,4095); setLED(1,0)`) `getLED(0)` is 4095
but `getLED(1)` is 3840 instead of 0; and on the zeroed frame `setLED(1,3840)`
followed by `getLED(1)` gives 0 instead of 3840.  For an odd channel `getLED`
takes bits 8..11 from the high nibble of the first byte (`& 0xf0`, `<< 4`),
which belongs to the channel before, while `setLED` stored them in the low
nibble. -/
theorem getLED_after_setLED_odd_channel :
    (((TLC5940.zeroed 1 12).setLED 0 4095).setLED 1 0).getLED 0 = 4095 ∧
    (((TLC5940.zeroed 1 12).setLED 0 4095).setLED 1 0).getLED 1 = 3840 ∧
    ((TLC5940.zeroed 1 12).setLED 1 3840).getLED 1 = 0 ∧
    TLC5940.new 25 (fun _ => 0xAA) 1 12 = some (TLC5940.zeroed 1 12) := by
  decide

/-- C4 (packing isolation on read-back) fails for an odd channel and the even
channel before it.  One chip, 12-bit resolution, zeroed frame: after
`setLED(1,0)`, `getLED(1)` is 0; after the further `setLED(0,15)` it is 3840.
The stored field of channel 1 is untouched (bytes 1 and 2 hold `0xF0`, `0x00`,
low nibble of byte 1 still 0); `getLED` reads the wrong nibble. -/
theorem getLED_disturbed_by_neighbour_write :
    ((TLC5940.zeroed 1 12).setLED 1 0).getLED 1 = 0 ∧
    (((TLC5940.zeroed 1 12).setLED 1 0).setLED 0 15).getLED 1 = 3840 ∧
    (((TLC5940.zeroed 1 12).setLED 1 0).setLED 0 15).frame.take 3 = [0x00, 0xF0, 0x00] := by
  decide

/-- C5 (`clear` zeroes the whole frame for every number of chips) fails from
eleven chips on: the loop counter is a `uint8_t` compared with `numdrivers*24 =
264`, so the loop condition never becomes false; whatever the fuel, neither
`clear` nor the constructor (which calls it) returns. -/
theorem clear_never_returns_with_eleven_chips (fuel shiftbits r : Nat) (frame : List Nat)
    (heap : Nat → Nat) :
    TLC5940.clear fuel ⟨shiftbits, 11, frame⟩ = none ∧ TLC5940.new fuel heap 11 r = none := by
  constructor
  · exact TLC5940.clearLoop_none_of_wide fuel _ 0 (show 256 ≤ 11 * 24 by decide) (by decide)
  · exact TLC5940.clearLoop_none_of_wide fuel _ 0 (show 256 ≤ 11 * 24 by decide) (by decide)

/-! ## Port bits -/

theorem testBit_or_BV (p k j : Nat) :
    (p ||| _BV k).testBit j = (p.testBit j || decide (k = j)) := by
  rw [_BV, Nat.one_shiftLeft, Nat.testBit_lor, Nat.testBit_two_pow]

theorem testBit_and_not8_BV (p k j : Nat) (hj : j < 8) :
    (p &&& not8 (_BV k)).testBit j = (p.testBit j && !decide (k = j)) := by
  have h255 : (0xFF : Nat).testBit j = true := by
    have := Nat.testBit_two_pow_sub_one 8 j
    simpa [hj] using this
  rw [not8, _BV, Nat.one_shiftLeft, Nat.testBit_land, Nat.testBit_xor, Nat.testBit_two_pow, h255]
  simp

theorem and_two_pow_ne_zero (v n : Nat) : ((v &&& 2 ^ n) != 0) = v.testBit n := by
  rw [Nat.and_two_pow]
  cases v.testBit n <;> simp

/-! ## The shift loop -/

theorem Machine.sent_nil (m : Machine) : m.sent [] = m := by
  simp [Machine.sent, bitsPort, bitsEvents]

theorem Machine.sent_cons (m : Machine) (b : Bool) (bs : List Bool) :
    m.sent (b :: bs) =
      ((((if b then m.setb SIN_PIN else m.clrb SIN_PIN).setb SCLK_PIN).clrb SCLK_PIN).sent bs) := by
  cases b <;>
    simp [Machine.sent, bitsPort, bitsEvents, bitPort, bitEvents, Machine.setb, Machine.clrb]

theorem Machine.sent_append (m : Machine) (as bs : List Bool) :
    m.sent (as ++ bs) = (m.sent as).sent bs := by
  induction as generalizing m with
  | nil => simp [Machine.sent_nil]
  | cons a as ih => simp only [List.cons_append, Machine.sent_cons, ih]

theorem shiftLoop_zero (v : Nat) (m : Machine) : shiftLoop v 0 m = m := by
  rw [shiftLoop]; simp

theorem shiftLoop_two_pow (v n : Nat) (hn : n < 8) (m : Machine) :
    shiftLoop v (2 ^ n) m =
      shiftLoop v (2 ^ n / 2)
        (((if v.testBit n then m.setb SIN_PIN else m.clrb SIN_PIN).setb SCLK_PIN).clrb SCLK_PIN) := by
  have hpos : 2 ^ n ≠ 0 := by positivity
  have hlt : 2 ^ n / 2 < 256 := by
    have : 2 ^ n < 2 ^ 8 := Nat.pow_lt_pow_right (by decide) hn
    omega
  rw [shiftLoop]
  simp only [hpos, if_false, and_two_pow_ne_zero]
  rw [Nat.shiftRight_eq_div_pow, pow_one, Nat.mod_eq_of_lt hlt]

theorem shiftLoop_bits (v n : Nat) (hn : n ≤ 8) (m : Machine) :
    shiftLoop v (2 ^ n / 2) m = m.sent ((List.range n).map (fun k => v.testBit (n - 1 - k))) := by
  induction n generalizing m with
  | zero => simp [shiftLoop_zero, Machine.sent_nil]
  | succ n ih =>
    have h2 : 2 ^ (n + 1) / 2 = 2 ^ n := by rw [pow_succ]; omega
    rw [h2, shiftLoop_two_pow v n (by omega), ih (by omega), List.range_succ_eq_map,
      List.map_cons, List.map_map, Machine.sent_cons]
    simp only [Nat.add_sub_cancel, Nat.sub_zero]
    congr 2
    funext k
    simp only [Function.comp, Nat.succ_eq_add_one]
    congr 1
    omega

theorem shift8_eq_sent (v : Nat) (m : Machine) : shift8 v m = m.sent (byteBits v) :=
  shiftLoop_bits v 8 (by decide) m

theorem shift6_eq_sent (v : Nat) (m : Machine) : shift6 v m = m.sent (sixBits v) :=
  shiftLoop_bits v 6 (by decide) m

/-! ## Observations on the stores of the shift loop -/

theorem sampled_append (a b : List Ev) : sampled (a ++ b) = sampled a ++ sampled b := by
  induction a with
  | nil => rfl
  | cons e es ih =>
    cases e with
    | pin bit level port =>
      cases level
      · simpa [sampled] using ih
      · by_cases h : bit = SCLK_PIN <;> simp [sampled, h, ih]
    | reg r v => simpa [sampled] using ih
    | needpulse b => simpa [sampled] using ih
    | transferdone b => simpa [sampled] using ih
    | irq b => simpa [sampled] using ih

theorem risings_append (bit : Nat) (a b : List Ev) :
    risings bit (a ++ b) = risings bit a + risings bit b := by
  simp [risings]

theorem sampled_bitEvents (b : Bool) (p : Nat) : sampled (bitEvents b p) = [b] := by
  have h5 : SIN_PIN < 8 := by decide
  have hne : SIN_PIN ≠ SCLK_PIN := by decide
  have hne2 : ¬ SCLK_PIN = SIN_PIN := by decide
  cases b
  · simp only [bitEvents, sampled, if_neg hne, if_true, Bool.false_eq_true, if_false,
      testBit_or_BV, testBit_and_not8_BV _ _ _ h5, decide_True, decide_False, hne2]
    simp
  · simp only [bitEvents, sampled, if_neg hne, if_true, testBit_or_BV, decide_True, hne2]
    simp

theorem sampled_bitsEvents (bs : List Bool) (p : Nat) : sampled (bitsEvents bs p) = bs := by
  induction bs generalizing p with
  | nil => rfl
  | cons b bs ih => simp [bitsEvents, sampled_append, sampled_bitEvents, ih]

theorem acts_bitsEvents (bs : List Bool) (p : Nat) :
    (bitsEvents bs p).filterMap Ev.act = bs.flatMap bitActs := by
  induction bs generalizing p with
  | nil => rfl
  | cons b bs ih =>
    simp [bitsEvents, List.filterMap_append, ih, bitEvents, Ev.act, bitActs]

theorem length_bitsEvents (bs : List Bool) (p : Nat) :
    (bitsEvents bs p).length = 3 * bs.length := by
  induction bs generalizing p with
  | nil => rfl
  | cons b bs ih => simp [bitsEvents, bitEvents, ih]; omega

theorem risings_bitsEvents (bs : List Bool) (p : Nat) :
    risings SCLK_PIN (bitsEvents bs p) = bs.length ∧ risings XLAT_PIN (bitsEvents bs p) = 0 := by
  induction bs generalizing p with
  | nil => exact ⟨rfl, rfl⟩
  | cons b bs ih =>
    rw [bitsEvents, risings_append, risings_append, (ih _).1, (ih _).2]
    constructor
    · cases b <;> simp [risings, bitEvents, Ev.act, SIN_PIN, SCLK_PIN, PB0, PB5, Nat.add_comm]
    · cases b <;> simp [risings, bitEvents, Ev.act, SIN_PIN, SCLK_PIN, XLAT_PIN, PB0, PB1, PB5]

theorem testBit_bitPort (b : Bool) (p j : Nat) (hj : j < 8) :
    (bitPort b p).testBit j =
      if j = SCLK_PIN then false else if j = SIN_PIN then b else p.testBit j := by
  have h1 : SCLK_PIN = 0 := rfl
  have h2 : SIN_PIN = 5 := rfl
  cases b <;>
    simp only [bitPort, testBit_and_not8_BV _ _ _ hj, testBit_or_BV, h1, h2, if_true,
      Bool.false_eq_true, if_false] <;>
    by_cases h0 : j = 0 <;> by_cases h5 : j = 5 <;> simp [h0, h5, eq_comm]

theorem testBit_bitsPort_other (bs : List Bool) (p j : Nat) (hj : j < 8)
    (h0 : j ≠ SCLK_PIN) (h5 : j ≠ SIN_PIN) : (bitsPort bs p).testBit j = p.testBit j := by
  induction bs generalizing p with
  | nil => rfl
  | cons b bs ih => rw [bitsPort, ih, testBit_bitPort b p j hj, if_neg h0, if_neg h5]

theorem testBit_bitsPort_sclk (bs : List Bool) (p : Nat) (h : p.testBit SCLK_PIN = false) :
    (bitsPort bs p).testBit SCLK_PIN = false := by
  induction bs generalizing p with
  | nil => exact h
  | cons b bs ih =>
    rw [bitsPort]
    apply ih
    rw [testBit_bitPort b p SCLK_PIN (by decide), if_pos rfl]

theorem testBit_bitsPort_sclk_cons (b : Bool) (bs : List Bool) (p : Nat) :
    (bitsPort (b :: bs) p).testBit SCLK_PIN = false := by
  rw [bitsPort]
  apply testBit_bitsPort_sclk
  rw [testBit_bitPort b p SCLK_PIN (by decide), if_pos rfl]

theorem bitsToNat_sixBits (v : Nat) (hv : v < 64) : bitsToNat (sixBits v) = v := by
  revert v
  decide

/-! ## Settled claim: serial shift protocol -/

/-- C7.  `shift8(v)` performs exactly 24 stores, all to the port: for
`k = 0..7` in turn the data line is driven to bit `7-k` of `v`, then the serial
clock is driven high, then low (`bitActs`); that makes 8 clock pulses, the chips
sample the bits of `v` most significant first, the clock line ends low, the other
port lines and all other state are unchanged.  `shift6(v)` does the same with 18
stores, 6 pulses and bits `5-k`.  For `v < 64` the six bits sent by `shift6`,
read most significant first, give back `v`. -/
theorem serial_shift_protocol (v : Nat) (m : Machine) :
    (∃ evs, shift8 v m = { m with PORTB := (shift8 v m).PORTB, trace := m.trace ++ evs } ∧
      evs.length = 24 ∧
      evs.filterMap Ev.act = ((List.range 8).map (fun k => v.testBit (7 - k))).flatMap bitActs ∧
      risings SCLK_PIN evs = 8 ∧
      sampled evs = (List.range 8).map (fun k => v.testBit (7 - k))) ∧
    (shift8 v m).PORTB.testBit SCLK_PIN = false ∧
    (∀ j, j < 8 → j ≠ SCLK_PIN → j ≠ SIN_PIN →
      (shift8 v m).PORTB.testBit j = m.PORTB.testBit j) ∧
    (∃ evs, shift6 v m = { m with PORTB := (shift6 v m).PORTB, trace := m.trace ++ evs } ∧
      evs.length = 18 ∧
      evs.filterMap Ev.act = ((List.range 6).map (fun k => v.testBit (5 - k))).flatMap bitActs ∧
      risings SCLK_PIN evs = 6 ∧
      sampled evs = (List.range 6).map (fun k => v.testBit (5 - k)) ∧
      (v < 64 → bitsToNat (sampled evs) = v)) ∧
    (shift6 v m).PORTB.testBit SCLK_PIN = false ∧
    (∀ j, j < 8 → j ≠ SCLK_PIN → j ≠ SIN_PIN →
      (shift6 v m).PORTB.testBit j = m.PORTB.testBit j) := by
  rw [shift8_eq_sent, shift6_eq_sent]
  refine ⟨⟨bitsEvents (byteBits v) m.PORTB, rfl, ?_, ?_, ?_, ?_⟩, ?_, ?_,
    ⟨bitsEvents (sixBits v) m.PORTB, rfl, ?_, ?_, ?_, ?_, ?_⟩, ?_, ?_⟩
  · rw [length_bitsEvents]; simp [byteBits]
  · rw [acts_bitsEvents]; rfl
  · rw [(risings_bitsEvents _ _).1]; simp [byteBits]
  · rw [sampled_bitsEvents]; rfl
  · exact testBit_bitsPort_sclk_cons _ _ _
  · intro j hj h0 h5
    exact testBit_bitsPort_other _ _ _ hj h0 h5
  · rw [length_bitsEvents]; simp [sixBits]
  · rw [acts_bitsEvents]; rfl
  · rw [(risings_bitsEvents _ _).1]; simp [sixBits]
  · rw [sampled_bitsEvents]; rfl
  · intro hv
    rw [sampled_bitsEvents]
    exact bitsToNat_sixBits v hv
  · exact testBit_bitsPort_sclk_cons _ _ _
  · intro j hj h0 h5
    exact testBit_bitsPort_other _ _ _ hj h0 h5

/-- C7, instance: `shift6(37)` from the reset state sends six bits that read 37. -/
theorem serial_shift_protocol_witness :
    37 < 64 ∧ ∃ evs, (shift6 37 Machine.reset).trace = evs ∧ evs.length = 18 ∧
      sampled evs = [true, false, false, true, false, true] ∧ bitsToNat (sampled evs) = 37 := by
  obtain ⟨_, _, _, ⟨evs, h1, h2, _, _, h5, h6⟩, _, _⟩ := serial_shift_protocol 37 Machine.reset
  refine ⟨by decide, evs, ?_, h2, ?_, h6 (by decide)⟩
  · rw [h1]; rfl
  · rw [h5]; decide

/-! ## One firing of the interrupt handler -/

theorem isr_transferdone (m : Machine) : (TIMER1_OVF_vect m).tlc5940_transferdone = false := by
  cases htd : m.tlc5940_transferdone <;> cases hnp : m.tlc5940_needpulse <;>
    simp [TIMER1_OVF_vect, Machine.setb, Machine.clrb, Machine.wr, Machine.setTransferdone,
      Machine.setNeedpulse, htd, hnp]

theorem isr_needpulse (m : Machine) :
    (TIMER1_OVF_vect m).tlc5940_needpulse = (m.tlc5940_needpulse && !m.tlc5940_transferdone) := by
  cases htd : m.tlc5940_transferdone <;> cases hnp : m.tlc5940_needpulse <;>
    simp [TIMER1_OVF_vect, Machine.setb, Machine.clrb, Machine.wr, Machine.setTransferdone,
      Machine.setNeedpulse, htd, hnp]

theorem isr_trace (m : Machine) : (TIMER1_OVF_vect m).trace = m.trace ++ isrEvents m := by
  unfold isrEvents
  cases htd : m.tlc5940_transferdone <;> cases hnp : m.tlc5940_needpulse <;>
    simp [TIMER1_OVF_vect, Machine.setb, Machine.clrb, Machine.wr, Machine.setTransferdone,
      Machine.setNeedpulse, htd, hnp]

theorem isrEvents_unport (m : Machine) :
    (isrEvents m).map Ev.unport =
      [Ev.pin BLANK_PIN true 0,
        Ev.reg Reg.TCCR1B (m.TCCR1B &&& not8 (_BV CS11)),
        Ev.reg Reg.TCCR2B (m.TCCR2B &&& not8 (_BV CS20))]
      ++ (if m.tlc5940_transferdone then
            [Ev.pin XLAT_PIN true 0, Ev.pin XLAT_PIN false 0, Ev.transferdone false]
            ++ (if m.tlc5940_needpulse then
                  [Ev.pin SCLK_PIN true 0, Ev.pin SCLK_PIN false 0, Ev.needpulse false]
                else [])
          else [])
      ++ [Ev.pin BLANK_PIN false 0, Ev.reg Reg.TCNT2 0, Ev.reg Reg.TCNT1 0,
        Ev.reg Reg.TCCR1B ((m.TCCR1B &&& not8 (_BV CS11)) ||| _BV CS11),
        Ev.reg Reg.TCCR2B ((m.TCCR2B &&& not8 (_BV CS20)) ||| _BV CS20)] := by
  unfold isrEvents
  cases htd : m.tlc5940_transferdone <;> cases hnp : m.tlc5940_needpulse <;>
    simp [TIMER1_OVF_vect, Machine.setb, Machine.clrb, Machine.wr, Machine.setTransferdone,
      Machine.setNeedpulse, htd, hnp, Ev.unport]

theorem isr_registers (m : Machine) :
    (TIMER1_OVF_vect m).TCNT1 = 0 ∧ (TIMER1_OVF_vect m).TCNT2 = 0 ∧
    (TIMER1_OVF_vect m).TCCR1B = (m.TCCR1B &&& not8 (_BV CS11)) ||| _BV CS11 ∧
    (TIMER1_OVF_vect m).TCCR2B = (m.TCCR2B &&& not8 (_BV CS20)) ||| _BV CS20 ∧
    (TIMER1_OVF_vect m).DDRB = m.DDRB ∧ (TIMER1_OVF_vect m).TCCR1A = m.TCCR1A ∧
    (TIMER1_OVF_vect m).TCCR2A = m.TCCR2A ∧ (TIMER1_OVF_vect m).OCR2A = m.OCR2A ∧
    (TIMER1_OVF_vect m).TIMSK1 = m.TIMSK1 ∧ (TIMER1_OVF_vect m).sreg_I = m.sreg_I := by
  cases htd : m.tlc5940_transferdone <;> cases hnp : m.tlc5940_needpulse <;>
    simp [TIMER1_OVF_vect, Machine.setb, Machine.clrb, Machine.wr, Machine.setTransferdone,
      Machine.setNeedpulse, htd, hnp]

/-- The handler never changes the level of the serial-data line. -/
theorem isr_testBit_SIN (m : Machine) :
    (TIMER1_OVF_vect m).PORTB.testBit SIN_PIN = m.PORTB.testBit SIN_PIN := by
  have h5 : SIN_PIN < 8 := by decide
  have e1 : decide (BLANK_PIN = SIN_PIN) = false := by decide
  have e2 : decide (XLAT_PIN = SIN_PIN) = false := by decide
  have e3 : decide (SCLK_PIN = SIN_PIN) = false := by decide
  have f1 : (_BV BLANK_PIN).testBit SIN_PIN = false := by decide
  have f2 : (_BV XLAT_PIN).testBit SIN_PIN = false := by decide
  have f3 : (_BV SCLK_PIN).testBit SIN_PIN = false := by decide
  cases htd : m.tlc5940_transferdone <;> cases hnp : m.tlc5940_needpulse <;>
    simp [TIMER1_OVF_vect, Machine.setb, Machine.clrb, Machine.wr, Machine.setTransferdone,
      Machine.setNeedpulse, htd, hnp, testBit_and_not8_BV _ _ _ h5, e1, e2, e3, f1, f2, f3]

/-- The handler leaves the blank line low. -/
theorem isr_testBit_BLANK (m : Machine) :
    (TIMER1_OVF_vect m).PORTB.testBit BLANK_PIN = false := by
  have h2 : BLANK_PIN < 8 := by decide
  cases htd : m.tlc5940_transferdone <;> cases hnp : m.tlc5940_needpulse <;>
    simp [TIMER1_OVF_vect, Machine.setb, Machine.clrb, Machine.wr, Machine.setTransferdone,
      Machine.setNeedpulse, htd, hnp, testBit_and_not8_BV _ _ _ h2]

/-- With `tlc5940_transferdone` clear a firing stores to neither the latch line,
nor the serial clock, nor a flag, and the chips sample nothing. -/
theorem isrEvents_idle (m : Machine) (h : m.tlc5940_transferdone = false) :
    (∀ e ∈ isrEvents m,
      e.drives XLAT_PIN = false ∧ e.drives SCLK_PIN = false ∧ e.isFlag = false) ∧
    sampled (isrEvents m) = [] := by
  unfold isrEvents
  cases hnp : m.tlc5940_needpulse <;>
    simp [TIMER1_OVF_vect, Machine.setb, Machine.clrb, Machine.wr, Machine.setTransferdone,
      Machine.setNeedpulse, h, hnp, Ev.drives, Ev.isFlag, sampled, BLANK_PIN, XLAT_PIN,
      SCLK_PIN, PB0, PB1, PB2]

theorem isr_sampled_of_idle (m : Machine) (h : m.tlc5940_transferdone = false) :
    sampled (TIMER1_OVF_vect m).trace = sampled m.trace := by
  rw [isr_trace, sampled_append, (isrEvents_idle m h).2, List.append_nil]

/-- Latch pulses and clock pulses of one firing, by the flags on entry. -/
theorem isrEvents_risings (m : Machine) :
    risings XLAT_PIN (isrEvents m) = (if m.tlc5940_transferdone then 1 else 0) ∧
    risings SCLK_PIN (isrEvents m) =
      (if m.tlc5940_transferdone && m.tlc5940_needpulse then 1 else 0) := by
  unfold isrEvents
  cases htd : m.tlc5940_transferdone <;> cases hnp : m.tlc5940_needpulse <;>
    simp [TIMER1_OVF_vect, Machine.setb, Machine.clrb, Machine.wr, Machine.setTransferdone,
      Machine.setNeedpulse, htd, hnp, risings, Ev.act, BLANK_PIN, XLAT_PIN,
      SCLK_PIN, PB0, PB1, PB2]

theorem spinWait_clear (fuel : Nat) (m : Machine) (h : m.tlc5940_transferdone = false) :
    spinWait (fuel + 1) m = some m := by
  simp [spinWait, h]

theorem spinWait_set (fuel : Nat) (m : Machine) (h : m.tlc5940_transferdone = true) :
    spinWait fuel m = none := by
  induction fuel with
  | zero => rfl
  | succ n ih => simp [spinWait, h, ih]

theorem TLC5940.displayLoop_none_of_wide (fuel : Nat) (t : TLC5940) (i : Nat) (m : Machine)
    (hN : 256 ≤ t.numdrivers * 24) (hi : i < 256) : TLC5940.displayLoop fuel t i m = none := by
  induction fuel generalizing i m with
  | zero => rfl
  | succ n ih =>
    have hlt : i < t.numdrivers * 24 := by omega
    simp only [TLC5940.displayLoop, hlt, if_true]
    exact ih _ _ (Nat.mod_lt _ (by decide))

theorem frameBits_drop (frame : List Nat) (i : Nat) (hi : i < frame.length) :
    frameBits (frame.drop i) = byteBits (frame.getD i 0) ++ frameBits (frame.drop (i + 1)) := by
  have h : frame.drop i = frame[i] :: frame.drop (i + 1) := List.drop_eq_getElem_cons hi
  unfold frameBits
  rw [List.getD_eq_getElem?_getD, List.getElem?_eq_getElem hi, Option.getD_some]
  conv_lhs => rw [h]
  rw [List.flatMap_cons]

theorem TLC5940.displayLoop_some (fuel : Nat) (t : TLC5940) (i : Nat) (m : Machine)
    (hN : t.numdrivers * 24 ≤ 255) (hlen : t.frame.length = t.numdrivers * 24)
    (hi : i ≤ t.numdrivers * 24) (hfuel : t.numdrivers * 24 - i < fuel) :
    TLC5940.displayLoop fuel t i m = some (m.sent (frameBits (t.frame.drop i))) := by
  induction fuel generalizing i m with
  | zero => omega
  | succ n ih =>
    by_cases hlt : i < t.numdrivers * 24
    · simp only [TLC5940.displayLoop, hlt, if_true]
      have hmod : (i + 1) % 256 = i + 1 := Nat.mod_eq_of_lt (by omega)
      rw [hmod, ih (i + 1) _ (by omega) (by omega), shift8_eq_sent,
        frameBits_drop t.frame i (by omega), Machine.sent_append]
    · have hi2 : i = t.numdrivers * 24 := by omega
      simp only [TLC5940.displayLoop, hlt, if_false]
      rw [hi2, ← hlen, List.drop_length]
      simp [frameBits, Machine.sent_nil]

/-- With at most ten chips and the flag clear on entry, `display` returns: it has
driven the program-mode line low, sent the bits of the frame in order, and then
set `tlc5940_transferdone`. -/
theorem TLC5940.display_some (fuel : Nat) (t : TLC5940) (m : Machine)
    (hN : t.numdrivers ≤ 10) (hlen : t.frame.length = t.numdrivers * 24)
    (htd : m.tlc5940_transferdone = false) (hfuel : t.numdrivers * 24 < fuel) :
    TLC5940.display fuel t m =
      some (((m.clrb VPRG_PIN).sent (frameBits t.frame)).setTransferdone true) := by
  obtain ⟨n, rfl⟩ : ∃ n, fuel = n + 1 := ⟨fuel - 1, by omega⟩
  unfold TLC5940.display
  rw [spinWait_clear n m htd]
  simp only [Option.bind_eq_bind, Option.some_bind]
  rw [TLC5940.displayLoop_some (n + 1) t 0 _ (by omega) hlen (Nat.zero_le _) (by omega)]
  rfl

theorem TLC5940.display_none_of_wide (fuel : Nat) (t : TLC5940) (m : Machine)
    (hN : 256 ≤ t.numdrivers * 24) : TLC5940.display fuel t m = none := by
  unfold TLC5940.display
  cases h : spinWait fuel m with
  | none => rfl
  | some m1 =>
    simp only [Option.bind_eq_bind, Option.some_bind]
    rw [TLC5940.displayLoop_none_of_wide fuel t 0 _ hN (by decide)]
    rfl

theorem frameBits_length (frame : List Nat) : (frameBits frame).length = 8 * frame.length := by
  induction frame with
  | nil => rfl
  | cons a l ih =>
    have : frameBits (a :: l) = byteBits a ++ frameBits l := by simp [frameBits]
    rw [this, List.length_append, ih]
    simp [byteBits]
    omega

/-- What `display` is observed to do with at most ten chips: after the store
that drives program mode low it performs `3 * 192 * N` port stores that send
the `192 * N` bits of the frame, bytes in order, most significant bit first, and
its last store sets `tlc5940_transferdone`; `tlc5940_needpulse` and the
registers other than the port keep their values. -/
theorem TLC5940.display_observed (fuel : Nat) (t : TLC5940) (m : Machine)
    (hN : t.numdrivers ≤ 10) (hlen : t.frame.length = t.numdrivers * 24)
    (htd : m.tlc5940_transferdone = false) (hfuel : t.numdrivers * 24 < fuel) :
    ∃ m2 port evs, TLC5940.display fuel t m = some m2 ∧
      m2 = { m with PORTB := m2.PORTB, tlc5940_transferdone := true, trace := m2.trace } ∧
      m2.trace = m.trace ++ [Ev.pin VPRG_PIN false port] ++ evs ++ [Ev.transferdone true] ∧
      evs.filterMap Ev.act = (frameBits t.frame).flatMap bitActs ∧
      evs.length = 3 * (192 * t.numdrivers) ∧
      sampled evs = frameBits t.frame ∧
      (frameBits t.frame).length = 192 * t.numdrivers ∧
      risings SCLK_PIN evs = 192 * t.numdrivers ∧ risings XLAT_PIN evs = 0 := by
  have hl : (frameBits t.frame).length = 192 * t.numdrivers := by
    rw [frameBits_length, hlen]; omega
  refine ⟨_, m.PORTB &&& not8 (_BV VPRG_PIN),
    bitsEvents (frameBits t.frame) (m.PORTB &&& not8 (_BV VPRG_PIN)),
    TLC5940.display_some fuel t m hN hlen htd hfuel, rfl, ?_, acts_bitsEvents _ _, ?_,
    sampled_bitsEvents _ _, hl, ?_, (risings_bitsEvents _ _).2⟩
  · simp [Machine.setTransferdone, Machine.sent, Machine.clrb]
  · rw [length_bitsEvents, hl]
  · rw [(risings_bitsEvents _ _).1, hl]

/-! ## Steps of the interleaved system -/

theorem TLC5940.setLED_numdrivers (t : TLC5940) (c v : Nat) :
    (t.setLED c v).numdrivers = t.numdrivers := by
  unfold TLC5940.setLED
  simp only
  split <;> rfl

theorem TLC5940.setLED_shiftbits (t : TLC5940) (c v : Nat) :
    (t.setLED c v).shiftbits = t.shiftbits := by
  unfold TLC5940.setLED
  simp only
  split <;> rfl

theorem TLC5940.setLED_frame_length (t : TLC5940) (c v : Nat) :
    (t.setLED c v).frame.length = t.frame.length := by
  unfold TLC5940.setLED
  simp only
  split <;> simp [List.length_set]

theorem Sys.next_cons (s : Sys) (x : Instr) (k : List Instr) (h : s.todo = x :: k)
    (hx : x ≠ Instr.wait) :
    s.next = { Instr.effect s x with todo := Instr.expand s.tlc x ++ k } := by
  obtain ⟨tlc, hw, todo, shown⟩ := s
  simp only at h
  subst h
  cases x with
  | wait => exact absurd rfl hx
  | shift v i => by_cases hi : i = 0 <;> simp [Sys.next, Instr.effect, Instr.expand, hi]
  | displayLoop i =>
    by_cases hi : i < tlc.numdrivers * 24 <;> simp [Sys.next, Instr.effect, Instr.expand, hi]
  | dcLoop d i =>
    by_cases hi : i < tlc.numdrivers * 16 <;> simp [Sys.next, Instr.effect, Instr.expand, hi]
  | clearLoop i =>
    by_cases hi : i < tlc.numdrivers * 24 <;> simp [Sys.next, Instr.effect, Instr.expand, hi]
  | _ => simp [Sys.next, Instr.effect, Instr.expand]

theorem Sys.next_wait (s : Sys) (k : List Instr) (h : s.todo = Instr.wait :: k) :
    s.next = if s.hw.tlc5940_transferdone then s else { s with todo := k } := by
  obtain ⟨tlc, hw, todo, shown⟩ := s
  simp only at h
  subst h
  simp [Sys.next]

theorem sampled_snoc_of_not_clock (tr : List Ev) (e : Ev)
    (h : e.act ≠ some (SCLK_PIN, true)) : sampled (tr ++ [e]) = sampled tr := by
  rw [sampled_append]
  cases e with
  | pin bit level port =>
    cases level
    · simp [sampled]
    · have : bit ≠ SCLK_PIN := by
        intro hb; apply h; simp [Ev.act, hb]
      simp [sampled, this]
  | reg r v => simp [sampled]
  | needpulse b => simp [sampled]
  | transferdone b => simp [sampled]
  | irq b => simp [sampled]

/-- A calm step keeps the flag, the sampled bits, the history variable, the
number of chips and the length of the frame; what it expands to is calm. -/
theorem Instr.calm_effect (s : Sys) (x : Instr) (hx : x.calm = true) :
    (Instr.effect s x).hw.tlc5940_transferdone = s.hw.tlc5940_transferdone ∧
    sampled (Instr.effect s x).hw.trace = sampled s.hw.trace ∧
    (Instr.effect s x).shown = s.shown ∧
    (Instr.effect s x).tlc.numdrivers = s.tlc.numdrivers ∧
    (Instr.effect s x).tlc.frame.length = s.tlc.frame.length ∧
    ∀ y ∈ Instr.expand s.tlc x, y.calm = true := by
  cases x with
  | setb bit =>
    have hb : bit ≠ SCLK_PIN := by simpa [Instr.calm] using hx
    refine ⟨rfl, ?_, rfl, rfl, rfl, by simp [Instr.expand]⟩
    exact sampled_snoc_of_not_clock _ _ (by simp [Ev.act, hb])
  | clrb bit =>
    exact ⟨rfl, sampled_snoc_of_not_clock _ _ (by simp [Ev.act]), rfl, rfl, rfl,
      by simp [Instr.expand]⟩
  | orDDRB mask =>
    exact ⟨rfl, sampled_snoc_of_not_clock _ _ (by simp [Ev.act]), rfl, rfl, rfl,
      by simp [Instr.expand]⟩
  | store r v =>
    refine ⟨?_, ?_, rfl, rfl, rfl, by simp [Instr.expand]⟩
    · cases r <;> rfl
    · have : (Instr.effect s (Instr.store r v)).hw.trace = s.hw.trace ++ [Ev.reg r v] := by
        cases r <;> rfl
      rw [this]
      exact sampled_snoc_of_not_clock _ _ (by simp [Ev.act])
  | irq enable =>
    cases enable
    · exact ⟨rfl, sampled_snoc_of_not_clock _ _ (by simp [Ev.act]), rfl, rfl, rfl,
        by simp [Instr.expand]⟩
    · exact ⟨rfl, sampled_snoc_of_not_clock _ _ (by simp [Ev.act]), rfl, rfl, rfl,
        by simp [Instr.expand]⟩
  | needpulse b =>
    exact ⟨rfl, sampled_snoc_of_not_clock _ _ (by simp [Ev.act]), rfl, rfl, rfl,
      by simp [Instr.expand]⟩
  | clearLoop i =>
    refine ⟨rfl, rfl, rfl, rfl, rfl, ?_⟩
    intro y hy
    by_cases hi : i < s.tlc.numdrivers * 24
    · simp only [Instr.expand, hi, if_true, List.mem_cons, List.mem_singleton,
        List.not_mem_nil, or_false] at hy
      rcases hy with rfl | rfl <;> rfl
    · simp [Instr.expand, hi] at hy
  | zero i => exact ⟨rfl, rfl, rfl, rfl, by simp [Instr.effect], by simp [Instr.expand]⟩
  | setLED c v =>
    exact ⟨rfl, rfl, rfl, TLC5940.setLED_numdrivers _ _ _, TLC5940.setLED_frame_length _ _ _,
      by simp [Instr.expand]⟩
  | wait => simp [Instr.calm] at hx
  | snap => simp [Instr.calm] at hx
  | transferdone b => simp [Instr.calm] at hx
  | shift v i => simp [Instr.calm] at hx
  | displayLoop i => simp [Instr.calm] at hx
  | dcLoop d i => simp [Instr.calm] at hx

/-- A quiet step keeps the flag clear or set as it was, the number of chips and
the length of the frame; what it expands to is quiet. -/
theorem Instr.quiet_effect (s : Sys) (x : Instr) (hx : x.quiet = true) :
    (Instr.effect s x).hw.tlc5940_transferdone = s.hw.tlc5940_transferdone ∧
    (Instr.effect s x).tlc.numdrivers = s.tlc.numdrivers ∧
    (Instr.effect s x).tlc.frame.length = s.tlc.frame.length ∧
    ∀ y ∈ Instr.expand s.tlc x, y.quiet = true := by
  cases x with
  | setb bit => exact ⟨rfl, rfl, rfl, by simp [Instr.expand]⟩
  | clrb bit => exact ⟨rfl, rfl, rfl, by simp [Instr.expand]⟩
  | orDDRB mask => exact ⟨rfl, rfl, rfl, by simp [Instr.expand]⟩
  | store r v => exact ⟨by cases r <;> rfl, rfl, rfl, by simp [Instr.expand]⟩
  | irq enable => exact ⟨by cases enable <;> rfl, rfl, rfl, by simp [Instr.expand]⟩
  | needpulse b => exact ⟨rfl, rfl, rfl, by simp [Instr.expand]⟩
  | shift v i =>
    refine ⟨rfl, rfl, rfl, ?_⟩
    intro y hy
    by_cases hi : i = 0
    · simp [Instr.expand, hi] at hy
    · simp only [Instr.expand, hi, if_false, List.mem_cons, List.mem_singleton,
        List.not_mem_nil, or_false] at hy
      rcases hy with rfl | rfl | rfl | rfl
      · split <;> rfl
      · rfl
      · rfl
      · rfl
  | dcLoop d i =>
    refine ⟨rfl, rfl, rfl, ?_⟩
    intro y hy
    by_cases hi : i < s.tlc.numdrivers * 16
    · simp only [Instr.expand, hi, if_true, List.mem_cons, List.mem_singleton,
        List.not_mem_nil, or_false] at hy
      rcases hy with rfl | rfl <;> rfl
    · simp [Instr.expand, hi] at hy
  | clearLoop i =>
    refine ⟨rfl, rfl, rfl, ?_⟩
    intro y hy
    by_cases hi : i < s.tlc.numdrivers * 24
    · simp only [Instr.expand, hi, if_true, List.mem_cons, List.mem_singleton,
        List.not_mem_nil, or_false] at hy
      rcases hy with rfl | rfl <;> rfl
    · simp [Instr.expand, hi] at hy
  | zero i => exact ⟨rfl, rfl, by simp [Instr.effect], by simp [Instr.expand]⟩
  | setLED c v =>
    exact ⟨rfl, TLC5940.setLED_numdrivers _ _ _, TLC5940.setLED_frame_length _ _ _,
      by simp [Instr.expand]⟩
  | wait => simp [Instr.quiet] at hx
  | snap => simp [Instr.quiet] at hx
  | transferdone b => simp [Instr.quiet] at hx
  | displayLoop i => simp [Instr.quiet] at hx

/-! ## Masks and bits of the shift loop, as the step system meets them -/

theorem mask_zero_iff (j : Nat) (hj : j ≤ 8) : 128 >>> j = 0 ↔ j = 8 := by
  interval_cases j <;> decide

theorem mask_next (j : Nat) (hj : j < 8) : ((128 >>> j) >>> 1) % 256 = 128 >>> (j + 1) := by
  interval_cases j <;> decide

theorem byteBits_getElem? (v j : Nat) (hj : j < 8) :
    (byteBits v)[j]? = some ((v &&& (128 >>> j)) != 0) := by
  have h : 128 >>> j = 2 ^ (7 - j) := by interval_cases j <;> decide
  rw [h, and_two_pow_ne_zero]
  simp [byteBits, hj]

theorem byteBits_take_succ (v j : Nat) (hj : j < 8) :
    (byteBits v).take (j + 1) = (byteBits v).take j ++ [(v &&& (128 >>> j)) != 0] := by
  rw [List.take_succ, byteBits_getElem? v j hj]
  rfl

theorem byteBits_take_eight (v : Nat) : (byteBits v).take 8 = byteBits v := by
  apply List.take_of_length_le
  simp [byteBits]

theorem frameBits_take_succ (frame : List Nat) (i : Nat) (hi : i < frame.length) :
    frameBits (frame.take (i + 1)) = frameBits (frame.take i) ++ byteBits (frame.getD i 0) := by
  have h : frame.take (i + 1) = frame.take i ++ [frame[i]] := by
    rw [List.take_succ, List.getElem?_eq_getElem hi]; rfl
  unfold frameBits
  rw [List.getD_eq_getElem?_getD, List.getElem?_eq_getElem hi, Option.getD_some]
  conv_lhs => rw [h]
  rw [List.flatMap_append, List.flatMap_cons, List.flatMap_nil, List.append_nil]

theorem suffix_snoc {α : Type} (x s : List α) (c : α) (h : x <:+ s) : x ++ [c] <:+ s ++ [c] := by
  obtain ⟨t, rfl⟩ := h
  exact ⟨t, by simp⟩

theorem lastN_of_suffix {α : Type} (x s : List α) (n : Nat) (h : x <:+ s) (hn : x.length = n) :
    lastN n s = x := by
  obtain ⟨t, rfl⟩ := h
  unfold lastN
  rw [List.length_append, hn, Nat.add_sub_cancel]
  simp

theorem Sys.shifting_append_calm (pre rest : List Instr) (h : ∀ x ∈ pre, x.calm = true) :
    Sys.shifting (pre ++ rest) = Sys.shifting rest := by
  induction pre with
  | nil => rfl
  | cons x pre ih =>
    have hx := h x (List.mem_cons_self _ _)
    have ih2 := ih (fun y hy => h y (List.mem_cons_of_mem _ hy))
    cases x <;> first | (simp [Instr.calm] at hx; done) | simpa [Sys.shifting] using ih2

/-! ## The invariant is kept by every step -/

theorem Sys.Inv.img (s : Sys) (h : s.Inv) (htd : s.hw.tlc5940_transferdone = true) : Img s := by
  rcases h.2 with hc | hb | hd
  · exact hc.1 htd
  · rw [hb.1] at htd; cases htd
  · rw [hd.1] at htd; cases htd

theorem Calm.owner_step (s : Sys) (hlen : s.tlc.frame.length = s.tlc.numdrivers * 24)
    (hc : Calm s) (hne : s.todo ≠ []) : s.next.Inv := by
  obtain ⟨himg, pre, rest, htodo, hpre, hrest⟩ := hc
  cases pre with
  | nil =>
    rw [List.nil_append] at htodo
    rcases hrest with hnil | ⟨r, hr, hafter⟩
    · rw [hnil] at htodo; exact absurd htodo hne
    · rw [hr] at htodo
      rw [Sys.next_wait s r htodo]
      cases htd : s.hw.tlc5940_transferdone
      · simp only [Bool.false_eq_true, if_false]
        refine ⟨hlen, ?_⟩
        rcases hafter with hd | ⟨q, k, hqk, hq, hk⟩
        · exact Or.inr (Or.inr ⟨htd, Disp.rest hd⟩)
        · exact Or.inr (Or.inl ⟨htd, q, k, hqk, hq, hk⟩)
      · simp only [if_true]
        exact ⟨hlen, Or.inl ⟨himg, [], rest, by rw [htodo, hr]; rfl, by simp,
          Or.inr ⟨r, hr, hafter⟩⟩⟩
  | cons x pre2 =>
    have hx : x.calm = true := hpre x (List.mem_cons_self _ _)
    have hxw : x ≠ Instr.wait := by
      intro h; rw [h] at hx; simp [Instr.calm] at hx
    rw [Sys.next_cons s x (pre2 ++ rest) (by rw [htodo]; rfl) hxw]
    obtain ⟨e1, e2, e3, e4, e5, e6⟩ := Instr.calm_effect s x hx
    refine ⟨by simp only [e4, e5, hlen], Or.inl ⟨?_, Instr.expand s.tlc x ++ pre2, rest, ?_, ?_, hrest⟩⟩
    · intro htd
      simp only [e1] at htd
      have := himg htd
      unfold Img at this ⊢
      simp only [e2, e3, e4]
      exact this
    · simp
    · intro y hy
      rcases List.mem_append.mp hy with hy | hy
      · exact e6 y hy
      · exact hpre y (List.mem_cons_of_mem _ hy)

theorem Busy.busy_step (s : Sys) (hlen : s.tlc.frame.length = s.tlc.numdrivers * 24)
    (hb : Busy s) (hne : s.todo ≠ []) : s.next.Inv := by
  obtain ⟨htd, q, k, htodo, hq, hk⟩ := hb
  cases q with
  | nil =>
    rw [List.nil_append] at htodo
    apply Calm.owner_step s hlen _ hne
    refine ⟨fun h => (by rw [htd] at h; cases h), [], k, (by rw [htodo]; rfl), (by simp), ?_⟩
    rcases hk with hk | hk
    · exact Or.inl hk
    · exact Or.inr ⟨displayRest, hk, Or.inl rfl⟩
  | cons x q2 =>
    have hx : x.quiet = true := hq x (List.mem_cons_self _ _)
    have hxw : x ≠ Instr.wait := by
      intro h; rw [h] at hx; simp [Instr.quiet] at hx
    rw [Sys.next_cons s x (q2 ++ k) (by rw [htodo]; rfl) hxw]
    obtain ⟨e1, e4, e5, e6⟩ := Instr.quiet_effect s x hx
    refine ⟨by simp only [e4, e5, hlen], Or.inr (Or.inl ⟨by simp only [e1, htd],
      Instr.expand s.tlc x ++ q2, k, by simp, ?_, hk⟩)⟩
    intro y hy
    rcases List.mem_append.mp hy with hy | hy
    · exact e6 y hy
    · exact hq y (List.mem_cons_of_mem _ hy)

theorem Disp.display_step (s : Sys) (hlen : s.tlc.frame.length = s.tlc.numdrivers * 24)
    (htd : s.hw.tlc5940_transferdone = false) (hd : Disp s) : s.next.Inv := by
  cases hd with
  | rest htodo =>
    rw [Sys.next_cons s Instr.snap _ htodo (by simp)]
    exact ⟨hlen, Or.inr (Or.inr ⟨htd, Disp.vprg rfl rfl⟩)⟩
  | vprg htodo hshown =>
    rw [Sys.next_cons s (Instr.clrb VPRG_PIN) _ htodo (by simp)]
    refine ⟨hlen, Or.inr (Or.inr ⟨htd, Disp.loop 0 rfl hshown (by decide) ?_⟩)⟩
    intro _
    exact ⟨Nat.zero_le _, by simp [frameBits]⟩
  | loop i htodo hshown hi hsent =>
    rw [Sys.next_cons s (Instr.displayLoop i) _ htodo (by simp)]
    by_cases hlt : i < s.tlc.numdrivers * 24
    · refine ⟨hlen, Or.inr (Or.inr ⟨htd, Disp.shift i 0 ?_ hshown hi hlt (by decide) hsent⟩)⟩
      simp [Instr.expand, hlt, Instr.effect]
    · have hN : s.tlc.numdrivers * 24 ≤ 255 := by omega
      obtain ⟨h1, h2⟩ := hsent hN
      have hi2 : i = s.tlc.frame.length := by omega
      refine ⟨hlen, Or.inr (Or.inr ⟨htd, Disp.done ?_ hshown ?_⟩)⟩
      · simp [Instr.expand, hlt, Instr.effect]
      · rw [hi2, List.take_length] at h2
        simpa using h2
  | shift i j htodo hshown hi hlt hj hsent =>
    rw [Sys.next_cons s _ _ htodo (by simp)]
    by_cases hj8 : j = 8
    · have hm : 128 >>> j = 0 := (mask_zero_iff j hj).2 hj8
      refine ⟨hlen, Or.inr (Or.inr ⟨htd,
        Disp.loop ((i + 1) % 256) ?_ hshown (Nat.mod_lt _ (by decide)) ?_⟩)⟩
      · simp [Instr.expand, hm, Instr.effect]
      · intro hN
        have hN2 : s.tlc.numdrivers * 24 ≤ 255 := hN
        obtain ⟨h1, h2⟩ := hsent hN2
        have hmod : (i + 1) % 256 = i + 1 := Nat.mod_eq_of_lt (by omega)
        rw [hmod]
        refine ⟨hlt, ?_⟩
        rw [hj8, byteBits_take_eight] at h2
        show (frameBits (s.tlc.frame.take (i + 1)) ++ _) <:+ sampled s.hw.trace
        rw [frameBits_take_succ _ _ (by omega)]
        simpa using h2
    · have hj7 : j < 8 := by omega
      have hm : ¬ 128 >>> j = 0 := fun h => hj8 ((mask_zero_iff j hj).1 h)
      refine ⟨hlen, Or.inr (Or.inr ⟨htd, Disp.data i j ?_ hshown hi hlt hj7 hsent⟩)⟩
      simp [Instr.expand, hm, Instr.effect, mask_next j hj7]
  | data i j htodo hshown hi hlt hj hsent =>
    by_cases hc : (s.tlc.frame.getD i 0 &&& (128 >>> j)) != 0
    · rw [if_pos hc] at htodo
      rw [Sys.next_cons s _ _ htodo (by simp)]
      refine ⟨hlen, Or.inr (Or.inr ⟨htd, Disp.high i j rfl hshown hi hlt hj ?_ ?_⟩)⟩
      · intro hN
        obtain ⟨h1, h2⟩ := hsent hN
        refine ⟨h1, ?_⟩
        show _ <:+ sampled (s.hw.setb SIN_PIN).trace
        rw [show (s.hw.setb SIN_PIN).trace = s.hw.trace ++ [Ev.pin SIN_PIN true _] from rfl,
          sampled_snoc_of_not_clock _ _ (by simp [Ev.act, SIN_PIN, SCLK_PIN, PB0, PB5])]
        exact h2
      · show (s.hw.PORTB ||| _BV SIN_PIN).testBit SIN_PIN
          = ((s.tlc.frame.getD i 0 &&& (128 >>> j)) != 0)
        rw [testBit_or_BV, hc]
        simp
    · rw [if_neg hc] at htodo
      rw [Sys.next_cons s _ _ htodo (by simp)]
      refine ⟨hlen, Or.inr (Or.inr ⟨htd, Disp.high i j rfl hshown hi hlt hj ?_ ?_⟩)⟩
      · intro hN
        obtain ⟨h1, h2⟩ := hsent hN
        refine ⟨h1, ?_⟩
        show _ <:+ sampled (s.hw.clrb SIN_PIN).trace
        rw [show (s.hw.clrb SIN_PIN).trace = s.hw.trace ++ [Ev.pin SIN_PIN false _] from rfl,
          sampled_snoc_of_not_clock _ _ (by simp [Ev.act])]
        exact h2
      · show (s.hw.PORTB &&& not8 (_BV SIN_PIN)).testBit SIN_PIN
          = ((s.tlc.frame.getD i 0 &&& (128 >>> j)) != 0)
        rw [testBit_and_not8_BV _ _ _ (by decide)]
        simp only [Bool.not_eq_true] at hc
        rw [hc]
        simp
  | high i j htodo hshown hi hlt hj hsent hsin =>
    rw [Sys.next_cons s _ _ htodo (by simp)]
    refine ⟨hlen, Or.inr (Or.inr ⟨htd, Disp.low i j rfl hshown hi hlt hj ?_⟩)⟩
    intro hN
    obtain ⟨h1, h2⟩ := hsent hN
    refine ⟨h1, ?_⟩
    show (frameBits (s.tlc.frame.take i) ++ (byteBits (s.tlc.frame.getD i 0)).take (j + 1))
      <:+ sampled (s.hw.setb SCLK_PIN).trace
    have htr : sampled (s.hw.setb SCLK_PIN).trace
        = sampled s.hw.trace ++ [(s.tlc.frame.getD i 0 &&& (128 >>> j)) != 0] := by
      rw [show (s.hw.setb SCLK_PIN).trace
          = s.hw.trace ++ [Ev.pin SCLK_PIN true (s.hw.PORTB ||| _BV SCLK_PIN)] from rfl,
        sampled_append]
      simp only [sampled, if_true, testBit_or_BV, hsin]
      simp [SCLK_PIN, SIN_PIN, PB0, PB5]
    rw [htr, byteBits_take_succ _ _ hj, ← List.append_assoc]
    exact suffix_snoc _ _ _ h2
  | low i j htodo hshown hi hlt hj hsent =>
    rw [Sys.next_cons s _ _ htodo (by simp)]
    refine ⟨hlen, Or.inr (Or.inr ⟨htd, Disp.shift i (j + 1) rfl hshown hi hlt (by omega) ?_⟩)⟩
    intro hN
    obtain ⟨h1, h2⟩ := hsent hN
    refine ⟨h1, ?_⟩
    show _ <:+ sampled (s.hw.clrb SCLK_PIN).trace
    rw [show (s.hw.clrb SCLK_PIN).trace = s.hw.trace ++ [Ev.pin SCLK_PIN false _] from rfl,
      sampled_snoc_of_not_clock _ _ (by simp [Ev.act])]
    exact h2
  | done htodo hshown hsuf =>
    rw [Sys.next_cons s _ _ htodo (by simp)]
    refine ⟨hlen, Or.inl ⟨?_, [], [], rfl, by simp, Or.inl rfl⟩⟩
    intro _
    refine ⟨?_, ?_⟩
    on_goal 2 =>
      show s.shown.length = s.tlc.numdrivers * 24
      rw [← hlen, hshown]
    show frameBits s.shown <:+ sampled (s.hw.setTransferdone true).trace
    rw [show (s.hw.setTransferdone true).trace = s.hw.trace ++ [Ev.transferdone true] from rfl,
      sampled_snoc_of_not_clock _ _ (by simp [Ev.act]), hshown]
    exact hsuf

theorem Sent.kept_by_handler (s : Sys) (i j : Nat) (htd : s.hw.tlc5940_transferdone = false)
    (h : Sent s i j) : Sent s.irq i j := by
  intro hN
  obtain ⟨h1, h2⟩ := h hN
  refine ⟨h1, ?_⟩
  show _ <:+ sampled (TIMER1_OVF_vect s.hw).trace
  rw [isr_sampled_of_idle s.hw htd]
  exact h2

theorem Disp.handler_step (s : Sys) (htd : s.hw.tlc5940_transferdone = false) (hd : Disp s) :
    Disp s.irq := by
  cases hd with
  | rest htodo => exact Disp.rest htodo
  | vprg htodo hshown => exact Disp.vprg htodo hshown
  | loop i htodo hshown hi hsent => exact Disp.loop i htodo hshown hi (hsent.kept_by_handler s i 0 htd)
  | shift i j htodo hshown hi hlt hj hsent =>
    exact Disp.shift i j htodo hshown hi hlt hj (hsent.kept_by_handler s i j htd)
  | data i j htodo hshown hi hlt hj hsent =>
    exact Disp.data i j htodo hshown hi hlt hj (hsent.kept_by_handler s i j htd)
  | high i j htodo hshown hi hlt hj hsent hsin =>
    refine Disp.high i j htodo hshown hi hlt hj (hsent.kept_by_handler s i j htd) ?_
    show (TIMER1_OVF_vect s.hw).PORTB.testBit SIN_PIN = _
    rw [isr_testBit_SIN]
    exact hsin
  | low i j htodo hshown hi hlt hj hsent =>
    exact Disp.low i j htodo hshown hi hlt hj (hsent.kept_by_handler s i (j + 1) htd)
  | done htodo hshown hsuf =>
    refine Disp.done htodo hshown ?_
    show _ <:+ sampled (TIMER1_OVF_vect s.hw).trace
    rw [isr_sampled_of_idle s.hw htd]
    exact hsuf

theorem Sys.Inv.fire (s : Sys) (h : s.Inv) : s.irq.Inv := by
  have htd2 : s.irq.hw.tlc5940_transferdone = false := isr_transferdone s.hw
  refine ⟨h.1, ?_⟩
  rcases h.2 with hc | hb | hd
  · obtain ⟨_, pre, rest, h1, h2, h3⟩ := hc
    exact Or.inl ⟨fun h => (by rw [htd2] at h; cases h), pre, rest, h1, h2, h3⟩
  · obtain ⟨_, q, k, h1, h2, h3⟩ := hb
    exact Or.inr (Or.inl ⟨htd2, q, k, h1, h2, h3⟩)
  · exact Or.inr (Or.inr ⟨htd2, hd.2.handler_step s hd.1⟩)

/-- Starting a call between two calls keeps the invariant, whenever the code of
the call is calm up to its first wait. -/
theorem Sys.Inv.call (s : Sys) (h : s.Inv) (code pre r : List Instr)
    (hcode : code = pre ++ Instr.wait :: r ∨ (code = pre ∧ r = []))
    (hpre : ∀ x ∈ pre, x.calm = true) (hr : After r) :
    Sys.Inv { s with todo := code } := by
  refine ⟨h.1, Or.inl ⟨fun htd => h.img s htd, ?_⟩⟩
  rcases hcode with hc | ⟨hc, _⟩
  · exact ⟨pre, Instr.wait :: r, hc, hpre, Or.inr ⟨r, rfl, hr⟩⟩
  · exact ⟨pre, [], by simp [hc], hpre, Or.inl rfl⟩

theorem After.nil : After [] := Or.inr ⟨[], [], rfl, by simp, Or.inl rfl⟩

theorem Sys.Inv.step (s s2 : Sys) (h : s.Inv) (hs : Step s s2) : s2.Inv := by
  cases hs with
  | callInit hnil =>
    refine h.call s initCode initPins (((setGlobalDCCode 63).tail ++ initTimers) ++ displayCode)
      (Or.inl rfl) (by decide) ?_
    exact Or.inr ⟨(setGlobalDCCode 63).tail ++ initTimers, displayCode, rfl, by decide,
      Or.inr rfl⟩
  | callDisplay hnil =>
    exact h.call s displayCode [] displayRest (Or.inl rfl) (by simp) (Or.inl rfl)
  | callSetGlobalDC dcval hnil hv =>
    refine h.call s (setGlobalDCCode dcval) [] _ (Or.inl rfl) (by simp) ?_
    exact Or.inr ⟨_, [], (List.append_nil _).symm, by simp [Instr.quiet], Or.inl rfl⟩
  | callClear hnil =>
    exact h.call s clearCode clearCode [] (Or.inr ⟨rfl, rfl⟩) (by decide) After.nil
  | callSetLED c v hnil hc hc2 hv =>
    exact h.call s _ [Instr.setLED c v] [] (Or.inr ⟨rfl, rfl⟩) (by simp [Instr.calm]) After.nil
  | owner hne =>
    rcases h.2 with hc | hb | hd
    · exact hc.owner_step s h.1 hne
    · exact hb.busy_step s h.1 hne
    · exact hd.2.display_step s h.1 hd.1
  | irq => exact h.fire s

theorem Reachable.inv (s : Sys) (h : Reachable s) : s.Inv := by
  induction h with
  | start t m hlen htd hnp htr =>
    exact ⟨hlen, Or.inl ⟨fun h => (by simp only at h; rw [htd] at h; cases h), [], [], rfl,
      by simp, Or.inl rfl⟩⟩
  | step s s2 _ hstep ih => exact ih.step s s2 hstep

theorem Reachable.next (s : Sys) (h : Reachable s) : Reachable s.next := by
  by_cases hne : s.todo = []
  · have : s.next = s := by
      obtain ⟨tlc, hw, todo, shown⟩ := s
      simp only at hne
      subst hne
      rfl
    rw [this]; exact h
  · exact Reachable.step s _ h (Step.owner s hne)

theorem Reachable.iterate_next (s : Sys) (n : Nat) (h : Reachable s) :
    Reachable (Nat.iterate Sys.next n s) := by
  induction n generalizing s with
  | zero => exact h
  | succ n ih => rw [Function.iterate_succ_apply]; exact ih _ h.next

/-! ## The step system performs what the functions compute -/

theorem Sys.runsTo.refl (s : Sys) : s.runsTo s := ⟨0, rfl⟩

theorem Sys.runsTo.trans (s s2 s3 : Sys) (h1 : s.runsTo s2) (h2 : s2.runsTo s3) :
    s.runsTo s3 := by
  obtain ⟨a, rfl⟩ := h1
  obtain ⟨b, rfl⟩ := h2
  exact ⟨b + a, Function.iterate_add_apply _ _ _ _⟩

theorem Sys.runsTo.head (s s3 : Sys) (h : s.next.runsTo s3) : s.runsTo s3 := by
  obtain ⟨b, rfl⟩ := h
  exact ⟨b + 1, rfl⟩

theorem Sys.runsTo.reachable (s s2 : Sys) (h : s.runsTo s2) (hr : Reachable s) :
    Reachable s2 := by
  obtain ⟨n, rfl⟩ := h
  exact hr.iterate_next s n

/-- The steps of the shift loop perform `shiftLoop`. -/
theorem Sys.runsTo_shift (s : Sys) (v n : Nat) (k : List Instr) (hn : n ≤ 8)
    (h : s.todo = Instr.shift v (2 ^ n / 2) :: k) :
    s.runsTo { s with hw := shiftLoop v (2 ^ n / 2) s.hw, todo := k } := by
  induction n generalizing s with
  | zero =>
    have h0 : 2 ^ 0 / 2 = 0 := by decide
    rw [h0] at h ⊢
    apply Sys.runsTo.head
    rw [Sys.next_cons s _ _ h (by simp), shiftLoop_zero]
    exact Sys.runsTo.refl _
  | succ n ih =>
    have h2 : 2 ^ (n + 1) / 2 = 2 ^ n := by rw [pow_succ]; omega
    have hpos : ¬ 2 ^ n = 0 := by positivity
    have hlt : 2 ^ n / 2 < 256 := by
      have : 2 ^ n < 2 ^ 8 := Nat.pow_lt_pow_right (by decide) (by omega)
      omega
    have hnext : (2 ^ n >>> 1) % 256 = 2 ^ n / 2 := by
      rw [Nat.shiftRight_eq_div_pow, pow_one, Nat.mod_eq_of_lt hlt]
    rw [h2] at h ⊢
    rw [shiftLoop_two_pow v n (by omega)]
    apply Sys.runsTo.head
    rw [Sys.next_cons s _ _ h (by simp)]
    simp only [Instr.expand, hpos, if_false, and_two_pow_ne_zero, hnext, Instr.effect,
      List.cons_append, List.nil_append]
    apply Sys.runsTo.head
    cases hb : v.testBit n
    · simp only [Bool.false_eq_true, if_false]
      rw [Sys.next_cons _ (Instr.clrb SIN_PIN) _ rfl (by simp)]
      apply Sys.runsTo.head
      rw [Sys.next_cons _ (Instr.setb SCLK_PIN) _ rfl (by simp)]
      apply Sys.runsTo.head
      rw [Sys.next_cons _ (Instr.clrb SCLK_PIN) _ rfl (by simp)]
      exact ih _ (by omega) rfl
    · simp only [if_true]
      rw [Sys.next_cons _ (Instr.setb SIN_PIN) _ rfl (by simp)]
      apply Sys.runsTo.head
      rw [Sys.next_cons _ (Instr.setb SCLK_PIN) _ rfl (by simp)]
      apply Sys.runsTo.head
      rw [Sys.next_cons _ (Instr.clrb SCLK_PIN) _ rfl (by simp)]
      exact ih _ (by omega) rfl

/-- The steps of the loop of `display` perform `displayLoop`, whenever that
returns. -/
theorem Sys.runsTo_displayLoop (fuel : Nat) (s : Sys) (i : Nat) (k : List Instr) (hw2 : Machine)
    (hf : TLC5940.displayLoop fuel s.tlc i s.hw = some hw2)
    (h : s.todo = Instr.displayLoop i :: k) :
    s.runsTo { s with hw := hw2, todo := k } := by
  induction fuel generalizing s i with
  | zero => simp [TLC5940.displayLoop] at hf
  | succ n ih =>
    apply Sys.runsTo.head
    rw [Sys.next_cons s _ _ h (by simp)]
    by_cases hlt : i < s.tlc.numdrivers * 24
    · simp only [TLC5940.displayLoop, hlt, if_true] at hf
      simp only [Instr.expand, hlt, if_true, Instr.effect, List.cons_append, List.nil_append]
      refine Sys.runsTo.trans _ _ _
        (Sys.runsTo_shift _ (s.tlc.frame.getD i 0) 8 _ (by decide) rfl) ?_
      exact ih _ _ hf rfl
    · simp only [TLC5940.displayLoop, hlt, if_false, Option.some.injEq] at hf
      simp only [Instr.expand, hlt, if_false, Instr.effect, List.nil_append]
      rw [← hf]
      exact Sys.runsTo.refl _

theorem spinWait_eq_some (fuel : Nat) (m m2 : Machine) (h : spinWait fuel m = some m2) :
    m2 = m ∧ m.tlc5940_transferdone = false := by
  cases htd : m.tlc5940_transferdone
  · cases fuel with
    | zero => simp [spinWait] at h
    | succ n =>
      simp only [spinWait, htd, Bool.false_eq_true, if_false, Option.some.injEq] at h
      exact ⟨h.symm, rfl⟩
  · rw [spinWait_set fuel m htd] at h; cases h

/-- The steps of `display` perform `display`, whenever that returns; the history
variable then holds the frame. -/
theorem Sys.runsTo_display (fuel : Nat) (s : Sys) (k : List Instr) (hw2 : Machine)
    (hf : TLC5940.display fuel s.tlc s.hw = some hw2) (h : s.todo = displayCode ++ k) :
    s.runsTo { s with hw := hw2, todo := k, shown := s.tlc.frame } := by
  unfold TLC5940.display at hf
  cases hsw : spinWait fuel s.hw with
  | none => rw [hsw] at hf; cases hf
  | some m1 =>
    obtain ⟨rfl, htd⟩ := spinWait_eq_some fuel s.hw m1 hsw
    rw [hsw] at hf
    simp only [Option.bind_eq_bind, Option.some_bind] at hf
    cases hdl : TLC5940.displayLoop fuel s.tlc 0 (s.hw.clrb VPRG_PIN) with
    | none => rw [hdl] at hf; cases hf
    | some m3 =>
      rw [hdl] at hf
      simp only [Option.some_bind, Option.pure_def, Option.some.injEq] at hf
      apply Sys.runsTo.head
      rw [Sys.next_wait s _ h, htd]
      simp only [Bool.false_eq_true, if_false]
      apply Sys.runsTo.head
      rw [Sys.next_cons _ Instr.snap _ rfl (by simp)]
      apply Sys.runsTo.head
      rw [Sys.next_cons _ (Instr.clrb VPRG_PIN) _ rfl (by simp)]
      refine Sys.runsTo.trans _ _ _ (Sys.runsTo_displayLoop fuel _ 0 _ m3 hdl rfl) ?_
      apply Sys.runsTo.head
      rw [Sys.next_cons _ (Instr.transferdone true) _ rfl (by simp), ← hf]
      exact Sys.runsTo.refl _

/-! ## Settled claim: atomic frame publication -/

/-- C8.  In every state the interleaved system can reach: a firing of the
handler stores a latch pulse exactly if `tlc5940_transferdone` is set; whenever
the flag is set, the last `192 * N` bits the chips have sampled are the bits of
the whole frame as it was when the most recent `display` passed its wait
(`shown`), bytes in order, most significant bit first; and while a display
shift is in progress the flag is clear, so a firing then stores no latch
pulse. -/
theorem atomic_frame_publication (s : Sys) (h : Reachable s) :
    risings XLAT_PIN (isrEvents s.hw) = (if s.hw.tlc5940_transferdone then 1 else 0) ∧
    (s.hw.tlc5940_transferdone = true →
      s.shown.length = s.tlc.numdrivers * 24 ∧
      lastN (192 * s.tlc.numdrivers) (sampled s.hw.trace) = frameBits s.shown) ∧
    (Sys.shifting s.todo = true → s.hw.tlc5940_transferdone = false) := by
  have hinv := h.inv
  refine ⟨(isrEvents_risings s.hw).1, ?_, ?_⟩
  · intro htd
    obtain ⟨h1, h2⟩ := hinv.img s htd
    refine ⟨h2, lastN_of_suffix _ _ _ h1 ?_⟩
    rw [frameBits_length, h2]
    omega
  · intro hsh
    rcases hinv.2 with hc | hb | hd
    · obtain ⟨_, pre, rest, h1, h2, h3⟩ := hc
      rw [h1, Sys.shifting_append_calm pre rest h2] at hsh
      rcases h3 with h3 | ⟨r, h3, _⟩
      · rw [h3] at hsh; cases hsh
      · rw [h3] at hsh; cases hsh
    · exact hb.1
    · exact hd.1

/-- The example state is reachable: from reset the owner calls `display` and
is not interrupted. -/
theorem displayedExample_reachable : Reachable displayedExample := by
  have h0 : Reachable ⟨exampleDriver, Machine.reset, [], []⟩ :=
    Reachable.start _ _ (by decide) rfl rfl rfl
  have h1 : Reachable ⟨exampleDriver, Machine.reset, displayCode, []⟩ :=
    Reachable.step _ _ h0 (Step.callDisplay _ rfl)
  have hd := TLC5940.display_some 25 exampleDriver Machine.reset (by decide) (by decide) rfl
    (by decide)
  exact (Sys.runsTo_display 25 ⟨exampleDriver, Machine.reset, displayCode, []⟩ [] _ hd rfl).reachable
    _ _ h1

/-- C8, instance: after one uninterrupted `display` of the example driver the
flag is set, a firing stores one latch pulse, and the last 192 sampled bits are
the frame. -/
theorem atomic_frame_publication_witness :
    Reachable displayedExample ∧
    displayedExample.hw.tlc5940_transferdone = true ∧
    risings XLAT_PIN (isrEvents displayedExample.hw) = 1 ∧
    lastN (192 * 1) (sampled displayedExample.hw.trace) = frameBits exampleDriver.frame :=
  ⟨displayedExample_reachable, rfl,
    (atomic_frame_publication displayedExample displayedExample_reachable).1,
    ((atomic_frame_publication displayedExample displayedExample_reachable).2.1 rfl).2⟩

/-! ## What `setLED` and `getLED` do for channels 0..170

These lemmas are not tied to one claim; they describe the part of the input
space on which the packing works. -/

theorem testBit_15 (i : Nat) : Nat.testBit 15 i = decide (i < 4) :=
  Nat.testBit_two_pow_sub_one 4 i

theorem testBit_255 (i : Nat) : Nat.testBit 255 i = decide (i < 8) :=
  Nat.testBit_two_pow_sub_one 8 i

theorem testBit_240 (i : Nat) : Nat.testBit 240 i = (decide (4 ≤ i) && decide (i < 8)) := by
  have h : (240 : Nat) = 15 <<< 4 := by decide
  rw [h, Nat.testBit_shiftLeft, testBit_15]
  by_cases h4 : 4 ≤ i <;> by_cases h8 : i < 8 <;> simp [h4, h8] <;> omega

theorem testBit_of_lt_4096 (f i : Nat) (hf : f < 4096) (hi : 12 ≤ i) : f.testBit i = false :=
  Nat.testBit_eq_false_of_lt
    (lt_of_lt_of_le hf (by
      have : (4096 : Nat) = 2 ^ 12 := by decide
      rw [this]; exact Nat.pow_le_pow_right (by decide) hi))

/-- For channels up to 170 the byte index and the nibble flag computed by `setLED`
and `getLED` are `⌊12·c/8⌋` and "`12·c` is not a multiple of 8". -/
theorem channel_address (c : Nat) (hc : c ≤ 170) :
    (c * 12) % 65536 = 12 * c ∧
    ((12 * c) >>> 3) % 256 = 12 * c / 8 ∧
    (((12 * c) &&& 7) != 0) = decide (¬ 12 * c % 8 = 0) := by
  refine ⟨by omega, ?_, ?_⟩
  · rw [Nat.shiftRight_eq_div_pow]
    have : (2 : Nat) ^ 3 = 8 := by decide
    rw [this]; omega
  · have h7 : (7 : Nat) = 2 ^ 3 - 1 := by decide
    rw [h7, Nat.and_pow_two_sub_one_eq_mod]
    have : (2 : Nat) ^ 3 = 8 := by decide
    rw [this]
    by_cases h : 12 * c % 8 = 0 <;> simp [h]

theorem high_byte_fits (f : Nat) (hf : f < 4096) : (f >>> 4) % 256 = f >>> 4 := by
  apply Nat.mod_eq_of_lt
  rw [Nat.shiftRight_eq_div_pow]
  have : (2 : Nat) ^ 4 = 16 := by decide
  rw [this]; omega

theorem even_second_byte (old f : Nat) :
    (((old &&& 0x0f) ||| ((f &&& 0x0f) <<< 4)) % 256) >>> 4 = f &&& 0xF ∧
    (((old &&& 0x0f) ||| ((f &&& 0x0f) <<< 4)) % 256) &&& 0xF = old &&& 0xF := by
  have h256 : (256 : Nat) = 2 ^ 8 := by decide
  constructor
  · apply Nat.eq_of_testBit_eq
    intro i
    simp only [h256, Nat.testBit_lor, Nat.testBit_shiftLeft, Nat.testBit_shiftRight,
      Nat.testBit_land, testBit_15, Nat.testBit_mod_two_pow]
    by_cases h : i < 4
    · have h1 : 4 + i < 8 := by omega
      have h2 : ¬ 4 + i < 4 := by omega
      simp [h, h1, h2]
    · simp [h]
  · apply Nat.eq_of_testBit_eq
    intro i
    simp only [h256, Nat.testBit_lor, Nat.testBit_shiftLeft, Nat.testBit_shiftRight,
      Nat.testBit_land, testBit_15, Nat.testBit_mod_two_pow]
    by_cases h : i < 4
    · have h1 : i < 8 := by omega
      have h2 : ¬ 4 ≤ i := by omega
      simp [h, h1, h2]
    · simp [h]

theorem odd_first_byte (old f : Nat) (hf : f < 4096) :
    (((old &&& 0xf0) ||| (f >>> 8)) % 256) &&& 0xF = f >>> 8 ∧
    (((old &&& 0xf0) ||| (f >>> 8)) % 256) &&& 0xf0 = old &&& 0xf0 := by
  have h256 : (256 : Nat) = 2 ^ 8 := by decide
  constructor
  · apply Nat.eq_of_testBit_eq
    intro i
    simp only [h256, Nat.testBit_lor, Nat.testBit_shiftRight, Nat.testBit_land, testBit_15,
      testBit_240, Nat.testBit_mod_two_pow]
    by_cases h : i < 4
    · have h1 : i < 8 := by omega
      have h2 : ¬ 4 ≤ i := by omega
      simp [h, h1, h2]
    · have h3 : f.testBit (8 + i) = false := testBit_of_lt_4096 f _ hf (by omega)
      simp [h, h3]
  · apply Nat.eq_of_testBit_eq
    intro i
    simp only [h256, Nat.testBit_lor, Nat.testBit_shiftRight, Nat.testBit_land,
      testBit_240, Nat.testBit_mod_two_pow]
    by_cases h4 : 4 ≤ i <;> by_cases h8 : i < 8 <;> simp [h4, h8]
    · intro hb
      rw [testBit_of_lt_4096 f (8 + i) hf (by omega)] at hb
      cases hb

theorem low_byte_fits (f : Nat) : (f &&& 0xff) % 256 = f &&& 0xFF := by
  have h255 : (0xff : Nat) = 2 ^ 8 - 1 := by decide
  have h256 : (256 : Nat) = 2 ^ 8 := by decide
  rw [h255, Nat.and_pow_two_sub_one_eq_mod, h256, Nat.mod_mod]

theorem join_even (f : Nat) (hf : f < 4096) :
    (((f >>> 4) <<< 4) ||| (f &&& 0xF)) % 65536 = f := by
  have h : ((f >>> 4) <<< 4) ||| (f &&& 0xF) = f := by
    apply Nat.eq_of_testBit_eq
    intro i
    simp only [Nat.testBit_lor, Nat.testBit_shiftLeft, Nat.testBit_shiftRight,
      Nat.testBit_land, testBit_15]
    by_cases h : 4 ≤ i
    · have : 4 + (i - 4) = i := by omega
      simp [h, this]
    · simp [h]
      omega
  rw [h]
  omega

theorem getD_set_self (l : List Nat) (i a : Nat) (h : i < l.length) : (l.set i a).getD i 0 = a := by
  rw [List.getD_eq_getElem?_getD, List.getElem?_set_self h]; rfl

theorem getD_set_other (l : List Nat) (i j a : Nat) (h : i ≠ j) :
    (l.set i a).getD j 0 = l.getD j 0 := by
  rw [List.getD_eq_getElem?_getD, List.getD_eq_getElem?_getD, List.getElem?_set_ne h]

/-- The frame after `setLED(c, v)` for a channel up to 170, with
`f = (v << shiftbits) mod 2^16` the shifted intensity. -/
theorem TLC5940.setLED_frame (t : TLC5940) (c v : Nat) (hc : c ≤ 170) :
    (t.setLED c v).frame =
      if 12 * c % 8 = 0 then
        (t.frame.set (12 * c / 8) ((((v <<< t.shiftbits) % 65536) >>> 4) % 256)).set (12 * c / 8 + 1)
          (((t.frame.getD (12 * c / 8 + 1) 0 &&& 0x0f) |||
            ((((v <<< t.shiftbits) % 65536) &&& 0x0f) <<< 4)) % 256)
      else
        (t.frame.set (12 * c / 8)
          (((t.frame.getD (12 * c / 8) 0 &&& 0xf0) ||| (((v <<< t.shiftbits) % 65536) >>> 8)) % 256)).set
          (12 * c / 8 + 1) ((((v <<< t.shiftbits) % 65536) &&& 0xff) % 256) := by
  obtain ⟨h1, h2, h3⟩ := channel_address c hc
  unfold TLC5940.setLED
  simp only [h1, h2, h3]
  by_cases h : 12 * c % 8 = 0
  · simp only [h, not_true_eq_false, decide_False, Bool.not_false, if_true]
    rw [getD_set_other _ _ _ _ (by omega)]
  · simp only [h, not_false_eq_true, decide_True, Bool.not_true, Bool.false_eq_true, if_false]

/-- `getLED(c)` for a channel up to 170. -/
theorem TLC5940.getLED_eq (t : TLC5940) (c : Nat) (hc : c ≤ 170) :
    t.getLED c =
      if 12 * c % 8 = 0 then
        ((t.frame.getD (12 * c / 8) 0 <<< 4) ||| (t.frame.getD (12 * c / 8 + 1) 0 >>> 4)) % 65536
      else
        (((t.frame.getD (12 * c / 8) 0 &&& 0xf0) <<< 4) ||| t.frame.getD (12 * c / 8 + 1) 0)
          % 65536 := by
  obtain ⟨h1, h2, h3⟩ := channel_address c hc
  unfold TLC5940.getLED
  simp only [h1, h2, h3]
  by_cases h : 12 * c % 8 = 0
  · simp only [h, not_true_eq_false, decide_False, Bool.not_false, if_true]
  · simp only [h, not_false_eq_true, decide_True, Bool.not_true, Bool.false_eq_true, if_false]

/-- Channels up to 170 are packed as the specification says, whatever the frame
held before. -/
theorem TLC5940.setLED_fieldStored (t : TLC5940) (c v : Nat) (hc : c ≤ 170)
    (hlen : 12 * c / 8 + 1 < t.frame.length) (hf : (v <<< t.shiftbits) % 65536 < 4096) :
    fieldStored (t.setLED c v).frame c ((v <<< t.shiftbits) % 65536) := by
  rw [TLC5940.setLED_frame t c v hc]
  unfold fieldStored
  by_cases h : 12 * c % 8 = 0
  · simp only [h, if_true]
    rw [getD_set_other _ _ _ _ (by omega), getD_set_self _ _ _ (by omega),
      getD_set_self _ _ _ (by rw [List.length_set]; exact hlen)]
    exact ⟨high_byte_fits _ hf, (even_second_byte _ _).1⟩
  · simp only [h, if_false]
    rw [getD_set_other _ _ _ _ (by omega), getD_set_self _ _ _ (by omega),
      getD_set_self _ _ _ (by rw [List.length_set]; exact hlen)]
    exact ⟨(odd_first_byte _ _ hf).1, low_byte_fits _⟩

/-- `setLED` for a channel up to 170 leaves every byte other than the two of that
channel as it was, and in the shared byte it leaves the neighbour's nibble. -/
theorem TLC5940.setLED_frame_elsewhere (t : TLC5940) (c v : Nat) (hc : c ≤ 170)
    (hlen : 12 * c / 8 + 1 < t.frame.length) (hf : (v <<< t.shiftbits) % 65536 < 4096) :
    (∀ k, k ≠ 12 * c / 8 → k ≠ 12 * c / 8 + 1 →
      (t.setLED c v).frame.getD k 0 = t.frame.getD k 0) ∧
    (12 * c % 8 = 0 →
      (t.setLED c v).frame.getD (12 * c / 8 + 1) 0 &&& 0xF
        = t.frame.getD (12 * c / 8 + 1) 0 &&& 0xF) ∧
    (¬ 12 * c % 8 = 0 →
      (t.setLED c v).frame.getD (12 * c / 8) 0 &&& 0xf0 = t.frame.getD (12 * c / 8) 0 &&& 0xf0) := by
  rw [TLC5940.setLED_frame t c v hc]
  refine ⟨?_, ?_, ?_⟩
  · intro k h1 h2
    split <;> rw [getD_set_other _ _ _ _ (Ne.symm h2), getD_set_other _ _ _ _ (Ne.symm h1)]
  · intro h
    simp only [h, if_true]
    rw [getD_set_self _ _ _ (by rw [List.length_set]; exact hlen)]
    exact (even_second_byte _ _).2
  · intro h
    simp only [h, if_false]
    rw [getD_set_other _ _ _ _ (by omega), getD_set_self _ _ _ (by omega)]
    exact (odd_first_byte _ _ hf).2

/-- Round trip on even channels up to 170: `getLED` returns the shifted
intensity that `setLED` stored. -/
theorem TLC5940.getLED_setLED_even (t : TLC5940) (c v : Nat) (hc : c ≤ 170)
    (heven : 12 * c % 8 = 0) (hlen : 12 * c / 8 + 1 < t.frame.length)
    (hf : (v <<< t.shiftbits) % 65536 < 4096) :
    (t.setLED c v).getLED c = (v <<< t.shiftbits) % 65536 := by
  have hs := TLC5940.setLED_fieldStored t c v hc hlen hf
  unfold fieldStored at hs
  simp only [heven, if_true] at hs
  rw [TLC5940.getLED_eq _ c hc]
  simp only [heven, if_true]
  rw [hs.1, hs.2]
  exact join_even _ hf

/-- On odd channels up to 170 `getLED` returns the low eight bits that `setLED`
stored, topped by the low nibble of the channel before instead of the channel's
own top nibble. -/
theorem TLC5940.getLED_setLED_odd (t : TLC5940) (c v : Nat) (hc : c ≤ 170)
    (hodd : ¬ 12 * c % 8 = 0) (hlen : 12 * c / 8 + 1 < t.frame.length)
    (hf : (v <<< t.shiftbits) % 65536 < 4096) :
    (t.setLED c v).getLED c =
      (((t.frame.getD (12 * c / 8) 0 &&& 0xf0) <<< 4) ||| ((v <<< t.shiftbits) % 65536 &&& 0xFF))
        % 65536 := by
  have hs := TLC5940.setLED_fieldStored t c v hc hlen hf
  have he := (TLC5940.setLED_frame_elsewhere t c v hc hlen hf).2.2 hodd
  unfold fieldStored at hs
  simp only [hodd, if_false] at hs
  rw [TLC5940.getLED_eq _ c hc]
  simp only [hodd, if_false]
  rw [hs.2, he]

/-! ## `setGlobalDC` and `init` run without interruption -/

theorem TLC5940.dcLoop_some (fuel : Nat) (t : TLC5940) (dcval i : Nat) (m : Machine)
    (hN : t.numdrivers * 16 ≤ 255) (hi : i ≤ t.numdrivers * 16)
    (hfuel : t.numdrivers * 16 - i < fuel) :
    TLC5940.dcLoop fuel t dcval i m =
      some (m.sent (List.replicate (t.numdrivers * 16 - i) (sixBits dcval)).flatten) := by
  induction fuel generalizing i m with
  | zero => omega
  | succ n ih =>
    by_cases hlt : i < t.numdrivers * 16
    · simp only [TLC5940.dcLoop, hlt, if_true]
      have hmod : (i + 1) % 256 = i + 1 := Nat.mod_eq_of_lt (by omega)
      have hrep : t.numdrivers * 16 - i = (t.numdrivers * 16 - (i + 1)) + 1 := by omega
      rw [hmod, ih (i + 1) _ (by omega) (by omega), shift6_eq_sent, hrep, List.replicate_succ,
        List.flatten_cons, Machine.sent_append]
    · have hi2 : t.numdrivers * 16 - i = 0 := by omega
      simp only [TLC5940.dcLoop, hlt, if_false, hi2]
      simp [Machine.sent_nil]

/-- With at most fifteen chips and the flag clear on entry, `setGlobalDC` returns:
program mode high, the six bits of `dcval` sent `16 * N` times, one latch pulse,
program mode low, `tlc5940_needpulse` set. -/
theorem TLC5940.setGlobalDC_some (fuel : Nat) (t : TLC5940) (dcval : Nat) (m : Machine)
    (hN : t.numdrivers ≤ 15) (htd : m.tlc5940_transferdone = false)
    (hfuel : t.numdrivers * 16 < fuel) :
    TLC5940.setGlobalDC fuel t dcval m =
      some ((((((m.setb VPRG_PIN).sent
        (List.replicate (t.numdrivers * 16) (sixBits dcval)).flatten).setb XLAT_PIN).clrb
          XLAT_PIN).clrb VPRG_PIN).setNeedpulse true) := by
  obtain ⟨n, rfl⟩ : ∃ n, fuel = n + 1 := ⟨fuel - 1, by omega⟩
  unfold TLC5940.setGlobalDC
  rw [spinWait_clear n m htd]
  simp only [Option.bind_eq_bind, Option.some_bind]
  rw [TLC5940.dcLoop_some (n + 1) t dcval 0 _ (by omega) (Nat.zero_le _) (by omega)]
  rfl

/-- With at most ten chips `init`, entered with `tlc5940_transferdone` clear,
returns; it leaves the timer control registers at `TCCR1B = CS11|CS10|WGM12`,
`TCCR2B = CS20`, interrupts enabled and both flags set. -/
theorem TLC5940.init_some (fuel : Nat) (t : TLC5940) (m : Machine)
    (hN : t.numdrivers ≤ 10) (hlen : t.frame.length = t.numdrivers * 24)
    (htd : m.tlc5940_transferdone = false) (hfuel : t.numdrivers * 24 < fuel) :
    ∃ m2, TLC5940.init fuel t m = some m2 ∧
      m2.TCCR1B = _BV CS11 ||| _BV CS10 ||| _BV WGM12 ∧ m2.TCCR2B = _BV CS20 ∧
      m2.TCCR1A = _BV WGM10 ∧ m2.TCCR2A = (_BV WGM21 ||| _BV COM2A0) ∧ m2.OCR2A = 1 ∧
      m2.TIMSK1 = _BV TOIE1 ∧ m2.sreg_I = true ∧
      m2.tlc5940_transferdone = true ∧ m2.tlc5940_needpulse = true := by
  unfold TLC5940.init
  simp only [Option.bind_eq_bind]
  rw [TLC5940.setGlobalDC_some fuel t 63 _ (by omega) (by exact htd) (by omega)]
  simp only [Option.some_bind]
  rw [TLC5940.display_some fuel t _ hN hlen (by exact htd) hfuel]
  exact ⟨_, rfl, rfl, rfl, rfl, rfl, rfl, rfl, rfl, rfl, rfl⟩

/-! ## Settled claim: one firing of the handler -/

/-- C9 holds for the blank line, the latch pulse, the extra clock pulse, the flags
and the order of all stores (`isrEvents_unport`), but the handler does not stop
both timers.  Fired in the state `init` leaves (one chip, from reset: `TCCR1B =
CS11|CS10|WGM12`, `TCCR2B = CS20`, both flags set), its stores are, in order:
blank high, `TCCR1B = 9`, `TCCR2B = 0`, latch high, latch low,
`transferdone = false`, clock high, clock low, `needpulse = false`, blank low,
`TCNT2 = 0`, `TCNT1 = 0`, `TCCR1B = 11`, `TCCR2B = 1`.  The value 9 still has
`CS10` set: the clock-select field of timer 1 is 1 (system clock, no prescaler),
not 0 (stopped); only timer 2 is stopped. -/
theorem handler_leaves_timer1_running :
    ∃ m, TLC5940.init 25 (TLC5940.zeroed 1 12) Machine.reset = some m ∧
      (isrEvents m).map Ev.unport =
        [Ev.pin BLANK_PIN true 0, Ev.reg Reg.TCCR1B 9, Ev.reg Reg.TCCR2B 0,
          Ev.pin XLAT_PIN true 0, Ev.pin XLAT_PIN false 0, Ev.transferdone false,
          Ev.pin SCLK_PIN true 0, Ev.pin SCLK_PIN false 0, Ev.needpulse false,
          Ev.pin BLANK_PIN false 0, Ev.reg Reg.TCNT2 0, Ev.reg Reg.TCNT1 0,
          Ev.reg Reg.TCCR1B 11, Ev.reg Reg.TCCR2B 1] ∧
      clockSelect1 9 = 1 ∧ clockSelect2 0 = 0 := by
  obtain ⟨m, h, h1, h2, _, _, _, _, _, htd, hnp⟩ :=
    TLC5940.init_some 25 (TLC5940.zeroed 1 12) Machine.reset (by decide) (by decide) rfl
      (by decide)
  refine ⟨m, h, ?_, by decide, by decide⟩
  rw [isrEvents_unport, h1, h2, htd, hnp]
  decide

/-! ## In-range intensities -/

/-- For a resolution `r` in 1..12 the constructor sets `shiftbits = 12 - r`, and
an intensity below `2^r` shifted by it is `v * 2^(12-r)`, below 4096, with its
low `12 - r` bits zero. -/
theorem shifted_intensity (r v : Nat) (h1 : 1 ≤ r) (h12 : r ≤ 12) (hv : v < 2 ^ r) :
    (12 + 256 - r) % 256 = 12 - r ∧
    (v <<< ((12 + 256 - r) % 256)) % 65536 = v * 2 ^ (12 - r) ∧
    v * 2 ^ (12 - r) < 4096 ∧
    (v * 2 ^ (12 - r)) % 2 ^ (12 - r) = 0 := by
  have hs : (12 + 256 - r) % 256 = 12 - r := by omega
  have hlt : v * 2 ^ (12 - r) < 4096 := by
    have h4096 : (4096 : Nat) = 2 ^ r * 2 ^ (12 - r) := by
      rw [← pow_add]
      have : r + (12 - r) = 12 := by omega
      rw [this]
      decide
    rw [h4096]
    exact Nat.mul_lt_mul_of_pos_right hv (by positivity)
  refine ⟨hs, ?_, hlt, Nat.mul_mod_left _ _⟩
  rw [hs, Nat.shiftLeft_eq]
  exact Nat.mod_eq_of_lt (by omega)

/-! ## Loops whose bound exceeds the 8-bit counter -/

theorem TLC5940.dcLoop_none_of_wide (fuel : Nat) (t : TLC5940) (dcval i : Nat) (m : Machine)
    (hN : 256 ≤ t.numdrivers * 16) (hi : i < 256) : TLC5940.dcLoop fuel t dcval i m = none := by
  induction fuel generalizing i m with
  | zero => rfl
  | succ n ih =>
    have hlt : i < t.numdrivers * 16 := by omega
    simp only [TLC5940.dcLoop, hlt, if_true]
    exact ih _ _ (Nat.mod_lt _ (by decide))

theorem TLC5940.setGlobalDC_none_of_wide (fuel : Nat) (t : TLC5940) (dcval : Nat) (m : Machine)
    (hN : 256 ≤ t.numdrivers * 16) : TLC5940.setGlobalDC fuel t dcval m = none := by
  unfold TLC5940.setGlobalDC
  cases h : spinWait fuel m with
  | none => rfl
  | some m1 =>
    simp only [Option.bind_eq_bind, Option.some_bind]
    rw [TLC5940.dcLoop_none_of_wide fuel t dcval 0 _ hN (by decide)]
    rfl

/-- With at most fifteen chips `setGlobalDC` is observed to do this: one store
drives program mode high, `3 * 96 * N` port stores send the six bits of `dcval`
`16 * N` times (`96 * N` clock pulses), then latch high, latch low, program mode
low, and the store that sets `tlc5940_needpulse`; `tlc5940_transferdone` and
the other registers keep their values. -/
theorem TLC5940.setGlobalDC_observed (fuel : Nat) (t : TLC5940) (dcval : Nat) (m : Machine)
    (hN : t.numdrivers ≤ 15) (htd : m.tlc5940_transferdone = false)
    (hfuel : t.numdrivers * 16 < fuel) :
    ∃ m2 evs, TLC5940.setGlobalDC fuel t dcval m = some m2 ∧
      m2 = { m with PORTB := m2.PORTB, tlc5940_needpulse := true, trace := m2.trace } ∧
      (m2.trace.drop m.trace.length).map Ev.unport =
        [Ev.pin VPRG_PIN true 0] ++ evs.map Ev.unport ++
          [Ev.pin XLAT_PIN true 0, Ev.pin XLAT_PIN false 0, Ev.pin VPRG_PIN false 0,
            Ev.needpulse true] ∧
      evs.filterMap Ev.act =
        (List.replicate (16 * t.numdrivers) (sixBits dcval)).flatten.flatMap bitActs ∧
      sampled evs = (List.replicate (16 * t.numdrivers) (sixBits dcval)).flatten ∧
      evs.length = 3 * (96 * t.numdrivers) ∧
      risings SCLK_PIN evs = 96 * t.numdrivers ∧ risings XLAT_PIN evs = 0 := by
  have hl : (List.replicate (t.numdrivers * 16) (sixBits dcval)).flatten.length
      = 96 * t.numdrivers := by
    simp [sixBits]; omega
  have hc : 16 * t.numdrivers = t.numdrivers * 16 := Nat.mul_comm _ _
  rw [hc]
  refine ⟨_, bitsEvents (List.replicate (t.numdrivers * 16) (sixBits dcval)).flatten
      (m.PORTB ||| _BV VPRG_PIN),
    TLC5940.setGlobalDC_some fuel t dcval m hN htd hfuel, rfl, ?_, acts_bitsEvents _ _,
    sampled_bitsEvents _ _, ?_, ?_, (risings_bitsEvents _ _).2⟩
  · simp [Machine.setNeedpulse, Machine.sent, Machine.clrb, Machine.setb, Ev.unport]
  · rw [length_bitsEvents, hl]
  · rw [(risings_bitsEvents _ _).1, hl]

/-! ## How many loop passes the terminating cases take

One unit of fuel is one test of the loop condition; a loop that makes `n`
passes needs `n + 1` tests. -/

theorem TLC5940.clearLoop_none_of_short (fuel : Nat) (t : TLC5940) (i : Nat)
    (hfuel : fuel + i ≤ t.numdrivers * 24) : TLC5940.clearLoop fuel t i = none := by
  induction fuel generalizing t i with
  | zero => rfl
  | succ n ih =>
    have hlt : i < t.numdrivers * 24 := by omega
    simp only [TLC5940.clearLoop, hlt, if_true]
    apply ih
    have : (i + 1) % 256 ≤ i + 1 := Nat.mod_le _ _
    simp only
    omega

theorem TLC5940.displayLoop_none_of_short (fuel : Nat) (t : TLC5940) (i : Nat) (m : Machine)
    (hfuel : fuel + i ≤ t.numdrivers * 24) : TLC5940.displayLoop fuel t i m = none := by
  induction fuel generalizing i m with
  | zero => rfl
  | succ n ih =>
    have hlt : i < t.numdrivers * 24 := by omega
    simp only [TLC5940.displayLoop, hlt, if_true]
    apply ih
    have : (i + 1) % 256 ≤ i + 1 := Nat.mod_le _ _
    omega

theorem TLC5940.dcLoop_none_of_short (fuel : Nat) (t : TLC5940) (dcval i : Nat) (m : Machine)
    (hfuel : fuel + i ≤ t.numdrivers * 16) : TLC5940.dcLoop fuel t dcval i m = none := by
  induction fuel generalizing i m with
  | zero => rfl
  | succ n ih =>
    have hlt : i < t.numdrivers * 16 := by omega
    simp only [TLC5940.dcLoop, hlt, if_true]
    apply ih
    have : (i + 1) % 256 ≤ i + 1 := Nat.mod_le _ _
    omega

/-- Up to ten chips the loops of `clear` and `display` make exactly `24 * N`
passes, and up to fifteen chips the loop of `setGlobalDC` exactly `16 * N`:
`24 * N` (resp. `16 * N`) tests of the condition are not enough, one more is. -/
theorem TLC5940.loop_passes (t : TLC5940) (dcval : Nat) (m : Machine)
    (hlen : t.frame.length = t.numdrivers * 24) :
    (t.numdrivers ≤ 10 →
      TLC5940.clearLoop (t.numdrivers * 24) t 0 = none ∧
      (TLC5940.clearLoop (t.numdrivers * 24 + 1) t 0).isSome = true ∧
      TLC5940.displayLoop (t.numdrivers * 24) t 0 m = none ∧
      (TLC5940.displayLoop (t.numdrivers * 24 + 1) t 0 m).isSome = true) ∧
    (t.numdrivers ≤ 15 →
      TLC5940.dcLoop (t.numdrivers * 16) t dcval 0 m = none ∧
      (TLC5940.dcLoop (t.numdrivers * 16 + 1) t dcval 0 m).isSome = true) := by
  constructor
  · intro hN
    refine ⟨TLC5940.clearLoop_none_of_short _ t 0 (by omega), ?_,
      TLC5940.displayLoop_none_of_short _ t 0 m (by omega), ?_⟩
    · rw [TLC5940.clearLoop_some _ t 0 (by omega) hlen (Nat.zero_le _) (by omega)]; rfl
    · rw [TLC5940.displayLoop_some _ t 0 m (by omega) hlen (Nat.zero_le _) (by omega)]; rfl
  · intro hN
    refine ⟨TLC5940.dcLoop_none_of_short _ t dcval 0 m (by omega), ?_⟩
    rw [TLC5940.dcLoop_some _ t dcval 0 m (by omega) (Nat.zero_le _) (by omega)]; rfl

/-! ## Settled claim: bounded blocking -/

/-- C13 fails from eleven chips on.  The loop counters of `clear`, `display` and
`setGlobalDC` are `uint8_t` and wrap at 256, while the bounds `24 * N` and
`16 * N` reach 264 at `N = 11` and 256 at `N = 16`: for every `N = 11 + k`
neither `clear` nor the constructor nor `display` returns, and for every
`N = 16 + k` `setGlobalDC` does not return, whatever the fuel. -/
theorem loops_outrun_their_counters (k fuel shiftbits r dcval : Nat) (frame : List Nat)
    (heap : Nat → Nat) (m : Machine) :
    TLC5940.clear fuel ⟨shiftbits, 11 + k, frame⟩ = none ∧
    TLC5940.new fuel heap (11 + k) r = none ∧
    TLC5940.display fuel ⟨shiftbits, 11 + k, frame⟩ m = none ∧
    TLC5940.setGlobalDC fuel ⟨shiftbits, 16 + k, frame⟩ dcval m = none := by
  have h24 : 256 ≤ (11 + k) * 24 := by omega
  have h16 : 256 ≤ (16 + k) * 16 := by omega
  exact ⟨TLC5940.clearLoop_none_of_wide fuel _ 0 h24 (by decide),
    TLC5940.clearLoop_none_of_wide fuel _ 0 h24 (by decide),
    TLC5940.display_none_of_wide fuel _ m h24,
    TLC5940.setGlobalDC_none_of_wide fuel _ dcval m h16⟩

/-! ## The frame indices `setLED` and `getLED` use -/

/-- `setLED` stores to the frame at `bytenr lednr` and `bytenr lednr + 1` and
nowhere else, and chooses its branch by `startnibble lednr`. -/
theorem TLC5940.setLED_eq (t : TLC5940) (lednr intensity : Nat) :
    t.setLED lednr intensity =
      if !TLC5940.startnibble lednr then
        { t with
          frame := (t.frame.set (TLC5940.bytenr lednr)
              ((((intensity <<< t.shiftbits) % 65536) >>> 4) % 256)).set
            (TLC5940.bytenr lednr + 1)
            ((((t.frame.set (TLC5940.bytenr lednr)
                ((((intensity <<< t.shiftbits) % 65536) >>> 4) % 256)).getD
                  (TLC5940.bytenr lednr + 1) 0 &&& 0x0f) |||
              ((((intensity <<< t.shiftbits) % 65536) &&& 0x0f) <<< 4)) % 256) }
      else
        { t with
          frame := (t.frame.set (TLC5940.bytenr lednr)
              (((t.frame.getD (TLC5940.bytenr lednr) 0 &&& 0xf0) |||
                (((intensity <<< t.shiftbits) % 65536) >>> 8)) % 256)).set
            (TLC5940.bytenr lednr + 1) ((((intensity <<< t.shiftbits) % 65536) &&& 0xff) % 256) } :=
  rfl

/-- `getLED` loads from the frame at `bytenr lednr` and `bytenr lednr + 1` and
nowhere else, and chooses its branch by `startnibble lednr`. -/
theorem TLC5940.getLED_accesses (t : TLC5940) (lednr : Nat) :
    t.getLED lednr =
      if !TLC5940.startnibble lednr then
        ((t.frame.getD (TLC5940.bytenr lednr) 0 <<< 4) |||
          (t.frame.getD (TLC5940.bytenr lednr + 1) 0 >>> 4)) % 65536
      else
        (((t.frame.getD (TLC5940.bytenr lednr) 0 &&& 0xf0) <<< 4) |||
          t.frame.getD (TLC5940.bytenr lednr + 1) 0) % 65536 :=
  rfl

theorem TLC5940.bytenr_eq_div (c : Nat) :
    TLC5940.bytenr c = (c * 12 % 65536 / 8) % 256 := by
  unfold TLC5940.bytenr
  rw [Nat.shiftRight_eq_div_pow]

theorem TLC5940.clearLoop_shape (fuel : Nat) (t t2 : TLC5940) (i : Nat)
    (h : TLC5940.clearLoop fuel t i = some t2) :
    t2.frame.length = t.frame.length ∧ t2.numdrivers = t.numdrivers ∧
      t2.shiftbits = t.shiftbits := by
  induction fuel generalizing t i with
  | zero => simp [TLC5940.clearLoop] at h
  | succ n ih =>
    by_cases hlt : i < t.numdrivers * 24
    · simp only [TLC5940.clearLoop, hlt, if_true] at h
      obtain ⟨h1, h2, h3⟩ := ih _ _ h
      exact ⟨by rw [h1]; simp, h2, h3⟩
    · simp only [TLC5940.clearLoop, hlt, if_false, Option.some.injEq] at h
      subst h
      exact ⟨rfl, rfl, rfl⟩

/-! ## Settled claim: in-bounds access -/

/-- C17.  The constructor allocates exactly `24 * N` bytes, `clear` and `setLED`
keep that length, and for every channel `c < 16 * N` both frame indices that
`setLED` stores to and `getLED` loads from, `bytenr c` and `bytenr c + 1`
(`TLC5940.setLED_eq`, `TLC5940.getLED_accesses`), are below `24 * N`. -/
theorem frame_access_in_bounds (N c : Nat) (hc : c < 16 * N) :
    (∀ heap, (TLC5940.malloc heap (N * 24)).length = 24 * N) ∧
    (∀ fuel heap r t, TLC5940.new fuel heap N r = some t → t.frame.length = 24 * N) ∧
    (∀ t d v, (TLC5940.setLED t d v).frame.length = t.frame.length) ∧
    (∀ fuel t t2, TLC5940.clear fuel t = some t2 → t2.frame.length = t.frame.length) ∧
    TLC5940.bytenr c < 24 * N ∧ TLC5940.bytenr c + 1 < 24 * N := by
  refine ⟨fun heap => by rw [TLC5940.malloc_length]; omega, ?_,
    fun t d v => TLC5940.setLED_frame_length t d v,
    fun fuel t t2 h => (TLC5940.clearLoop_shape fuel t t2 0 h).1, ?_⟩
  · intro fuel heap r t h
    have := (TLC5940.clearLoop_shape fuel _ t 0 h).1
    rw [this]
    show (TLC5940.malloc heap (N * 24)).length = 24 * N
    rw [TLC5940.malloc_length]; omega
  · rw [TLC5940.bytenr_eq_div]
    by_cases hN : N ≤ 10
    · have h1 : c * 12 % 65536 = c * 12 := Nat.mod_eq_of_lt (by omega)
      have h2 : c * 12 / 8 % 256 = c * 12 / 8 := Nat.mod_eq_of_lt (by omega)
      rw [h1, h2]
      omega
    · have h3 : c * 12 % 65536 / 8 % 256 < 256 := Nat.mod_lt _ (by decide)
      omega

/-- C17, instance: the last channel of a single chip, channel 15, uses bytes 22
and 23 of the 24. -/
theorem frame_access_in_bounds_witness :
    15 < 16 * 1 ∧ TLC5940.bytenr 15 = 22 ∧ TLC5940.bytenr 15 < 24 * 1 ∧
      TLC5940.bytenr 15 + 1 < 24 * 1 :=
  ⟨by decide, by decide, (frame_access_in_bounds 1 15 (by decide)).2.2.2.2.1,
    (frame_access_in_bounds 1 15 (by decide)).2.2.2.2.2⟩

/-! ## The blank line in `init` and in the handler -/

theorem bitsEvents_drives_other (bs : List Bool) (p bit : Nat) (h1 : bit ≠ SIN_PIN)
    (h2 : bit ≠ SCLK_PIN) : (bitsEvents bs p).filter (Ev.drives bit) = [] := by
  induction bs generalizing p with
  | nil => rfl
  | cons b bs ih =>
    have e1 : (SIN_PIN == bit) = false := beq_eq_false_iff_ne.mpr (Ne.symm h1)
    have e2 : (SCLK_PIN == bit) = false := beq_eq_false_iff_ne.mpr (Ne.symm h2)
    rw [bitsEvents, List.filter_append, ih, List.append_nil]
    simp only [bitEvents, List.filter, Ev.drives, e1, e2]

theorem filter_drives_unport (bit : Nat) (l : List Ev) :
    (l.filter (Ev.drives bit)).map Ev.unport = (l.map Ev.unport).filter (Ev.drives bit) := by
  induction l with
  | nil => rfl
  | cons e l ih =>
    cases e with
    | pin b lv p =>
      by_cases hb : (b == bit) = true
      · simp [List.filter, Ev.drives, Ev.unport, hb, ih]
      · simp [List.filter, Ev.drives, Ev.unport, hb, ih]
    | reg r v => simpa [List.filter, Ev.drives, Ev.unport] using ih
    | needpulse b => simpa [List.filter, Ev.drives, Ev.unport] using ih
    | transferdone b => simpa [List.filter, Ev.drives, Ev.unport] using ih
    | irq b => simpa [List.filter, Ev.drives, Ev.unport] using ih

/-- The stores of the handler to the blank line, whatever the flags: high on
entry, low on exit. -/
theorem isrEvents_blank (m : Machine) :
    ((isrEvents m).filter (Ev.drives BLANK_PIN)).map Ev.unport =
      [Ev.pin BLANK_PIN true 0, Ev.pin BLANK_PIN false 0] := by
  rw [filter_drives_unport, isrEvents_unport]
  cases m.tlc5940_transferdone <;> cases m.tlc5940_needpulse <;> rfl

/-- With at most ten chips, the only store `init` makes to the blank line drives
it low. -/
theorem TLC5940.init_blank (fuel : Nat) (t : TLC5940) (m : Machine)
    (hN : t.numdrivers ≤ 10) (hlen : t.frame.length = t.numdrivers * 24)
    (htd : m.tlc5940_transferdone = false) (hfuel : t.numdrivers * 24 < fuel) :
    ∃ m2, TLC5940.init fuel t m = some m2 ∧
      (((m2.trace.drop m.trace.length).filter (Ev.drives BLANK_PIN)).map Ev.unport
        = [Ev.pin BLANK_PIN false 0]) := by
  unfold TLC5940.init
  simp only [Option.bind_eq_bind]
  rw [TLC5940.setGlobalDC_some fuel t 63 _ (by omega) (by exact htd) (by omega)]
  simp only [Option.some_bind]
  rw [TLC5940.display_some fuel t _ hN hlen (by exact htd) hfuel]
  refine ⟨_, rfl, ?_⟩
  simp only [Machine.setTransferdone, Machine.sent, Machine.clrb, Machine.setb, Machine.wr,
    Machine.setNeedpulse, Machine.cli, Machine.sei, List.append_assoc]
  rw [List.drop_left]
  simp only [List.filter_append, bitsEvents_drives_other _ _ BLANK_PIN (by decide) (by decide),
    List.append_nil, List.nil_append]
  rfl

/-! ## Settled claim: the blank line in `init` -/

/-- C15 fails: `init` drives the blank line low, the de-asserted level.  In the
run of `init` for one chip from reset the only store to the blank line is
`PORTB &= ~_BV(BLANK_PIN)` (commented "blank everything until ready"), while a
firing of the handler in the state `init` leaves drives the line high on entry
(its BLANKED step) and low on exit (back to ACTIVE): `init` uses the level of
the exit, not that of the entry. -/
theorem init_drives_blank_low :
    ∃ m, TLC5940.init 25 (TLC5940.zeroed 1 12) Machine.reset = some m ∧
      (m.trace.filter (Ev.drives BLANK_PIN)).map Ev.unport = [Ev.pin BLANK_PIN false 0] ∧
      ((isrEvents m).filter (Ev.drives BLANK_PIN)).map Ev.unport =
        [Ev.pin BLANK_PIN true 0, Ev.pin BLANK_PIN false 0] := by
  obtain ⟨m, h1, h2⟩ :=
    TLC5940.init_blank 25 (TLC5940.zeroed 1 12) Machine.reset (by decide) (by decide) rfl
      (by decide)
  exact ⟨m, h1, h2, isrEvents_blank m⟩

/-! ## Hand-over of the extra clock pulse -/

theorem act_unport (e : Ev) : e.unport.act = e.act := by
  cases e <;> rfl

/-- The port actions of one firing, by the flags on entry. -/
theorem isrEvents_acts (m : Machine) :
    (isrEvents m).filterMap Ev.act =
      [(BLANK_PIN, true)] ++
      (if m.tlc5940_transferdone then
        [(XLAT_PIN, true), (XLAT_PIN, false)] ++
          (if m.tlc5940_needpulse then [(SCLK_PIN, true), (SCLK_PIN, false)] else [])
       else []) ++
      [(BLANK_PIN, false)] := by
  have h : (isrEvents m).filterMap Ev.act = ((isrEvents m).map Ev.unport).filterMap Ev.act := by
    rw [List.filterMap_map]
    congr 1
    funext e
    exact (act_unport e).symm
  rw [h, isrEvents_unport]
  cases m.tlc5940_transferdone <;> cases m.tlc5940_needpulse <;> rfl

theorem TLC5940.init_none_of_wide (fuel : Nat) (t : TLC5940) (m : Machine)
    (hN : 256 ≤ t.numdrivers * 24) : TLC5940.init fuel t m = none := by
  unfold TLC5940.init
  simp only [Option.bind_eq_bind]
  cases TLC5940.setGlobalDC fuel t 63 _ with
  | none => rfl
  | some m1 =>
    simp only [Option.some_bind]
    exact TLC5940.display_none_of_wide fuel t _ hN

/-- With at most ten chips the hand-over works.  From a state with
`tlc5940_transferdone` clear, `setGlobalDC` and then `display` return; `display`
sends the bits of the frame, as it does without the `setGlobalDC` before
(`TLC5940.display_observed`); the next firing of the handler pulses the latch and
then once the serial clock and leaves both flags clear; a further `display`
returns, and the firing after it pulses the latch only. -/
theorem TLC5940.handoff (fuel : Nat) (t : TLC5940) (dcval : Nat) (m : Machine)
    (hN : t.numdrivers ≤ 10) (hlen : t.frame.length = t.numdrivers * 24)
    (htd : m.tlc5940_transferdone = false) (hfuel : t.numdrivers * 24 < fuel) :
    ∃ m1 m2 m4 port evs,
      TLC5940.setGlobalDC fuel t dcval m = some m1 ∧
      TLC5940.display fuel t m1 = some m2 ∧
      m2.trace = m1.trace ++ [Ev.pin VPRG_PIN false port] ++ evs ++ [Ev.transferdone true] ∧
      sampled evs = frameBits t.frame ∧ evs.length = 3 * (192 * t.numdrivers) ∧
      (isrEvents m2).filterMap Ev.act =
        [(BLANK_PIN, true), (XLAT_PIN, true), (XLAT_PIN, false), (SCLK_PIN, true),
          (SCLK_PIN, false), (BLANK_PIN, false)] ∧
      (TIMER1_OVF_vect m2).tlc5940_transferdone = false ∧
      (TIMER1_OVF_vect m2).tlc5940_needpulse = false ∧
      TLC5940.display fuel t (TIMER1_OVF_vect m2) = some m4 ∧
      (isrEvents m4).filterMap Ev.act =
        [(BLANK_PIN, true), (XLAT_PIN, true), (XLAT_PIN, false), (BLANK_PIN, false)] ∧
      (TIMER1_OVF_vect m4).tlc5940_transferdone = false ∧
      (TIMER1_OVF_vect m4).tlc5940_needpulse = false := by
  obtain ⟨m1, _, h1, e1, _⟩ := TLC5940.setGlobalDC_observed fuel t dcval m (by omega) htd (by omega)
  have h1td : m1.tlc5940_transferdone = false :=
    (congrArg Machine.tlc5940_transferdone e1).trans htd
  have h1np : m1.tlc5940_needpulse = true := congrArg Machine.tlc5940_needpulse e1
  obtain ⟨m2, port, evs, h2, e2, h2tr, _, h2len, h2s, _⟩ :=
    TLC5940.display_observed fuel t m1 hN hlen h1td hfuel
  have h2td : m2.tlc5940_transferdone = true := congrArg Machine.tlc5940_transferdone e2
  have h2np : m2.tlc5940_needpulse = true :=
    (congrArg Machine.tlc5940_needpulse e2).trans h1np
  have h3td : (TIMER1_OVF_vect m2).tlc5940_transferdone = false := isr_transferdone m2
  have h3np : (TIMER1_OVF_vect m2).tlc5940_needpulse = false := by
    rw [isr_needpulse, h2td, h2np]; rfl
  obtain ⟨m4, _, _, h4, e4, _⟩ :=
    TLC5940.display_observed fuel t (TIMER1_OVF_vect m2) hN hlen h3td hfuel
  have h4td : m4.tlc5940_transferdone = true := congrArg Machine.tlc5940_transferdone e4
  have h4np : m4.tlc5940_needpulse = false :=
    (congrArg Machine.tlc5940_needpulse e4).trans h3np
  refine ⟨m1, m2, m4, port, evs, h1, h2, h2tr, h2s, h2len, ?_, h3td, h3np, h4, ?_,
    isr_transferdone m4, ?_⟩
  · rw [isrEvents_acts, h2td, h2np]; rfl
  · rw [isrEvents_acts, h4td, h4np]; rfl
  · rw [isr_needpulse, h4td, h4np]; rfl

/-- The state `init` leaves hands the extra pulse over in the same way (at most
ten chips): the first firing pulses the latch and then once the serial clock,
the firing after the next `display` pulses the latch only. -/
theorem TLC5940.handoff_after_init (fuel : Nat) (t : TLC5940) (m : Machine)
    (hN : t.numdrivers ≤ 10) (hlen : t.frame.length = t.numdrivers * 24)
    (htd : m.tlc5940_transferdone = false) (hfuel : t.numdrivers * 24 < fuel) :
    ∃ m2 m4,
      TLC5940.init fuel t m = some m2 ∧
      m2.tlc5940_transferdone = true ∧ m2.tlc5940_needpulse = true ∧
      (isrEvents m2).filterMap Ev.act =
        [(BLANK_PIN, true), (XLAT_PIN, true), (XLAT_PIN, false), (SCLK_PIN, true),
          (SCLK_PIN, false), (BLANK_PIN, false)] ∧
      (TIMER1_OVF_vect m2).tlc5940_transferdone = false ∧
      (TIMER1_OVF_vect m2).tlc5940_needpulse = false ∧
      TLC5940.display fuel t (TIMER1_OVF_vect m2) = some m4 ∧
      (isrEvents m4).filterMap Ev.act =
        [(BLANK_PIN, true), (XLAT_PIN, true), (XLAT_PIN, false), (BLANK_PIN, false)] ∧
      (TIMER1_OVF_vect m4).tlc5940_transferdone = false ∧
      (TIMER1_OVF_vect m4).tlc5940_needpulse = false := by
  obtain ⟨m2, h2, _, _, _, _, _, _, _, h2td, h2np⟩ := TLC5940.init_some fuel t m hN hlen htd hfuel
  have h3td : (TIMER1_OVF_vect m2).tlc5940_transferdone = false := isr_transferdone m2
  have h3np : (TIMER1_OVF_vect m2).tlc5940_needpulse = false := by
    rw [isr_needpulse, h2td, h2np]; rfl
  obtain ⟨m4, _, _, h4, e4, _⟩ :=
    TLC5940.display_observed fuel t (TIMER1_OVF_vect m2) hN hlen h3td hfuel
  have h4td : m4.tlc5940_transferdone = true := congrArg Machine.tlc5940_transferdone e4
  have h4np : m4.tlc5940_needpulse = false :=
    (congrArg Machine.tlc5940_needpulse e4).trans h3np
  refine ⟨m2, m4, h2, h2td, h2np, ?_, h3td, h3np, h4, ?_, isr_transferdone m4, ?_⟩
  · rw [isrEvents_acts, h2td, h2np]; rfl
  · rw [isrEvents_acts, h4td, h4np]; rfl
  · rw [isr_needpulse, h4td, h4np]; rfl

/-! ## The frame bit by bit -/

theorem twelve_c_mod (c : Nat) : 12 * c % 8 = 0 ∨ 12 * c % 8 = 4 := by omega

/-- If the field `f` is stored in the slot of channel `c`, then bit `j` of the
slot, counted from its first (most significant) bit, is bit `11 - j` of `f`. -/
theorem frameBit_of_fieldStored (frame : List Nat) (c f j : Nat)
    (h : fieldStored frame c f) (hj : j < 12) :
    frameBit frame (12 * c + j) = f.testBit (11 - j) := by
  unfold fieldStored at h
  unfold frameBit
  rcases twelve_c_mod c with h0 | h4
  · simp only [h0, if_true] at h
    by_cases hj8 : j < 8
    · have e1 : (12 * c + j) / 8 = 12 * c / 8 := by omega
      have e2 : (12 * c + j) % 8 = j := by omega
      have e3 : 4 + (7 - j) = 11 - j := by omega
      rw [e1, e2, h.1, Nat.testBit_shiftRight, e3]
    · have e1 : (12 * c + j) / 8 = 12 * c / 8 + 1 := by omega
      have e2 : 7 - (12 * c + j) % 8 = 4 + (11 - j) := by omega
      have e4 : 11 - j < 4 := by omega
      rw [e1, e2, ← Nat.testBit_shiftRight, h.2, Nat.testBit_land, testBit_15]
      simp [e4]
  · have hne : ¬ 12 * c % 8 = 0 := by omega
    simp only [hne, if_false] at h
    by_cases hj4 : j < 4
    · have e1 : (12 * c + j) / 8 = 12 * c / 8 := by omega
      have e2 : 7 - (12 * c + j) % 8 = 3 - j := by omega
      have e3 : 8 + (3 - j) = 11 - j := by omega
      have e4 : 3 - j < 4 := by omega
      have hb : (frame.getD (12 * c / 8) 0 &&& 0xF).testBit (3 - j)
          = (frame.getD (12 * c / 8) 0).testBit (3 - j) := by
        rw [Nat.testBit_land, testBit_15]; simp [e4]
      rw [e1, e2, ← hb, h.1, Nat.testBit_shiftRight, e3]
    · have e1 : (12 * c + j) / 8 = 12 * c / 8 + 1 := by omega
      have e2 : 7 - (12 * c + j) % 8 = 11 - j := by omega
      have e4 : 11 - j < 8 := by omega
      rw [e1, e2, h.2, Nat.testBit_land, testBit_255]
      simp [e4]

theorem testBit_of_and_15_eq (x y i : Nat) (h : x &&& 0xF = y &&& 0xF) (hi : i < 4) :
    x.testBit i = y.testBit i := by
  have hx : (x &&& 0xF).testBit i = x.testBit i := by
    rw [Nat.testBit_land, testBit_15]; simp [hi]
  have hy : (y &&& 0xF).testBit i = y.testBit i := by
    rw [Nat.testBit_land, testBit_15]; simp [hi]
  rw [← hx, ← hy, h]

theorem testBit_of_and_240_eq (x y i : Nat) (h : x &&& 0xf0 = y &&& 0xf0) (h4 : 4 ≤ i)
    (h8 : i < 8) : x.testBit i = y.testBit i := by
  have hx : (x &&& 0xf0).testBit i = x.testBit i := by
    rw [Nat.testBit_land, testBit_240]; simp [h4, h8]
  have hy : (y &&& 0xf0).testBit i = y.testBit i := by
    rw [Nat.testBit_land, testBit_240]; simp [h4, h8]
  rw [← hx, ← hy, h]

/-- `setLED` for a channel up to 170 with a shifted intensity below 4096 leaves
every frame bit outside the twelve bits of that channel as it was. -/
theorem TLC5940.frameBit_setLED_outside (t : TLC5940) (c v k : Nat) (hc : c ≤ 170)
    (hlen : 12 * c / 8 + 1 < t.frame.length) (hf : (v <<< t.shiftbits) % 65536 < 4096)
    (hk : k < 12 * c ∨ 12 * c + 12 ≤ k) :
    frameBit (t.setLED c v).frame k = frameBit t.frame k := by
  obtain ⟨h1, h2, h3⟩ := TLC5940.setLED_frame_elsewhere t c v hc hlen hf
  unfold frameBit
  by_cases hb : k / 8 = 12 * c / 8
  · rcases twelve_c_mod c with h0 | h4
    · omega
    · have hne : ¬ 12 * c % 8 = 0 := by omega
      rw [hb]
      exact testBit_of_and_240_eq _ _ _ (h3 hne) (by omega) (by omega)
  · by_cases hb1 : k / 8 = 12 * c / 8 + 1
    · rcases twelve_c_mod c with h0 | h4
      · rw [hb1]
        exact testBit_of_and_15_eq _ _ _ (h2 h0) (by omega)
      · omega
    · rw [h1 _ hb hb1]

/-! ## Buffers reachable from construction -/

/-- Whenever `clear` returns, the driver has at most ten chips and the frame is
all zero. -/
theorem TLC5940.clear_eq_some (fuel : Nat) (t t2 : TLC5940)
    (hlen : t.frame.length = t.numdrivers * 24) (h : TLC5940.clear fuel t = some t2) :
    t.numdrivers ≤ 10 ∧ t2 = { t with frame := List.replicate (t.numdrivers * 24) 0 } := by
  have hN : t.numdrivers ≤ 10 := by
    by_contra hcon
    have := TLC5940.clearLoop_none_of_wide fuel t 0 (by omega) (by decide)
    unfold TLC5940.clear at h
    rw [this] at h
    cases h
  refine ⟨hN, ?_⟩
  by_cases hfuel : t.numdrivers * 24 < fuel
  · rw [TLC5940.clear_some fuel t hN hlen hfuel] at h
    exact (Option.some.inj h).symm
  · have := TLC5940.clearLoop_none_of_short fuel t 0 (by omega)
    unfold TLC5940.clear at h
    rw [this] at h
    cases h

theorem TLC5940.new_eq_some (fuel : Nat) (heap : Nat → Nat) (N r : Nat) (t : TLC5940)
    (h : TLC5940.new fuel heap N r = some t) : N ≤ 10 ∧ t = TLC5940.zeroed N r := by
  unfold TLC5940.new at h
  obtain ⟨h1, h2⟩ := TLC5940.clear_eq_some fuel _ t (TLC5940.malloc_length heap (N * 24)) h
  exact ⟨h1, h2⟩

theorem frameBit_replicate_zero (n k : Nat) : frameBit (List.replicate n 0) k = false := by
  unfold frameBit
  rw [TLC5940.getD_replicate_zero]
  exact Nat.zero_testBit _

/-- What holds of every driver object built with `N` chips and a resolution `r`
in 1..12: the members are as the constructor set them, at most ten chips, and in
every channel the bits `r..11` of the slot (the low `12 - r` bits of the field)
are zero. -/
theorem Built.invariant (N r : Nat) (hr1 : 1 ≤ r) (hr12 : r ≤ 12) (t : TLC5940)
    (hb : Built N r t) :
    t.numdrivers = N ∧ t.shiftbits = 12 - r ∧ t.frame.length = N * 24 ∧ N ≤ 10 ∧
    ∀ c j, c < 16 * N → r ≤ j → j < 12 → frameBit t.frame (12 * c + j) = false := by
  induction hb with
  | construct fuel heap t h =>
    obtain ⟨hN, rfl⟩ := TLC5940.new_eq_some fuel heap N r t h
    refine ⟨rfl, ?_, by simp [TLC5940.zeroed], hN, ?_⟩
    · show (12 + 256 - r) % 256 = 12 - r
      omega
    · intro c j _ _ _
      exact frameBit_replicate_zero _ _
  | clear fuel t t2 _ h ih =>
    obtain ⟨h1, h2, h3, h4, _⟩ := ih
    obtain ⟨_, rfl⟩ := TLC5940.clear_eq_some fuel t t2 (by rw [h3, h1]) h
    refine ⟨h1, h2, by simp [h1], h4, ?_⟩
    intro c j _ _ _
    exact frameBit_replicate_zero _ _
  | setLED t c v _ hc hv ih =>
    obtain ⟨h1, h2, h3, h4, h5⟩ := ih
    obtain ⟨_, e2, e3, _⟩ := shifted_intensity r v hr1 hr12 hv
    have hsh : (v <<< t.shiftbits) % 65536 = v * 2 ^ (12 - r) := by
      have hs : (12 + 256 - r) % 256 = 12 - r := by omega
      rw [hs] at e2
      rw [h2]; exact e2
    have hc170 : c ≤ 170 := by omega
    have hlen : 12 * c / 8 + 1 < t.frame.length := by rw [h3]; omega
    have hf : (v <<< t.shiftbits) % 65536 < 4096 := by rw [hsh]; exact e3
    refine ⟨by rw [TLC5940.setLED_numdrivers, h1], by rw [TLC5940.setLED_shiftbits, h2],
      by rw [TLC5940.setLED_frame_length, h3], h4, ?_⟩
    intro d j hd hj1 hj2
    by_cases hdc : d = c
    · subst hdc
      rw [frameBit_of_fieldStored _ d _ j (TLC5940.setLED_fieldStored t d v hc170 hlen hf) hj2,
        hsh, ← Nat.shiftLeft_eq, Nat.testBit_shiftLeft]
      have : ¬ 11 - j ≥ 12 - r := by omega
      simp [this]
    · rw [TLC5940.frameBit_setLED_outside t c v _ hc170 hlen hf (by omega)]
      exact h5 d j hd hj1 hj2

/-! ## Settled claim: resolution invariant -/

/-- C14.  For a resolution `r` in 1..12 and any number of chips `N`: in every
driver object obtained from the constructor by `clear()` calls and `setLED(c, v)`
calls with `c < 16 * N` and `v < 2^r`, every channel `c < 16 * N` has the bits
`r..11` of its twelve-bit slot (slot bit 0 is the most significant, at frame bit
`12 * c`), that is the low `12 - r` bits of the field, equal to zero. -/
theorem resolution_invariant (N r : Nat) (hr1 : 1 ≤ r) (hr12 : r ≤ 12) (t : TLC5940)
    (hb : Built N r t) (c j : Nat) (hc : c < 16 * N) (hj1 : r ≤ j) (hj2 : j < 12) :
    frameBit t.frame (12 * c + j) = false :=
  (Built.invariant N r hr1 hr12 t hb).2.2.2.2 c j hc hj1 hj2

/-- C14, instance: one chip at 8-bit resolution; after construction and
`setLED(3, 200)` slot bit 9 of channel 3 is zero (and slot bit 0 is set, the
top bit of 200). -/
theorem resolution_invariant_witness :
    Built 1 8 ((TLC5940.zeroed 1 8).setLED 3 200) ∧ 3 < 16 * 1 ∧ 8 ≤ 9 ∧ 9 < 12 ∧
      frameBit ((TLC5940.zeroed 1 8).setLED 3 200).frame (12 * 3 + 9) = false ∧
      frameBit ((TLC5940.zeroed 1 8).setLED 3 200).frame (12 * 3 + 0) = true := by
  have hb : Built 1 8 ((TLC5940.zeroed 1 8).setLED 3 200) :=
    Built.setLED _ 3 200
      (Built.construct 25 (fun _ => 0) _ (TLC5940.new_some 25 _ 1 8 (by decide) (by decide)))
      (by decide) (by decide)
  exact ⟨hb, by decide, by decide, by decide,
    resolution_invariant 1 8 (by decide) (by decide) _ hb 3 9 (by decide) (by decide) (by decide),
    by decide⟩

/-! ## `setLED` with any 16-bit intensity -/

theorem any_even_first_byte (f : Nat) : (f >>> 4) % 256 = (f % 4096) >>> 4 := by
  have h256 : (256 : Nat) = 2 ^ 8 := by decide
  have h4096 : (4096 : Nat) = 2 ^ 12 := by decide
  apply Nat.eq_of_testBit_eq
  intro i
  simp only [h256, h4096, Nat.testBit_shiftRight, Nat.testBit_mod_two_pow]
  by_cases h : i < 8
  · have : 4 + i < 12 := by omega
    simp [h, this]
  · have : ¬ 4 + i < 12 := by omega
    simp [h, this]

theorem any_low_nibble (f : Nat) : f &&& 0xF = (f % 4096) &&& 0xF := by
  have h4096 : (4096 : Nat) = 2 ^ 12 := by decide
  apply Nat.eq_of_testBit_eq
  intro i
  simp only [h4096, Nat.testBit_land, testBit_15, Nat.testBit_mod_two_pow]
  by_cases h : i < 4
  · have : i < 12 := by omega
    simp [h, this]
  · simp [h]

theorem any_low_byte (f : Nat) : (f &&& 0xff) % 256 = (f % 4096) &&& 0xFF := by
  have h4096 : (4096 : Nat) = 2 ^ 12 := by decide
  rw [low_byte_fits]
  apply Nat.eq_of_testBit_eq
  intro i
  simp only [h4096, Nat.testBit_land, testBit_255, Nat.testBit_mod_two_pow]
  by_cases h : i < 8
  · have : i < 12 := by omega
    simp [h, this]
  · simp [h]

theorem any_odd_first_byte (old f : Nat) :
    (((old &&& 0xf0) ||| (f >>> 8)) % 256) &&& 0xF = (f % 4096) >>> 8 ∧
    (((old &&& 0xf0) ||| (f >>> 8)) % 256) &&& 0xf0
      = (old &&& 0xf0) ||| ((f >>> 8) &&& 0xf0) := by
  have h256 : (256 : Nat) = 2 ^ 8 := by decide
  have h4096 : (4096 : Nat) = 2 ^ 12 := by decide
  constructor
  · apply Nat.eq_of_testBit_eq
    intro i
    simp only [h256, h4096, Nat.testBit_lor, Nat.testBit_shiftRight, Nat.testBit_land,
      testBit_15, testBit_240, Nat.testBit_mod_two_pow]
    by_cases h : i < 4
    · have h1 : i < 8 := by omega
      have h2 : ¬ 4 ≤ i := by omega
      have h3 : 8 + i < 12 := by omega
      simp [h, h1, h2, h3]
    · have h3 : ¬ 8 + i < 12 := by omega
      simp [h, h3]
  · apply Nat.eq_of_testBit_eq
    intro i
    simp only [h256, Nat.testBit_lor, Nat.testBit_shiftRight, Nat.testBit_land,
      testBit_240, Nat.testBit_mod_two_pow]
    by_cases h4 : 4 ≤ i <;> by_cases h8 : i < 8 <;> simp [h4, h8]

/-- `setLED(c, v)` for a channel up to 170 and any intensity, with
`f = (v << shiftbits) mod 2^16`: the slot of channel `c` receives the low twelve
bits of `f`; no byte other than the two of the channel changes; for an even
channel the other nibble of the shared byte is kept; for an odd channel bits
12..15 of `f` are or-ed into the other nibble of the shared byte. -/
theorem TLC5940.setLED_any_intensity (t : TLC5940) (c v : Nat) (hc : c ≤ 170)
    (hlen : 12 * c / 8 + 1 < t.frame.length) :
    fieldStored (t.setLED c v).frame c (((v <<< t.shiftbits) % 65536) % 4096) ∧
    (∀ k, k ≠ 12 * c / 8 → k ≠ 12 * c / 8 + 1 →
      (t.setLED c v).frame.getD k 0 = t.frame.getD k 0) ∧
    (12 * c % 8 = 0 →
      (t.setLED c v).frame.getD (12 * c / 8 + 1) 0 &&& 0xF
        = t.frame.getD (12 * c / 8 + 1) 0 &&& 0xF) ∧
    (¬ 12 * c % 8 = 0 →
      (t.setLED c v).frame.getD (12 * c / 8) 0 &&& 0xf0
        = (t.frame.getD (12 * c / 8) 0 &&& 0xf0) |||
          ((((v <<< t.shiftbits) % 65536) >>> 8) &&& 0xf0)) := by
  rw [TLC5940.setLED_frame t c v hc]
  refine ⟨?_, ?_, ?_, ?_⟩
  · unfold fieldStored
    by_cases h : 12 * c % 8 = 0
    · simp only [h, if_true]
      rw [getD_set_other _ _ _ _ (by omega), getD_set_self _ _ _ (by omega),
        getD_set_self _ _ _ (by rw [List.length_set]; exact hlen)]
      exact ⟨any_even_first_byte _, by rw [(even_second_byte _ _).1]; exact any_low_nibble _⟩
    · simp only [h, if_false]
      rw [getD_set_other _ _ _ _ (by omega), getD_set_self _ _ _ (by omega),
        getD_set_self _ _ _ (by rw [List.length_set]; exact hlen)]
      exact ⟨(any_odd_first_byte _ _).1, any_low_byte _⟩
  · intro k h1 h2
    split <;> rw [getD_set_other _ _ _ _ (Ne.symm h2), getD_set_other _ _ _ _ (Ne.symm h1)]
  · intro h
    simp only [h, if_true]
    rw [getD_set_self _ _ _ (by rw [List.length_set]; exact hlen)]
    exact (even_second_byte _ _).2
  · intro h
    simp only [h, if_false]
    rw [getD_set_other _ _ _ _ (by omega), getD_set_self _ _ _ (by omega)]
    exact (any_odd_first_byte _ _).2

/-! ## Settled claim: out-of-range intensities -/

/-- C19 as stated fails for odd channels: one chip, 12-bit resolution, zeroed
frame, `setLED(1, 0xF000)`.  Frame bit 8 lies outside bits 12..23, the slot of
channel 1, and changes from 0 to 1; channel 0, never written, reads 15
afterwards.  The odd branch or-s `intensity >> 8` into the first byte without
masking it to four bits. -/
theorem oversized_intensity_spills_from_odd_channel :
    1 < 16 * 1 ∧ 0xF000 < 65536 ∧ ¬ (12 * 1 ≤ 8 ∧ 8 < 12 * 1 + 12) ∧
    frameBit (TLC5940.zeroed 1 12).frame 8 = false ∧
    frameBit ((TLC5940.zeroed 1 12).setLED 1 0xF000).frame 8 = true ∧
    (TLC5940.zeroed 1 12).getLED 0 = 0 ∧
    ((TLC5940.zeroed 1 12).setLED 1 0xF000).getLED 0 = 15 := by
  decide

/-- C19 as amended.  For every channel `c` up to 170 whose two bytes lie in the
frame and every intensity, with `f = (v << shiftbits) mod 2^16`: `setLED(c, v)`
stores the low twelve bits of `f` in the slot of channel `c` and changes no byte
other than the two of that channel; for an even channel the neighbour's nibble
of the shared byte is unchanged; for an odd channel the neighbour's nibble is
or-ed with bits 12..15 of `f`, hence unchanged when `f < 4096`. -/
theorem oversized_intensity_effect (t : TLC5940) (c v : Nat) (hc : c ≤ 170)
    (hlen : 12 * c / 8 + 1 < t.frame.length) :
    fieldStored (t.setLED c v).frame c (((v <<< t.shiftbits) % 65536) % 4096) ∧
    (∀ k, k ≠ 12 * c / 8 → k ≠ 12 * c / 8 + 1 →
      (t.setLED c v).frame.getD k 0 = t.frame.getD k 0) ∧
    (12 * c % 8 = 0 →
      (t.setLED c v).frame.getD (12 * c / 8 + 1) 0 &&& 0xF
        = t.frame.getD (12 * c / 8 + 1) 0 &&& 0xF) ∧
    (¬ 12 * c % 8 = 0 →
      (t.setLED c v).frame.getD (12 * c / 8) 0 &&& 0xf0
        = (t.frame.getD (12 * c / 8) 0 &&& 0xf0) |||
          ((((v <<< t.shiftbits) % 65536) >>> 8) &&& 0xf0)) ∧
    (¬ 12 * c % 8 = 0 → (v <<< t.shiftbits) % 65536 < 4096 →
      (t.setLED c v).frame.getD (12 * c / 8) 0 &&& 0xf0
        = t.frame.getD (12 * c / 8) 0 &&& 0xf0) := by
  obtain ⟨h1, h2, h3, h4⟩ := TLC5940.setLED_any_intensity t c v hc hlen
  exact ⟨h1, h2, h3, h4,
    fun hodd hf => (TLC5940.setLED_frame_elsewhere t c v hc hlen hf).2.2 hodd⟩

/-- C19 as amended, instance: one chip, zeroed frame with channels 0 and 2 at
4095, then `setLED(2, 0xFFFF)` (even channel) and `setLED(1, 0xFABC)` (odd
channel). -/
theorem oversized_intensity_effect_witness :
    2 ≤ 170 ∧ 12 * 2 / 8 + 1 < (((TLC5940.zeroed 1 12).setLED 0 4095).setLED 2 4095).frame.length ∧
    fieldStored ((((TLC5940.zeroed 1 12).setLED 0 4095).setLED 2 4095).setLED 2 0xFFFF).frame 2
      ((0xFFFF <<< 0) % 65536 % 4096) ∧
    (((TLC5940.zeroed 1 12).setLED 0 4095).setLED 2 4095).frame.take 6
      = [0xFF, 0xF0, 0x00, 0xFF, 0xF0, 0x00] ∧
    ((((TLC5940.zeroed 1 12).setLED 0 4095).setLED 2 4095).setLED 2 0xFFFF).frame.take 6
      = [0xFF, 0xF0, 0x00, 0xFF, 0xF0, 0x00] ∧
    ((((TLC5940.zeroed 1 12).setLED 0 4095).setLED 2 4095).setLED 1 0xFABC).frame.take 6
      = [0xFF, 0xFA, 0xBC, 0xFF, 0xF0, 0x00] :=
  ⟨by decide, by decide,
    (oversized_intensity_effect (((TLC5940.zeroed 1 12).setLED 0 4095).setLED 2 4095) 2 0xFFFF
      (by decide) (by decide)).1,
    by decide, by decide, by decide⟩

/-! ## Order of writes -/

/-- Two frames of bytes with the same length and the same bits are equal. -/
theorem frame_ext (a b : List Nat) (hlen : a.length = b.length) (ha : ∀ x ∈ a, x < 256)
    (hb : ∀ x ∈ b, x < 256) (h : ∀ k, frameBit a k = frameBit b k) : a = b := by
  apply List.ext_getElem hlen
  intro i h1 h2
  apply Nat.eq_of_testBit_eq
  intro j
  by_cases hj : j < 8
  · have hk := h (8 * i + (7 - j))
    unfold frameBit at hk
    have e1 : (8 * i + (7 - j)) / 8 = i := by omega
    have e2 : 7 - (8 * i + (7 - j)) % 8 = j := by omega
    rw [e1, e2, List.getD_eq_getElem?_getD, List.getD_eq_getElem?_getD,
      List.getElem?_eq_getElem h1, List.getElem?_eq_getElem h2] at hk
    exact hk
  · have hp : 256 ≤ 2 ^ j := by
      have : (256 : Nat) = 2 ^ 8 := by decide
      rw [this]; exact Nat.pow_le_pow_right (by decide) (by omega)
    rw [Nat.testBit_eq_false_of_lt (lt_of_lt_of_le (ha _ (List.getElem_mem _)) hp),
      Nat.testBit_eq_false_of_lt (lt_of_lt_of_le (hb _ (List.getElem_mem _)) hp)]

theorem mem_set_lt (l : List Nat) (i a : Nat) (ha : a < 256) (hl : ∀ x ∈ l, x < 256) :
    ∀ x ∈ l.set i a, x < 256 := by
  intro x hx
  rcases List.mem_or_eq_of_mem_set hx with h | h
  · exact hl x h
  · rw [h]; exact ha

/-- `setLED` stores bytes: a frame of bytes stays a frame of bytes. -/
theorem TLC5940.setLED_bytes (t : TLC5940) (c v : Nat) (h : ∀ x ∈ t.frame, x < 256) :
    ∀ x ∈ (t.setLED c v).frame, x < 256 := by
  rw [TLC5940.setLED_eq]
  split
  · exact mem_set_lt _ _ _ (Nat.mod_lt _ (by decide))
      (mem_set_lt _ _ _ (Nat.mod_lt _ (by decide)) h)
  · exact mem_set_lt _ _ _ (Nat.mod_lt _ (by decide))
      (mem_set_lt _ _ _ (Nat.mod_lt _ (by decide)) h)

/-- Writes to two distinct channels up to 170, with shifted intensities below
4096, give the same frame in either order. -/
theorem TLC5940.setLED_comm (t : TLC5940) (c d v w : Nat) (hc : c ≤ 170) (hd : d ≤ 170)
    (hne : c ≠ d) (hlc : 12 * c / 8 + 1 < t.frame.length)
    (hld : 12 * d / 8 + 1 < t.frame.length) (hv : (v <<< t.shiftbits) % 65536 < 4096)
    (hw : (w <<< t.shiftbits) % 65536 < 4096) (hb : ∀ x ∈ t.frame, x < 256) :
    ((t.setLED c v).setLED d w).frame = ((t.setLED d w).setLED c v).frame := by
  have hlc2 : 12 * c / 8 + 1 < (t.setLED d w).frame.length := by
    rw [TLC5940.setLED_frame_length]; exact hlc
  have hld1 : 12 * d / 8 + 1 < (t.setLED c v).frame.length := by
    rw [TLC5940.setLED_frame_length]; exact hld
  have hv2 : (v <<< (t.setLED d w).shiftbits) % 65536 < 4096 := by
    rw [TLC5940.setLED_shiftbits]; exact hv
  have hw1 : (w <<< (t.setLED c v).shiftbits) % 65536 < 4096 := by
    rw [TLC5940.setLED_shiftbits]; exact hw
  apply frame_ext
  · simp only [TLC5940.setLED_frame_length]
  · exact TLC5940.setLED_bytes _ _ _ (TLC5940.setLED_bytes _ _ _ hb)
  · exact TLC5940.setLED_bytes _ _ _ (TLC5940.setLED_bytes _ _ _ hb)
  · intro k
    by_cases hkc : 12 * c ≤ k ∧ k < 12 * c + 12
    · obtain ⟨j, rfl⟩ : ∃ j, k = 12 * c + j := ⟨k - 12 * c, by omega⟩
      have hj : j < 12 := by omega
      rw [TLC5940.frameBit_setLED_outside _ d w _ hd hld1 hw1 (by omega),
        frameBit_of_fieldStored _ c _ j (TLC5940.setLED_fieldStored t c v hc hlc hv) hj,
        frameBit_of_fieldStored _ c _ j (TLC5940.setLED_fieldStored _ c v hc hlc2 hv2) hj,
        TLC5940.setLED_shiftbits]
    · by_cases hkd : 12 * d ≤ k ∧ k < 12 * d + 12
      · obtain ⟨j, rfl⟩ : ∃ j, k = 12 * d + j := ⟨k - 12 * d, by omega⟩
        have hj : j < 12 := by omega
        rw [TLC5940.frameBit_setLED_outside _ c v _ hc hlc2 hv2 (by omega),
          frameBit_of_fieldStored _ d _ j (TLC5940.setLED_fieldStored t d w hd hld hw) hj,
          frameBit_of_fieldStored _ d _ j (TLC5940.setLED_fieldStored _ d w hd hld1 hw1) hj,
          TLC5940.setLED_shiftbits]
      · rw [TLC5940.frameBit_setLED_outside _ d w _ hd hld1 hw1 (by omega),
          TLC5940.frameBit_setLED_outside _ c v _ hc hlc hv (by omega),
          TLC5940.frameBit_setLED_outside _ c v _ hc hlc2 hv2 (by omega),
          TLC5940.frameBit_setLED_outside _ d w _ hd hld hw (by omega)]

/-- For a channel up to 170 and shifted intensities below 4096 the last write
wins. -/
theorem TLC5940.setLED_overwrite (t : TLC5940) (c v1 v2 : Nat) (hc : c ≤ 170)
    (hlc : 12 * c / 8 + 1 < t.frame.length) (hv1 : (v1 <<< t.shiftbits) % 65536 < 4096)
    (hv2 : (v2 <<< t.shiftbits) % 65536 < 4096) (hb : ∀ x ∈ t.frame, x < 256) :
    ((t.setLED c v1).setLED c v2).frame = (t.setLED c v2).frame := by
  have hlc1 : 12 * c / 8 + 1 < (t.setLED c v1).frame.length := by
    rw [TLC5940.setLED_frame_length]; exact hlc
  have hv21 : (v2 <<< (t.setLED c v1).shiftbits) % 65536 < 4096 := by
    rw [TLC5940.setLED_shiftbits]; exact hv2
  apply frame_ext
  · simp only [TLC5940.setLED_frame_length]
  · exact TLC5940.setLED_bytes _ _ _ (TLC5940.setLED_bytes _ _ _ hb)
  · exact TLC5940.setLED_bytes _ _ _ hb
  · intro k
    by_cases hkc : 12 * c ≤ k ∧ k < 12 * c + 12
    · obtain ⟨j, rfl⟩ : ∃ j, k = 12 * c + j := ⟨k - 12 * c, by omega⟩
      have hj : j < 12 := by omega
      rw [frameBit_of_fieldStored _ c _ j (TLC5940.setLED_fieldStored _ c v2 hc hlc1 hv21) hj,
        frameBit_of_fieldStored _ c _ j (TLC5940.setLED_fieldStored t c v2 hc hlc hv2) hj,
        TLC5940.setLED_shiftbits]
    · rw [TLC5940.frameBit_setLED_outside _ c v2 _ hc hlc1 hv21 (by omega),
        TLC5940.frameBit_setLED_outside _ c v1 _ hc hlc hv1 (by omega),
        TLC5940.frameBit_setLED_outside _ c v2 _ hc hlc hv2 (by omega)]

/-! ## Drivers the constructor returns

The constructor is the only way to obtain a driver object and the members are
private, so the operations only ever run on the objects described by `Built`. -/

/-- Every driver object built with `N` chips has the members the constructor
set, a frame of `24 * N` bytes, and at most ten chips: with more the constructor
does not return. -/
theorem Built.shape (N r : Nat) (t : TLC5940) (hb : Built N r t) :
    t.numdrivers = N ∧ t.shiftbits = (12 + 256 - r) % 256 ∧ t.frame.length = N * 24 ∧
      N ≤ 10 := by
  induction hb with
  | construct fuel heap t h =>
    obtain ⟨hN, rfl⟩ := TLC5940.new_eq_some fuel heap N r t h
    exact ⟨rfl, rfl, by simp [TLC5940.zeroed], hN⟩
  | clear fuel t t2 _ h ih =>
    obtain ⟨h1, h2, h3, h4⟩ := ih
    obtain ⟨_, rfl⟩ := TLC5940.clear_eq_some fuel t t2 (by rw [h3, h1]) h
    exact ⟨h1, h2, by simp [h1], h4⟩
  | setLED t c v _ _ _ ih =>
    obtain ⟨h1, h2, h3, h4⟩ := ih
    exact ⟨by rw [TLC5940.setLED_numdrivers, h1], by rw [TLC5940.setLED_shiftbits, h2],
      by rw [TLC5940.setLED_frame_length, h3], h4⟩

/-- On a built driver an in-range intensity, shifted as `setLED` shifts it, is
`v << (12 - r)` and fits twelve bits. -/
theorem Built.shifted (N r : Nat) (hr1 : 1 ≤ r) (hr12 : r ≤ 12) (t : TLC5940)
    (hb : Built N r t) (v : Nat) (hv : v < 2 ^ r) :
    (v <<< t.shiftbits) % 65536 = v <<< (12 - r) ∧ v <<< (12 - r) < 4096 := by
  obtain ⟨_, h2, _, _⟩ := Built.shape N r t hb
  obtain ⟨_, e2, e3, _⟩ := shifted_intensity r v hr1 hr12 hv
  rw [h2, e2, Nat.shiftLeft_eq]
  exact ⟨rfl, e3⟩

theorem TLC5940.eq_of_members (a b : TLC5940) (h1 : a.shiftbits = b.shiftbits)
    (h2 : a.numdrivers = b.numdrivers) (h3 : a.frame = b.frame) : a = b := by
  cases a; cases b
  simp only at h1 h2 h3
  subst h1; subst h2; subst h3
  rfl

/-! ## Settled claims: packing on the drivers the constructor returns -/

/-- C2.  For a resolution `r` in 1..12, every driver object built with `N` chips
(by the constructor, `clear()` and in-range `setLED` calls), every channel
`c < 16 * N` and every intensity `v < 2^r`: after `setLED(c, v)` the frame holds
the field `f = v << (12 - r)` in the slot of channel `c`.  With `b = ⌊12·c/8⌋`,
if `12·c` is a multiple of 8 then byte `b` is `f >> 4` and the high nibble of
byte `b + 1` is `f & 0xF`; otherwise the low nibble of byte `b` is `f >> 8` and
byte `b + 1` is `f & 0xFF`. -/
theorem setLED_packs_field (N r : Nat) (hr1 : 1 ≤ r) (hr12 : r ≤ 12) (t : TLC5940)
    (hb : Built N r t) (c v : Nat) (hc : c < 16 * N) (hv : v < 2 ^ r) :
    fieldStored (t.setLED c v).frame c (v <<< (12 - r)) ∧
    (12 * c % 8 = 0 →
      (t.setLED c v).frame.getD (12 * c / 8) 0 = (v <<< (12 - r)) >>> 4 ∧
      (t.setLED c v).frame.getD (12 * c / 8 + 1) 0 >>> 4 = (v <<< (12 - r)) &&& 0xF) ∧
    (¬ 12 * c % 8 = 0 →
      (t.setLED c v).frame.getD (12 * c / 8) 0 &&& 0xF = (v <<< (12 - r)) >>> 8 ∧
      (t.setLED c v).frame.getD (12 * c / 8 + 1) 0 = (v <<< (12 - r)) &&& 0xFF) := by
  obtain ⟨_, _, h3, h4⟩ := Built.shape N r t hb
  obtain ⟨hsh, hf⟩ := Built.shifted N r hr1 hr12 t hb v hv
  have hs := TLC5940.setLED_fieldStored t c v (by omega) (by rw [h3]; omega)
    (by rw [hsh]; exact hf)
  rw [hsh] at hs
  refine ⟨hs, ?_, ?_⟩
  · intro h
    unfold fieldStored at hs
    simp only [h, if_true] at hs
    exact hs
  · intro h
    unfold fieldStored at hs
    simp only [h, if_false] at hs
    exact hs

/-- C2, instance: the example of the specification.  One chip, 12-bit
resolution; on the driver left by the constructor and `setLED(0, 4095)`, the
call `setLED(1, 0)` stores the field 0 in the slot of channel 1, and the frame
starts with the bytes `0xFF 0xF0 0x00`. -/
theorem setLED_packs_field_witness :
    Built 1 12 ((TLC5940.zeroed 1 12).setLED 0 4095) ∧ 1 < 16 * 1 ∧ 0 < 2 ^ 12 ∧
    fieldStored (((TLC5940.zeroed 1 12).setLED 0 4095).setLED 1 0).frame 1 (0 <<< (12 - 12)) ∧
    (((TLC5940.zeroed 1 12).setLED 0 4095).setLED 1 0).frame.take 3 = [0xFF, 0xF0, 0x00] := by
  have hb : Built 1 12 ((TLC5940.zeroed 1 12).setLED 0 4095) :=
    Built.setLED _ 0 4095
      (Built.construct 25 (fun _ => 0) _ (TLC5940.new_some 25 _ 1 12 (by decide) (by decide)))
      (by decide) (by decide)
  exact ⟨hb, by decide, by decide,
    (setLED_packs_field 1 12 (by decide) (by decide) _ hb 1 0 (by decide) (by decide)).1,
    by decide⟩

/-- C3.  For a resolution `r` in 1..12, a driver object `t0` built with `N`
chips, any buffer contents `frame` of `24 * N` entries in its place (so in
particular the buffer of every built driver), every channel `c < 16 * N` and
every intensity `v < 2^r`: `setLED(c, v)` leaves every frame bit outside bits
`12·c .. 12·c + 11` unchanged, leaves every byte other than the two that hold
the slot of channel `c` unchanged, keeps in the shared byte the four bits of the
neighbouring channel, and keeps the length of the buffer. -/
theorem setLED_keeps_other_bits (N r : Nat) (hr1 : 1 ≤ r) (hr12 : r ≤ 12) (t0 : TLC5940)
    (hb : Built N r t0) (frame : List Nat) (hlen : frame.length = 24 * N) (c v : Nat)
    (hc : c < 16 * N) (hv : v < 2 ^ r) :
    (∀ k, ¬ (12 * c ≤ k ∧ k ≤ 12 * c + 11) →
      frameBit (TLC5940.setLED { t0 with frame := frame } c v).frame k = frameBit frame k) ∧
    (∀ k, k ≠ 12 * c / 8 → k ≠ 12 * c / 8 + 1 →
      (TLC5940.setLED { t0 with frame := frame } c v).frame.getD k 0 = frame.getD k 0) ∧
    (12 * c % 8 = 0 →
      (TLC5940.setLED { t0 with frame := frame } c v).frame.getD (12 * c / 8 + 1) 0 &&& 0xF
        = frame.getD (12 * c / 8 + 1) 0 &&& 0xF) ∧
    (¬ 12 * c % 8 = 0 →
      (TLC5940.setLED { t0 with frame := frame } c v).frame.getD (12 * c / 8) 0 &&& 0xf0
        = frame.getD (12 * c / 8) 0 &&& 0xf0) ∧
    (TLC5940.setLED { t0 with frame := frame } c v).frame.length = frame.length := by
  obtain ⟨_, _, _, h4⟩ := Built.shape N r t0 hb
  obtain ⟨hsh, hf⟩ := Built.shifted N r hr1 hr12 t0 hb v hv
  have hc170 : c ≤ 170 := by omega
  have hl : 12 * c / 8 + 1 < (TLC5940.mk t0.shiftbits t0.numdrivers frame).frame.length := by
    show 12 * c / 8 + 1 < frame.length
    omega
  have hf2 : (v <<< (TLC5940.mk t0.shiftbits t0.numdrivers frame).shiftbits) % 65536 < 4096 := by
    show (v <<< t0.shiftbits) % 65536 < 4096
    rw [hsh]; exact hf
  obtain ⟨e1, e2, e3⟩ := TLC5940.setLED_frame_elsewhere _ c v hc170 hl hf2
  exact ⟨fun k hk => TLC5940.frameBit_setLED_outside _ c v k hc170 hl hf2 (by omega),
    e1, e2, e3, TLC5940.setLED_frame_length _ c v⟩

/-- C3, instance: one chip, 12-bit resolution, every byte of the buffer `0xAA`;
`setLED(1, 0x123)` changes the low nibble of byte 1 and byte 2 only, and frame
bit 8, the last bit of channel 0, is kept. -/
theorem setLED_keeps_other_bits_witness :
    Built 1 12 (TLC5940.zeroed 1 12) ∧ (List.replicate 24 0xAA).length = 24 * 1 ∧
    1 < 16 * 1 ∧ 0x123 < 2 ^ 12 ∧ ¬ (12 * 1 ≤ 8 ∧ 8 ≤ 12 * 1 + 11) ∧
    frameBit (TLC5940.setLED { TLC5940.zeroed 1 12 with frame := List.replicate 24 0xAA }
      1 0x123).frame 8 = frameBit (List.replicate 24 0xAA) 8 ∧
    (TLC5940.setLED { TLC5940.zeroed 1 12 with frame := List.replicate 24 0xAA }
      1 0x123).frame.take 4 = [0xAA, 0xA1, 0x23, 0xAA] := by
  have hb : Built 1 12 (TLC5940.zeroed 1 12) :=
    Built.construct 25 (fun _ => 0) _ (TLC5940.new_some 25 _ 1 12 (by decide) (by decide))
  exact ⟨hb, by decide, by decide, by decide, by decide,
    (setLED_keeps_other_bits 1 12 (by decide) (by decide) _ hb (List.replicate 24 0xAA)
      (by decide) 1 0x123 (by decide) (by decide)).1 8 (by decide),
    by decide⟩

/-! ## Settled claim: channel addressing -/

/-- C18.  For a resolution `r` in 1..12, a driver object `t0` built with `N`
chips and any buffer of `24 * N` bytes in its place (so in particular the buffer
of every built driver): for distinct channels `c, d < 16 * N` and intensities
`v, w < 2^r`, `setLED(c, v); setLED(d, w)` and `setLED(d, w); setLED(c, v)` leave
the same driver object; and `setLED(c, v1); setLED(c, v2)` leaves the same
driver object as `setLED(c, v2)` alone. -/
theorem setLED_order_independent (N r : Nat) (hr1 : 1 ≤ r) (hr12 : r ≤ 12) (t0 : TLC5940)
    (hb : Built N r t0) (frame : List Nat) (hlen : frame.length = 24 * N)
    (hbytes : ∀ x ∈ frame, x < 256) :
    (∀ c d v w, c < 16 * N → d < 16 * N → c ≠ d → v < 2 ^ r → w < 2 ^ r →
      (TLC5940.setLED { t0 with frame := frame } c v).setLED d w
        = (TLC5940.setLED { t0 with frame := frame } d w).setLED c v) ∧
    (∀ c v1 v2, c < 16 * N → v1 < 2 ^ r → v2 < 2 ^ r →
      (TLC5940.setLED { t0 with frame := frame } c v1).setLED c v2
        = TLC5940.setLED { t0 with frame := frame } c v2) := by
  obtain ⟨_, _, _, h4⟩ := Built.shape N r t0 hb
  have hl : ∀ c, c < 16 * N →
      12 * c / 8 + 1 < (TLC5940.mk t0.shiftbits t0.numdrivers frame).frame.length := by
    intro c hc
    show 12 * c / 8 + 1 < frame.length
    omega
  have hf : ∀ v, v < 2 ^ r →
      (v <<< (TLC5940.mk t0.shiftbits t0.numdrivers frame).shiftbits) % 65536 < 4096 := by
    intro v hv
    obtain ⟨hsh, hlt⟩ := Built.shifted N r hr1 hr12 t0 hb v hv
    show (v <<< t0.shiftbits) % 65536 < 4096
    rw [hsh]; exact hlt
  constructor
  · intro c d v w hc hd hne hv hw
    apply TLC5940.eq_of_members
    · simp only [TLC5940.setLED_shiftbits]
    · simp only [TLC5940.setLED_numdrivers]
    · exact TLC5940.setLED_comm _ c d v w (by omega) (by omega) hne (hl c hc) (hl d hd)
        (hf v hv) (hf w hw) hbytes
  · intro c v1 v2 hc hv1 hv2
    apply TLC5940.eq_of_members
    · simp only [TLC5940.setLED_shiftbits]
    · simp only [TLC5940.setLED_numdrivers]
    · exact TLC5940.setLED_overwrite _ c v1 v2 (by omega) (hl c hc) (hf v1 hv1) (hf v2 hv2)
        hbytes

/-- C18, instance: one chip, 12-bit resolution, the zeroed buffer of the
constructor.  Channels 0 and 1 share byte 1; `setLED(0, 4095); setLED(1, 0x123)`
and the reverse order both leave the bytes `0xFF 0xF1 0x23`, and writing 7 and
then `0x123` to channel 1 leaves what writing `0x123` alone does. -/
theorem setLED_order_independent_witness :
    Built 1 12 (TLC5940.zeroed 1 12) ∧ (TLC5940.zeroed 1 12).frame.length = 24 * 1 ∧
    (∀ x ∈ (TLC5940.zeroed 1 12).frame, x < 256) ∧
    ((TLC5940.zeroed 1 12).setLED 0 4095).setLED 1 0x123
      = ((TLC5940.zeroed 1 12).setLED 1 0x123).setLED 0 4095 ∧
    ((TLC5940.zeroed 1 12).setLED 1 7).setLED 1 0x123 = (TLC5940.zeroed 1 12).setLED 1 0x123 ∧
    (((TLC5940.zeroed 1 12).setLED 1 0x123).setLED 0 4095).frame.take 3 = [0xFF, 0xF1, 0x23] := by
  have hb : Built 1 12 (TLC5940.zeroed 1 12) :=
    Built.construct 25 (fun _ => 0) _ (TLC5940.new_some 25 _ 1 12 (by decide) (by decide))
  have hbytes : ∀ x ∈ (TLC5940.zeroed 1 12).frame, x < 256 := by decide
  have h := setLED_order_independent 1 12 (by decide) (by decide) _ hb
    (TLC5940.zeroed 1 12).frame (by decide) hbytes
  exact ⟨hb, by decide, hbytes,
    h.1 0 1 4095 0x123 (by decide) (by decide) (by decide) (by decide) (by decide),
    h.2 1 7 0x123 (by decide) (by decide) (by decide), by decide⟩

/-! ## The bit stream of a frame filled by `setLED` calls -/

theorem frameBits_cons (a : Nat) (l : List Nat) :
    frameBits (a :: l) = byteBits a ++ frameBits l := by
  simp [frameBits]

/-- Entry `k` of the bit string of a frame is frame bit `k`. -/
theorem frameBits_getElem? (frame : List Nat) (k : Nat) (hk : k < 8 * frame.length) :
    (frameBits frame)[k]? = some (frameBit frame k) := by
  induction frame generalizing k with
  | nil => simp at hk
  | cons a l ih =>
    have hl8 : (byteBits a).length = 8 := by simp [byteBits]
    rw [frameBits_cons]
    by_cases h8 : k < 8
    · rw [List.getElem?_append_left (by rw [hl8]; exact h8)]
      have e1 : k / 8 = 0 := by omega
      have e2 : k % 8 = k := by omega
      unfold frameBit
      rw [e1, e2]
      simp [byteBits, h8]
    · rw [List.getElem?_append_right (by rw [hl8]; omega), hl8,
        ih (k - 8) (by simp only [List.length_cons] at hk; omega)]
      unfold frameBit
      have e1 : k / 8 = (k - 8) / 8 + 1 := by omega
      have e2 : k % 8 = (k - 8) % 8 := by omega
      rw [e1, e2]
      rfl

theorem length_flatMap_range (g : Nat → List Bool) (hg : ∀ c, (g c).length = 12) (n : Nat) :
    ((List.range n).flatMap g).length = 12 * n := by
  induction n with
  | zero => rfl
  | succ n ih =>
    rw [List.range_succ, List.flatMap_append, List.length_append, ih]
    simp [hg]
    omega

/-- Entry `k` of a concatenation of twelve-bit pieces is entry `k mod 12` of
piece `k / 12`. -/
theorem flatMap_range_getElem? (g : Nat → List Bool) (hg : ∀ c, (g c).length = 12)
    (n k : Nat) (hk : k < 12 * n) :
    ((List.range n).flatMap g)[k]? = (g (k / 12))[k % 12]? := by
  induction n with
  | zero => omega
  | succ n ih =>
    have hl := length_flatMap_range g hg n
    have hs : (List.range (n + 1)).flatMap g = (List.range n).flatMap g ++ g n := by
      rw [List.range_succ, List.flatMap_append]
      simp
    rw [hs]
    by_cases hlt : k < 12 * n
    · rw [List.getElem?_append_left (by rw [hl]; exact hlt)]
      exact ih hlt
    · rw [List.getElem?_append_right (by rw [hl]; omega), hl]
      have e1 : k / 12 = n := by omega
      have e2 : k % 12 = k - 12 * n := by omega
      rw [e1, e2]

theorem fieldBits_getElem? (f j : Nat) (hj : j < 12) :
    (fieldBits f)[j]? = some (f.testBit (11 - j)) := by
  simp [fieldBits, hj]

/-- A frame of `24 * N` bytes whose slots hold the fields `field c` is, as a bit
string, the concatenation of those fields in channel order, each most
significant bit first. -/
theorem frameBits_eq_fields (frame : List Nat) (N : Nat) (field : Nat → Nat)
    (hlen : frame.length = N * 24)
    (h : ∀ c j, c < 16 * N → j < 12 → frameBit frame (12 * c + j) = (field c).testBit (11 - j)) :
    frameBits frame = (List.range (16 * N)).flatMap (fun c => fieldBits (field c)) := by
  have hg : ∀ c, (fieldBits (field c)).length = 12 := fun c => by simp [fieldBits]
  have hl1 : (frameBits frame).length = 192 * N := by rw [frameBits_length, hlen]; omega
  have hl2 : ((List.range (16 * N)).flatMap (fun c => fieldBits (field c))).length = 192 * N := by
    rw [length_flatMap_range _ hg]; omega
  apply List.ext_getElem (by rw [hl1, hl2])
  intro k h1 h2
  have hk : k < 192 * N := by rw [hl1] at h1; exact h1
  have a := frameBits_getElem? frame k (by rw [hlen]; omega)
  have b := flatMap_range_getElem? (fun c => fieldBits (field c)) hg (16 * N) k (by omega)
  rw [fieldBits_getElem? _ _ (Nat.mod_lt _ (by decide))] at b
  have hkk : 12 * (k / 12) + k % 12 = k := Nat.div_add_mod k 12
  have hb2 := h (k / 12) (k % 12) (by omega) (Nat.mod_lt _ (by decide))
  rw [hkk] at hb2
  rw [List.getElem?_eq_getElem h1] at a
  rw [List.getElem?_eq_getElem h2] at b
  have a2 := Option.some.inj a
  have b2 := Option.some.inj b
  rw [a2, b2, hb2]

/-- In-range writes to a built driver leave a built driver, and each slot then
holds the field of the last intensity written to its channel. -/
theorem Built.fields (N r : Nat) (hr1 : 1 ≤ r) (hr12 : r ≤ 12) (ws : List (Nat × Nat)) :
    ∀ (t : TLC5940) (g : Nat → Nat), Built N r t →
      (∀ c j, c < 16 * N → j < 12 →
        frameBit t.frame (12 * c + j) = (g c <<< (12 - r)).testBit (11 - j)) →
      (∀ w ∈ ws, w.1 < 16 * N ∧ w.2 < 2 ^ r) →
      Built N r (t.setLEDs ws) ∧
      ∀ c j, c < 16 * N → j < 12 →
        frameBit (t.setLEDs ws).frame (12 * c + j)
          = (lastWrite ws c (g c) <<< (12 - r)).testBit (11 - j) := by
  induction ws with
  | nil =>
    intro t g hb hP _
    exact ⟨hb, hP⟩
  | cons w ws ih =>
    intro t g hb hP hws
    obtain ⟨hw1, hw2⟩ := hws w (List.mem_cons_self _ _)
    obtain ⟨_, _, h3, h4⟩ := Built.shape N r t hb
    obtain ⟨hsh, hf⟩ := Built.shifted N r hr1 hr12 t hb w.2 hw2
    have hc170 : w.1 ≤ 170 := by omega
    have hlen : 12 * w.1 / 8 + 1 < t.frame.length := by rw [h3]; omega
    have hf2 : (w.2 <<< t.shiftbits) % 65536 < 4096 := by rw [hsh]; exact hf
    have hP2 : ∀ c j, c < 16 * N → j < 12 →
        frameBit (t.setLED w.1 w.2).frame (12 * c + j)
          = ((if w.1 = c then w.2 else g c) <<< (12 - r)).testBit (11 - j) := by
      intro c j hc hj
      by_cases hcw : w.1 = c
      · subst hcw
        simp only [if_true]
        rw [frameBit_of_fieldStored _ w.1 _ j
          (TLC5940.setLED_fieldStored t w.1 w.2 hc170 hlen hf2) hj, hsh]
      · simp only [hcw, if_false]
        rw [TLC5940.frameBit_setLED_outside t w.1 w.2 _ hc170 hlen hf2 (by omega)]
        exact hP c j hc hj
    exact ih (t.setLED w.1 w.2) (fun c => if w.1 = c then w.2 else g c)
      (Built.setLED t w.1 w.2 hb hw1 hw2) hP2
      (fun x hx => hws x (List.mem_cons_of_mem _ hx))

theorem risings_map_unport (bit : Nat) (tr : List Ev) :
    risings bit (tr.map Ev.unport) = risings bit tr := by
  induction tr with
  | nil => rfl
  | cons e tr ih =>
    have h1 : risings bit (e :: tr) = risings bit [e] + risings bit tr :=
      risings_append bit [e] tr
    have h2 : risings bit ((e :: tr).map Ev.unport)
        = risings bit [e.unport] + risings bit (tr.map Ev.unport) :=
      risings_append bit [e.unport] (tr.map Ev.unport)
    have h3 : risings bit [e.unport] = risings bit [e] := by
      simp only [risings, List.filter, act_unport]
      cases e.act == some (bit, true) <;> rfl
    rw [h1, h2, h3, ih]

/-! ## Settled claim: `display` -/

/-- C6.  For a resolution `r` in 1..12, every driver object `t` built with `N`
chips, and `tlc5940_transferdone` clear on entry, `display` returns.  Its
stores are, in order: program-mode line low; `3 * 192 * N` port stores that
clock out the `192 * N` bits of the `24 * N` frame bytes, bytes in order, most
significant bit first; and last the store that sets `tlc5940_transferdone`.
Nothing else of the machine changes (`tlc5940_needpulse` in particular), and
`display` has no access to the driver object other than reading it.  If the
buffer was produced by `clear()` followed by in-range `setLED` calls `ws`, the
bits clocked out are the concatenation, over the channels `0 .. 16 * N - 1`, of
the twelve-bit fields `v_c << (12 - r)`, most significant bit first, where
`v_c` is the last intensity written to channel `c` (0 if none). -/
theorem display_publishes_frame (N r : Nat) (hr1 : 1 ≤ r) (hr12 : r ≤ 12) (t : TLC5940)
    (hb : Built N r t) (fuel : Nat) (m : Machine) (htd : m.tlc5940_transferdone = false)
    (hfuel : 24 * N < fuel) :
    (∃ m2 port evs, TLC5940.display fuel t m = some m2 ∧
      m2 = { m with PORTB := m2.PORTB, tlc5940_transferdone := true, trace := m2.trace } ∧
      m2.trace = m.trace ++ [Ev.pin VPRG_PIN false port] ++ evs ++ [Ev.transferdone true] ∧
      evs.filterMap Ev.act = (frameBits t.frame).flatMap bitActs ∧
      evs.length = 3 * (192 * N) ∧
      sampled evs = frameBits t.frame ∧
      t.frame.length = 24 * N ∧ (frameBits t.frame).length = 192 * N ∧
      risings SCLK_PIN evs = 192 * N ∧ risings XLAT_PIN evs = 0) ∧
    (∀ cfuel t1 ws, TLC5940.clear cfuel t = some t1 →
      (∀ w ∈ ws, w.1 < 16 * N ∧ w.2 < 2 ^ r) →
      ∃ m2 port evs, TLC5940.display fuel (t1.setLEDs ws) m = some m2 ∧
        m2.trace = m.trace ++ [Ev.pin VPRG_PIN false port] ++ evs ++ [Ev.transferdone true] ∧
        sampled evs =
          (List.range (16 * N)).flatMap
            (fun c => fieldBits (lastWrite ws c 0 <<< (12 - r)))) := by
  have obs : ∀ u, Built N r u →
      ∃ m2 port evs, TLC5940.display fuel u m = some m2 ∧
        m2 = { m with PORTB := m2.PORTB, tlc5940_transferdone := true, trace := m2.trace } ∧
        m2.trace = m.trace ++ [Ev.pin VPRG_PIN false port] ++ evs ++ [Ev.transferdone true] ∧
        evs.filterMap Ev.act = (frameBits u.frame).flatMap bitActs ∧
        evs.length = 3 * (192 * N) ∧
        sampled evs = frameBits u.frame ∧
        u.frame.length = 24 * N ∧ (frameBits u.frame).length = 192 * N ∧
        risings SCLK_PIN evs = 192 * N ∧ risings XLAT_PIN evs = 0 := by
    intro u hu
    obtain ⟨h1, _, h3, h4⟩ := Built.shape N r u hu
    obtain ⟨m2, port, evs, a1, a2, a3, a4, a5, a6, a7, a8, a9⟩ :=
      TLC5940.display_observed fuel u m (by omega) (by rw [h3, h1]) htd (by rw [h1]; omega)
    rw [h1] at a5 a7 a8
    exact ⟨m2, port, evs, a1, a2, a3, a4, a5, a6, by omega, a7, a8, a9⟩
  refine ⟨obs t hb, ?_⟩
  intro cfuel t1 ws hcl hws
  obtain ⟨h1, _, h3, _⟩ := Built.shape N r t hb
  obtain ⟨_, ht1⟩ := TLC5940.clear_eq_some cfuel t t1 (by rw [h3, h1]) hcl
  have hz : ∀ c j, c < 16 * N → j < 12 →
      frameBit t1.frame (12 * c + j) = ((fun _ => 0) c <<< (12 - r)).testBit (11 - j) := by
    intro c j _ _
    rw [ht1]
    show frameBit (List.replicate (t.numdrivers * 24) 0) (12 * c + j) = _
    rw [frameBit_replicate_zero, Nat.zero_shiftLeft, Nat.zero_testBit]
  obtain ⟨hb2, hfields⟩ :=
    Built.fields N r hr1 hr12 ws t1 (fun _ => 0) (Built.clear cfuel t t1 hb hcl) hz hws
  obtain ⟨_, _, h32, _⟩ := Built.shape N r _ hb2
  obtain ⟨m2, port, evs, a1, _, a3, _, _, a6, _⟩ := obs _ hb2
  refine ⟨m2, port, evs, a1, a3, ?_⟩
  rw [a6]
  exact frameBits_eq_fields _ N (fun c => lastWrite ws c 0 <<< (12 - r)) h32 hfields

/-- C6, instance: one chip, 12-bit resolution, from reset.  After the
constructor, `clear()`, `setLED(0, 4095)` and `setLED(1, 0)`, `display` returns
and clocks out the fields of channels 0 to 15 in order; the first 24 bits are
twelve ones (channel 0) and twelve zeros (channel 1). -/
theorem display_publishes_frame_witness :
    Built 1 12 (TLC5940.zeroed 1 12) ∧ Machine.reset.tlc5940_transferdone = false ∧
    24 * 1 < 25 ∧
    (∃ m2 port evs,
      TLC5940.display 25 ((TLC5940.zeroed 1 12).setLEDs [(0, 4095), (1, 0)]) Machine.reset
        = some m2 ∧
      m2.trace = Machine.reset.trace ++ [Ev.pin VPRG_PIN false port] ++ evs
        ++ [Ev.transferdone true] ∧
      sampled evs =
        (List.range (16 * 1)).flatMap
          (fun c => fieldBits (lastWrite [(0, 4095), (1, 0)] c 0 <<< (12 - 12)))) ∧
    ((List.range (16 * 1)).flatMap
        (fun c => fieldBits (lastWrite [(0, 4095), (1, 0)] c 0 <<< (12 - 12)))).take 24
      = List.replicate 12 true ++ List.replicate 12 false := by
  have hb : Built 1 12 (TLC5940.zeroed 1 12) :=
    Built.construct 25 (fun _ => 0) _ (TLC5940.new_some 25 _ 1 12 (by decide) (by decide))
  exact ⟨hb, rfl, by decide,
    (display_publishes_frame 1 12 (by decide) (by decide) _ hb 25 Machine.reset rfl
      (by decide)).2 25 (TLC5940.zeroed 1 12) [(0, 4095), (1, 0)] (by decide) (by decide),
    by decide⟩

/-! ## Settled claim: `setGlobalDC` -/

/-- C11.  For every driver object `t` built with `N` chips, a value below 64
and `tlc5940_transferdone` clear on entry, `setGlobalDC` returns.  Its stores
are, in order: program-mode line high; `3 * 96 * N` port stores that clock out
the six bits of the value, most significant first, `16 * N` times (`96 * N`
clock pulses, no latch store among them); latch high, latch low (the only latch
pulse, with program mode still high); program-mode line low; and the store that
sets `tlc5940_needpulse`.  Nothing else of the machine changes, so
`tlc5940_transferdone` stays clear; `setGlobalDC` has no access to the frame. -/
theorem setGlobalDC_programs_dot_correction (N r : Nat) (t : TLC5940) (hb : Built N r t)
    (fuel dcval : Nat) (m : Machine) (hv : dcval < 64)
    (htd : m.tlc5940_transferdone = false) (hfuel : 16 * N < fuel) :
    ∃ m2 evs, TLC5940.setGlobalDC fuel t dcval m = some m2 ∧
      m2 = { m with PORTB := m2.PORTB, tlc5940_needpulse := true, trace := m2.trace } ∧
      (m2.trace.drop m.trace.length).map Ev.unport =
        [Ev.pin VPRG_PIN true 0] ++ evs.map Ev.unport ++
          [Ev.pin XLAT_PIN true 0, Ev.pin XLAT_PIN false 0, Ev.pin VPRG_PIN false 0,
            Ev.needpulse true] ∧
      evs.filterMap Ev.act =
        (List.replicate (16 * N) (sixBits dcval)).flatten.flatMap bitActs ∧
      sampled evs = (List.replicate (16 * N) (sixBits dcval)).flatten ∧
      bitsToNat (sixBits dcval) = dcval ∧
      evs.length = 3 * (96 * N) ∧
      risings SCLK_PIN evs = 96 * N ∧ risings XLAT_PIN evs = 0 ∧
      risings XLAT_PIN (m2.trace.drop m.trace.length) = 1 ∧
      m2.tlc5940_transferdone = false ∧ m2.tlc5940_needpulse = true := by
  obtain ⟨h1, _, _, h4⟩ := Built.shape N r t hb
  obtain ⟨m2, evs, a1, a2, a3, a4, a5, a6, a7, a8⟩ :=
    TLC5940.setGlobalDC_observed fuel t dcval m (by omega) htd (by rw [h1]; omega)
  rw [h1] at a4 a5 a6 a7
  refine ⟨m2, evs, a1, a2, a3, a4, a5, bitsToNat_sixBits dcval hv, a6, a7, a8, ?_,
    (congrArg Machine.tlc5940_transferdone a2).trans htd,
    congrArg Machine.tlc5940_needpulse a2⟩
  rw [← risings_map_unport, a3, risings_append, risings_append, risings_map_unport, a8]
  rfl

/-- C11, instance: one chip, from reset, value 63.  `setGlobalDC` returns, has
clocked out sixteen times six ones, pulsed the latch once and set
`tlc5940_needpulse`. -/
theorem setGlobalDC_programs_dot_correction_witness :
    Built 1 12 (TLC5940.zeroed 1 12) ∧ 63 < 64 ∧ Machine.reset.tlc5940_transferdone = false ∧
    16 * 1 < 17 ∧
    ∃ m2 evs, TLC5940.setGlobalDC 17 (TLC5940.zeroed 1 12) 63 Machine.reset = some m2 ∧
      sampled evs = List.replicate 96 true ∧ risings SCLK_PIN evs = 96 * 1 ∧
      risings XLAT_PIN (m2.trace.drop Machine.reset.trace.length) = 1 ∧
      m2.tlc5940_transferdone = false ∧ m2.tlc5940_needpulse = true := by
  have hb : Built 1 12 (TLC5940.zeroed 1 12) :=
    Built.construct 25 (fun _ => 0) _ (TLC5940.new_some 25 _ 1 12 (by decide) (by decide))
  obtain ⟨m2, evs, a1, _, _, _, a5, _, _, a8, _, a10, a11, a12⟩ :=
    setGlobalDC_programs_dot_correction 1 12 _ hb 17 63 Machine.reset (by decide) rfl
      (by decide)
  refine ⟨hb, by decide, rfl, by decide, m2, evs, a1, ?_, a8, a10, a11, a12⟩
  rw [a5]
  decide

/-! ## Settled claim: hand-over of the extra clock pulse -/

/-- C12.  For every driver object `t` built with `N` chips and a machine state
with `tlc5940_transferdone` clear (whatever `tlc5940_needpulse` holds, so in
particular with both flags clear): `setGlobalDC` and then `display` return; the bits
`display` clocks out are the `192 * N` bits of the frame, the same as `display`
clocks out from the same state without the `setGlobalDC` before; the next firing
of the handler stores blank high, one latch pulse, then one serial-clock pulse,
blank low, and leaves both flags clear; a further `display` returns, and the
firing after it stores a latch pulse and no clock pulse.  From the state `init`
leaves (both flags set) the firings do the same. -/
theorem dc_pulse_handoff (N r : Nat) (t : TLC5940) (hb : Built N r t) (fuel dcval : Nat)
    (m : Machine) (htd : m.tlc5940_transferdone = false) (hfuel : 24 * N < fuel) :
    (∃ m0 port0 evs0 m1 m2 m4 port evs,
      TLC5940.display fuel t m = some m0 ∧
      m0.trace = m.trace ++ [Ev.pin VPRG_PIN false port0] ++ evs0 ++ [Ev.transferdone true] ∧
      TLC5940.setGlobalDC fuel t dcval m = some m1 ∧
      TLC5940.display fuel t m1 = some m2 ∧
      m2.trace = m1.trace ++ [Ev.pin VPRG_PIN false port] ++ evs ++ [Ev.transferdone true] ∧
      sampled evs = sampled evs0 ∧ sampled evs = frameBits t.frame ∧
      (frameBits t.frame).length = 192 * N ∧
      (isrEvents m2).filterMap Ev.act =
        [(BLANK_PIN, true), (XLAT_PIN, true), (XLAT_PIN, false), (SCLK_PIN, true),
          (SCLK_PIN, false), (BLANK_PIN, false)] ∧
      (TIMER1_OVF_vect m2).tlc5940_transferdone = false ∧
      (TIMER1_OVF_vect m2).tlc5940_needpulse = false ∧
      TLC5940.display fuel t (TIMER1_OVF_vect m2) = some m4 ∧
      (isrEvents m4).filterMap Ev.act =
        [(BLANK_PIN, true), (XLAT_PIN, true), (XLAT_PIN, false), (BLANK_PIN, false)] ∧
      (TIMER1_OVF_vect m4).tlc5940_transferdone = false ∧
      (TIMER1_OVF_vect m4).tlc5940_needpulse = false) ∧
    (∃ m2 m4,
      TLC5940.init fuel t m = some m2 ∧
      m2.tlc5940_transferdone = true ∧ m2.tlc5940_needpulse = true ∧
      (isrEvents m2).filterMap Ev.act =
        [(BLANK_PIN, true), (XLAT_PIN, true), (XLAT_PIN, false), (SCLK_PIN, true),
          (SCLK_PIN, false), (BLANK_PIN, false)] ∧
      (TIMER1_OVF_vect m2).tlc5940_transferdone = false ∧
      (TIMER1_OVF_vect m2).tlc5940_needpulse = false ∧
      TLC5940.display fuel t (TIMER1_OVF_vect m2) = some m4 ∧
      (isrEvents m4).filterMap Ev.act =
        [(BLANK_PIN, true), (XLAT_PIN, true), (XLAT_PIN, false), (BLANK_PIN, false)] ∧
      (TIMER1_OVF_vect m4).tlc5940_transferdone = false ∧
      (TIMER1_OVF_vect m4).tlc5940_needpulse = false) := by
  obtain ⟨h1, _, h3, h4⟩ := Built.shape N r t hb
  have hlen : t.frame.length = t.numdrivers * 24 := by rw [h3, h1]
  have hN : t.numdrivers ≤ 10 := by rw [h1]; exact h4
  have hf : t.numdrivers * 24 < fuel := by rw [h1]; omega
  obtain ⟨m0, port0, evs0, b1, _, b3, _, _, b6, b7, _⟩ :=
    TLC5940.display_observed fuel t m hN hlen htd hf
  obtain ⟨m1, m2, m4, port, evs, a1, a2, a3, a4, _, a6, a7, a8, a9, a10, a11, a12⟩ :=
    TLC5940.handoff fuel t dcval m hN hlen htd hf
  rw [h1] at b7
  exact ⟨⟨m0, port0, evs0, m1, m2, m4, port, evs, b1, b3, a1, a2, a3, by rw [a4, b6], a4, b7,
    a6, a7, a8, a9, a10, a11, a12⟩, TLC5940.handoff_after_init fuel t m hN hlen htd hf⟩

/-- C12, instance: one chip, 12-bit resolution, from reset, value 63.  After
`init` both flags are set; the first firing stores the latch pulse and the
extra clock pulse and clears both flags; after the next `display` the firing
stores the latch pulse only. -/
theorem dc_pulse_handoff_witness :
    Built 1 12 (TLC5940.zeroed 1 12) ∧ Machine.reset.tlc5940_transferdone = false ∧
    Machine.reset.tlc5940_needpulse = false ∧ 24 * 1 < 25 ∧
    ∃ m2 m4,
      TLC5940.init 25 (TLC5940.zeroed 1 12) Machine.reset = some m2 ∧
      m2.tlc5940_transferdone = true ∧ m2.tlc5940_needpulse = true ∧
      (isrEvents m2).filterMap Ev.act =
        [(BLANK_PIN, true), (XLAT_PIN, true), (XLAT_PIN, false), (SCLK_PIN, true),
          (SCLK_PIN, false), (BLANK_PIN, false)] ∧
      (TIMER1_OVF_vect m2).tlc5940_transferdone = false ∧
      (TIMER1_OVF_vect m2).tlc5940_needpulse = false ∧
      TLC5940.display 25 (TLC5940.zeroed 1 12) (TIMER1_OVF_vect m2) = some m4 ∧
      (isrEvents m4).filterMap Ev.act =
        [(BLANK_PIN, true), (XLAT_PIN, true), (XLAT_PIN, false), (BLANK_PIN, false)] ∧
      (TIMER1_OVF_vect m4).tlc5940_transferdone = false ∧
      (TIMER1_OVF_vect m4).tlc5940_needpulse = false := by
  have hb : Built 1 12 (TLC5940.zeroed 1 12) :=
    Built.construct 25 (fun _ => 0) _ (TLC5940.new_some 25 _ 1 12 (by decide) (by decide))
  exact ⟨hb, rfl, rfl, by decide,
    (dc_pulse_handoff 1 12 _ hb 25 63 Machine.reset rfl (by decide)).2⟩
